import Mathlib

/-!
# libsimdpp: splat, align, shift_r, ceil and the test helpers

A shallow embedding of the cross-lane kernels (`v_splat`, the tier kernels of
`i_splat`, `align`), the compile-time-count `shift_r` entry points, the
emulated `ceil`, the `rsqrt` refinement step, the `mask_float64<4>` class and
the test helpers `test_push_internal_vec` and `TemplateTestHelper` of
libsimdpp, with the properties proved about them.

Conventions of the embedding:

* a base vector is the list of its lanes, lane 0 first;
* a logical vector is the list of its base vectors (`Vec`);
* integer lanes are numbers, float lanes are their IEEE-754 bit patterns
  (a `Nat` below `2^32`), so a C++ bit cast between vector types of the same
  lane width is the identity on lanes;
* a `static_assert` that fails is the result `none`: the call does not build;
* a tier primitive whose source is not part of the embedded files is a
  parameter of the function that calls it.
-/

namespace Simdpp

/-! ## Definitions -/

/-! ### Logical vectors and `v_splat` (detail/insn/splat.h) -/

/-- A logical vector: its constituent base vectors in order, each the list of
its lanes. -/
structure Vec (α : Type) where
  vecs : List (List α)
deriving DecidableEq, Repr

/-- The number of base vectors, `V::vec_length`. -/
def Vec.vec_length {α : Type} (a : Vec α) : Nat := a.vecs.length

/-- Base vector access, `a.vec(i)`. -/
def Vec.vec {α : Type} (a : Vec α) (i : Nat) : List α := a.vecs.getD i []

/-- Assignment to a base vector, `a.vec(i) = b`. -/
def Vec.set_vec {α : Type} (a : Vec α) (i : Nat) (b : List α) : Vec α :=
  ⟨a.vecs.set i b⟩

/-- Logical lane `k` of a vector with base length `L`: lane `k mod L` of base
vector `k / L`. -/
def Vec.lane {α : Type} (L : Nat) (a : Vec α) (k : Nat) : Option α :=
  (a.vec (k / L)).get? (k % L)

/-- The loop `for (unsigned i = 0; i < V::vec_length; ++i) tmp_a.vec(i) = one;`
of `v_splat`, after its first `n` iterations. -/
def v_splat_loop {α : Type} (one : List α) (tmp_a : Vec α) : Nat → Vec α
  | 0 => tmp_a
  | i + 1 => (v_splat_loop one tmp_a i).set_vec i one

/-- The generic `v_splat<s>(a)`; `i_splat k` is the base-vector kernel
`i_splat<k>` and `L` is `U::length`. -/
def v_splat {α : Type} (i_splat : Nat → List α → List α) (L : Nat) (s : Nat)
    (a : Vec α) : Vec α :=
  let one := a.vec (s / L)
  let one := i_splat (s % L) one
  let tmp_a := a
  v_splat_loop one tmp_a a.vec_length

/-- Modelled from the spec: the base-vector kernels `i_splat16`, `i_splat8`,
`i_splat4`, `i_splat2` (core/splat_n.h, not among the embedded files), which
broadcast lane `k` of one base vector to all its lanes. -/
def i_splat_base (k : Nat) (b : List Nat) : List Nat :=
  List.replicate b.length (b.getD k 0)

/-- A vector of two base vectors of two lanes. -/
def splat_example : Vec Nat := ⟨[[1, 2], [3, 4]]⟩

/-! ### `align` (functions/align.h) -/

/-- The result vector `r` of the scalar loops together with the positions
assigned so far, in program order. -/
structure AlignState where
  r : List Nat
  writes : List Nat
deriving DecidableEq, Repr

/-- One assignment `r[i] = v`. -/
def AlignState.write (st : AlignState) (i v : Nat) : AlignState :=
  { r := st.r.set i v, writes := st.writes ++ [i] }

/-- First scalar loop, `for (int i = 0; i < (int)(16-shift); i++)
r[i] = lower[i + shift];`, after its first `n` iterations. -/
def align_null_loop1 (shift : Nat) (lower : List Nat) (st : AlignState) : Nat → AlignState
  | 0 => st
  | n + 1 =>
    let i := n
    (align_null_loop1 shift lower st n).write i (lower.getD (i + shift) 0)

/-- Second scalar loop, `for (unsigned i = 16-shift; i < 16; i++)
r[i] = upper[i - 16 + shift];`, after its first `n` iterations; the index
expression is evaluated in 32-bit unsigned arithmetic. -/
def align_null_loop2 (shift : Nat) (upper : List Nat) (st : AlignState) : Nat → AlignState
  | 0 => st
  | n + 1 =>
    let i := (16 - shift) + n
    (align_null_loop2 shift upper st n).write i
      (upper.getD (((i + 2 ^ 32 - 16) % 2 ^ 32 + shift) % 2 ^ 32) 0)

/-- The `SIMDPP_USE_NULL` branch of `align<shift>(basic_int8x16, basic_int8x16)`
run from the uninitialised `r` (contents `r0`), as a state. -/
def align_null_run (r0 : List Nat) (shift : Nat) (lower upper : List Nat) : AlignState :=
  let st : AlignState := { r := r0, writes := [] }
  let st := align_null_loop1 shift lower st (16 - shift)
  align_null_loop2 shift upper st (16 - (16 - shift))

/-- The `SIMDPP_USE_NULL` branch of `align<shift>(basic_int8x16, basic_int8x16)`:
the value it returns. -/
def align_null_kernel (r0 : List Nat) (shift : Nat) (lower upper : List Nat) : List Nat :=
  (align_null_run r0 shift lower upper).r

/-- The scalar tier kernel with `r` starting out as sixteen zero bytes. -/
def align_null_kernel_zero : Nat → List Nat → List Nat → List Nat :=
  align_null_kernel (List.replicate 16 0)

/-- The generic `align<shift>(basic_int8x16 lower, basic_int8x16 upper)`;
`kernel` is the code of the active tier that follows the two early returns. -/
def align_int8x16 (kernel : Nat → List Nat → List Nat → List Nat) (shift : Nat)
    (lower upper : List Nat) : Option (List Nat) :=
  if ¬ shift ≤ 16 then none
  else if shift = 0 then some lower
  else if shift = 16 then some upper
  else some (kernel shift lower upper)

/-- The generic `align<shift>(basic_int8x32 lower, basic_int8x32 upper)`; a
32-byte vector is the list of its bytes, `lower[0]` its first 16 and `lower[1]`
its last 16. `avx2` is `some` of the `_mm256_alignr_epi8` form when
`SIMDPP_USE_AVX2` holds. -/
def align_int8x32 (avx2 : Option (Nat → List Nat → List Nat → List Nat))
    (kernel : Nat → List Nat → List Nat → List Nat) (shift : Nat)
    (lower upper : List Nat) : Option (List Nat) :=
  if ¬ shift ≤ 16 then none
  else if shift = 0 then some lower
  else if shift = 16 then some upper
  else
    match avx2 with
    | some alignr256 => some (alignr256 shift lower upper)
    | none =>
      match align_int8x16 kernel shift (lower.take 16) (upper.take 16),
            align_int8x16 kernel shift (lower.drop 16) (upper.drop 16) with
      | some lo, some hi => some (lo ++ hi)
      | _, _ => none

/-- The bytes of one `b`-byte element, least significant first. -/
def le_split : Nat → Nat → List Nat
  | 0, _ => []
  | b + 1, x => x % 256 :: le_split b (x / 256)

/-- The `b`-byte element stored in a list of bytes, least significant first. -/
def le_combine : List Nat → Nat
  | [] => 0
  | x :: xs => x + 256 * le_combine xs

/-- Bit cast of a vector of `b`-byte elements to the byte vector of the same
register, e.g. `basic_int8x16(lower)` for a `basic_int16x8`. -/
def to_bytes (b : Nat) : List Nat → List Nat
  | [] => []
  | x :: v => le_split b x ++ to_bytes b v

/-- Bit cast of a byte vector to `n` elements of `b` bytes each. -/
def from_bytes (b : Nat) : Nat → List Nat → List Nat
  | 0, _ => []
  | n + 1, bytes => le_combine (bytes.take b) :: from_bytes b n (bytes.drop b)

/-- The generic `align<shift>(basic_int16x8, basic_int16x8)`. -/
def align_int16x8 (kernel : Nat → List Nat → List Nat → List Nat) (shift : Nat)
    (lower upper : List Nat) : Option (List Nat) :=
  if ¬ shift ≤ 8 then none
  else (align_int8x16 kernel (shift * 2) (to_bytes 2 lower) (to_bytes 2 upper)).map
    (from_bytes 2 8)

/-- The generic `align<shift>(basic_int16x16, basic_int16x16)`. -/
def align_int16x16 (avx2 : Option (Nat → List Nat → List Nat → List Nat))
    (kernel : Nat → List Nat → List Nat → List Nat) (shift : Nat)
    (lower upper : List Nat) : Option (List Nat) :=
  if ¬ shift ≤ 8 then none
  else (align_int8x32 avx2 kernel (shift * 2) (to_bytes 2 lower) (to_bytes 2 upper)).map
    (from_bytes 2 16)

/-- The generic `align<shift>(basic_int32x4, basic_int32x4)`. -/
def align_int32x4 (kernel : Nat → List Nat → List Nat → List Nat) (shift : Nat)
    (lower upper : List Nat) : Option (List Nat) :=
  if ¬ shift ≤ 4 then none
  else (align_int8x16 kernel (shift * 4) (to_bytes 4 lower) (to_bytes 4 upper)).map
    (from_bytes 4 4)

/-- The generic `align<shift>(basic_int32x8, basic_int32x8)`. -/
def align_int32x8 (avx2 : Option (Nat → List Nat → List Nat → List Nat))
    (kernel : Nat → List Nat → List Nat → List Nat) (shift : Nat)
    (lower upper : List Nat) : Option (List Nat) :=
  if ¬ shift ≤ 4 then none
  else (align_int8x32 avx2 kernel (shift * 4) (to_bytes 4 lower) (to_bytes 4 upper)).map
    (from_bytes 4 8)

/-- The generic `align<shift>(basic_int64x2, basic_int64x2)`. -/
def align_int64x2 (kernel : Nat → List Nat → List Nat → List Nat) (shift : Nat)
    (lower upper : List Nat) : Option (List Nat) :=
  if ¬ shift ≤ 2 then none
  else (align_int8x16 kernel (shift * 8) (to_bytes 8 lower) (to_bytes 8 upper)).map
    (from_bytes 8 2)

/-- The generic `align<shift>(basic_int64x4, basic_int64x4)`. -/
def align_int64x4 (avx2 : Option (Nat → List Nat → List Nat → List Nat))
    (kernel : Nat → List Nat → List Nat → List Nat) (shift : Nat)
    (lower upper : List Nat) : Option (List Nat) :=
  if ¬ shift ≤ 2 then none
  else (align_int8x32 avx2 kernel (shift * 8) (to_bytes 8 lower) (to_bytes 8 upper)).map
    (from_bytes 8 4)

/-- The generic `align<shift>(float32x4, float32x4)`: the lanes are bit
patterns, so the casts to and from `basic_int32x4` keep them as they are. -/
def align_float32x4 (kernel : Nat → List Nat → List Nat → List Nat) (shift : Nat)
    (lower upper : List Nat) : Option (List Nat) :=
  if ¬ shift ≤ 4 then none
  else align_int32x4 kernel shift lower upper

/-- The generic `align<shift>(float32x8, float32x8)`. -/
def align_float32x8 (avx2 : Option (Nat → List Nat → List Nat → List Nat))
    (kernel : Nat → List Nat → List Nat → List Nat) (shift : Nat)
    (lower upper : List Nat) : Option (List Nat) :=
  if ¬ shift ≤ 4 then none
  else align_int32x8 avx2 kernel shift lower upper

/-- The generic `align<shift>(float64x2, float64x2)`. -/
def align_float64x2 (kernel : Nat → List Nat → List Nat → List Nat) (shift : Nat)
    (lower upper : List Nat) : Option (List Nat) :=
  if ¬ shift ≤ 2 then none
  else align_int64x2 kernel shift lower upper

/-- The generic `align<shift>(float64x4, float64x4)`. -/
def align_float64x4 (avx2 : Option (Nat → List Nat → List Nat → List Nat))
    (kernel : Nat → List Nat → List Nat → List Nat) (shift : Nat)
    (lower upper : List Nat) : Option (List Nat) :=
  if ¬ shift ≤ 2 then none
  else align_int64x4 avx2 kernel shift lower upper

/-- The element types `align` is overloaded on. -/
inductive AlignElem where
  | int8 | int16 | int32 | int64 | float32 | float64
deriving DecidableEq, Repr

/-- Bytes per element. -/
def AlignElem.size : AlignElem → Nat
  | .int8 => 1
  | .int16 => 2
  | .int32 => 4
  | .int64 => 8
  | .float32 => 4
  | .float64 => 8

/-- Elements in one 128-bit base vector. -/
def AlignElem.base_width (T : AlignElem) : Nat := 16 / T.size

/-- Overload resolution of `align<shift>` on the 128-bit vector of element
type `T`. -/
def align128 (T : AlignElem) (kernel : Nat → List Nat → List Nat → List Nat) (shift : Nat)
    (lower upper : List Nat) : Option (List Nat) :=
  match T with
  | .int8 => align_int8x16 kernel shift lower upper
  | .int16 => align_int16x8 kernel shift lower upper
  | .int32 => align_int32x4 kernel shift lower upper
  | .int64 => align_int64x2 kernel shift lower upper
  | .float32 => align_float32x4 kernel shift lower upper
  | .float64 => align_float64x2 kernel shift lower upper

/-- Overload resolution of `align<shift>` on the 256-bit vector of element
type `T`. -/
def align256 (T : AlignElem) (avx2 : Option (Nat → List Nat → List Nat → List Nat))
    (kernel : Nat → List Nat → List Nat → List Nat) (shift : Nat)
    (lower upper : List Nat) : Option (List Nat) :=
  match T with
  | .int8 => align_int8x32 avx2 kernel shift lower upper
  | .int16 => align_int16x16 avx2 kernel shift lower upper
  | .int32 => align_int32x8 avx2 kernel shift lower upper
  | .int64 => align_int64x4 avx2 kernel shift lower upper
  | .float32 => align_float32x8 avx2 kernel shift lower upper
  | .float64 => align_float64x4 avx2 kernel shift lower upper

/-- A vector of `n` elements of `b` bytes each. -/
def wf_elems (b n : Nat) (v : List Nat) : Prop :=
  v.length = n ∧ ∀ x ∈ v, x < 256 ^ b

/-! ### Compile-time-count `shift_r` (core/i_shift_r.h) -/

/-- The vector `V::zero()` of `n` lanes. -/
def zero (n : Nat) : List Int := List.replicate n 0

/-- The vector an expression evaluates to, `a.eval()`; vectors of the embedding
are evaluated. -/
def eval (a : List Int) : List Int := a

/-- The entry point `shift_r<count>(int8<N,E>)`; `i_shift_r` is
`detail::insn::i_shift_r<count>` of the active tier. -/
def shift_r_int8 (i_shift_r : Nat → List Int → List Int) (count : Nat) (a : List Int) :
    Option (List Int) :=
  if ¬ count ≤ 8 then none
  else if count = 0 then some a
  else some (i_shift_r count (eval a))

/-- The entry point `shift_r<count>(uint8<N,E>)`. -/
def shift_r_uint8 (i_shift_r : Nat → List Int → List Int) (count : Nat) (a : List Int) :
    Option (List Int) :=
  if ¬ count ≤ 8 then none
  else if count = 0 then some a
  else if count = 8 then some (zero a.length)
  else some (i_shift_r count (eval a))

/-- The entry point `shift_r<count>(int16<N,E>)`. -/
def shift_r_int16 (i_shift_r : Nat → List Int → List Int) (count : Nat) (a : List Int) :
    Option (List Int) :=
  if ¬ count ≤ 16 then none
  else if count = 0 then some a
  else some (i_shift_r count (eval a))

/-- The entry point `shift_r<count>(uint16<N,E>)`. -/
def shift_r_uint16 (i_shift_r : Nat → List Int → List Int) (count : Nat) (a : List Int) :
    Option (List Int) :=
  if ¬ count ≤ 16 then none
  else if count = 0 then some a
  else if count = 16 then some (zero a.length)
  else some (i_shift_r count (eval a))

/-- The entry point `shift_r<count>(int32<N,E>)`. -/
def shift_r_int32 (i_shift_r : Nat → List Int → List Int) (count : Nat) (a : List Int) :
    Option (List Int) :=
  if ¬ count ≤ 32 then none
  else if count = 0 then some a
  else some (i_shift_r count (eval a))

/-- The entry point `shift_r<count>(uint32<N,E>)`. -/
def shift_r_uint32 (i_shift_r : Nat → List Int → List Int) (count : Nat) (a : List Int) :
    Option (List Int) :=
  if ¬ count ≤ 32 then none
  else if count = 0 then some a
  else if count = 32 then some (zero a.length)
  else some (i_shift_r count (eval a))

/-- The entry point `shift_r<count>(int64<N,E>)`. -/
def shift_r_int64 (i_shift_r : Nat → List Int → List Int) (count : Nat) (a : List Int) :
    Option (List Int) :=
  if ¬ count ≤ 64 then none
  else if count = 0 then some a
  else some (i_shift_r count (eval a))

/-- The entry point `shift_r<count>(uint64<N,E>)`. -/
def shift_r_uint64 (i_shift_r : Nat → List Int → List Int) (count : Nat) (a : List Int) :
    Option (List Int) :=
  if ¬ count ≤ 64 then none
  else if count = 0 then some a
  else if count = 64 then some (zero a.length)
  else some (i_shift_r count (eval a))

/-- The integer element types `shift_r` is overloaded on. -/
inductive IntElem where
  | int8 | uint8 | int16 | uint16 | int32 | uint32 | int64 | uint64
deriving DecidableEq, Repr

/-- Bit width of the element type. -/
def IntElem.bits : IntElem → Nat
  | .int8 => 8
  | .uint8 => 8
  | .int16 => 16
  | .uint16 => 16
  | .int32 => 32
  | .uint32 => 32
  | .int64 => 64
  | .uint64 => 64

/-- Whether the element type is unsigned. -/
def IntElem.is_unsigned : IntElem → Bool
  | .uint8 => true
  | .uint16 => true
  | .uint32 => true
  | .uint64 => true
  | _ => false

/-- Overload resolution of the compile-time-count `shift_r<count>(a)` on the
element type `T`. -/
def shift_r (T : IntElem) (i_shift_r : Nat → List Int → List Int) (count : Nat)
    (a : List Int) : Option (List Int) :=
  match T with
  | .int8 => shift_r_int8 i_shift_r count a
  | .uint8 => shift_r_uint8 i_shift_r count a
  | .int16 => shift_r_int16 i_shift_r count a
  | .uint16 => shift_r_uint16 i_shift_r count a
  | .int32 => shift_r_int32 i_shift_r count a
  | .uint32 => shift_r_uint32 i_shift_r count a
  | .int64 => shift_r_int64 i_shift_r count a
  | .uint64 => shift_r_uint64 i_shift_r count a

/-! ### float32 bit patterns -/

/-- Sign bit of a float32 bit pattern. -/
def f32_sign (a : Nat) : Nat := a / 2 ^ 31 % 2

/-- Biased exponent field of a float32 bit pattern. -/
def f32_exp (a : Nat) : Nat := a / 2 ^ 23 % 256

/-- Fraction field of a float32 bit pattern. -/
def f32_man (a : Nat) : Nat := a % 2 ^ 23

/-- The bit pattern is a NaN: exponent field all ones, fraction not zero. -/
def f32_is_nan (a : Nat) : Prop := f32_exp a = 255 ∧ f32_man a ≠ 0

instance (a : Nat) : Decidable (f32_is_nan a) :=
  inferInstanceAs (Decidable (f32_exp a = 255 ∧ f32_man a ≠ 0))

/-- The bit pattern is a finite number: neither an infinity nor a NaN. -/
def f32_is_finite (a : Nat) : Prop := f32_exp a ≠ 255

instance (a : Nat) : Decidable (f32_is_finite a) :=
  inferInstanceAs (Decidable (f32_exp a ≠ 255))

/-- The integer significand: the fraction, with the implicit leading bit for a
normal number. -/
def f32_sig (a : Nat) : Nat :=
  if f32_exp a = 0 then f32_man a else 2 ^ 23 + f32_man a

/-- The exponent of the last significand bit is `f32_scale a - 150`. -/
def f32_scale (a : Nat) : Nat :=
  if f32_exp a = 0 then 1 else f32_exp a

/-- The number a finite float32 bit pattern stands for:
`(-1)^sign * significand * 2^(scale - 150)`. -/
def f32_val (a : Nat) : ℚ :=
  (if f32_sign a = 1 then -1 else 1) * (f32_sig a : ℚ) * 2 ^ (f32_scale a - 150)
    / 2 ^ (150 - f32_scale a)

/-- Sign-magnitude ordering key: for bit patterns that are not NaN, the order
of the keys is the order of the floats they stand for, infinities included, and
the two zeros have the same key. -/
def f32_key (a : Nat) : Int :=
  if f32_sign a = 1 then - ((a % 2 ^ 31 : Nat) : Int) else ((a % 2 ^ 31 : Nat) : Int)

/-- The tiers that take the emulated branch of `ceil`; they differ in what the
float to integer conversion returns for a NaN or an out of range lane. -/
inductive CeilTier where
  | sse2
  | neon_flt_sp
deriving DecidableEq, Repr

/-! ### Lane primitives used by `ceil` (functions/f_ceil.h) -/

/-- Modelled from the spec: one lane of `abs(float32x4)` (functions/f_abs.h is
not among the embedded files): the absolute value clears the sign bit. -/
def f32_abs (a : Nat) : Nat := a % 2 ^ 31

/-- Modelled from the spec: one lane of `cmp_gt(float32x4, float32x4)`
(functions/cmp_gt.h is not among the embedded files): the mask lane is set when
`a > b` as floats, and never when an operand is a NaN (the ordered IEEE-754
comparison of `_mm_cmpgt_ps` and `vcgtq_f32`; denormals are compared by their
value, not flushed to zero). A mask lane is `true` for all ones and `false` for
all zeros. -/
def f32_cmp_gt (a b : Nat) : Bool :=
  decide (¬ f32_is_nan a ∧ ¬ f32_is_nan b ∧ f32_key b < f32_key a)

/-- Modelled from the spec: one lane of `cmp_eq(float32x4, float32x4)`
(functions/cmp_eq.h is not among the embedded files): the mask lane is set when
`a == b` as floats, and never when an operand is a NaN. -/
def f32_cmp_eq (a b : Nat) : Bool :=
  decide (¬ f32_is_nan a ∧ ¬ f32_is_nan b ∧ f32_key a = f32_key b)

/-- Modelled from the spec: one lane of the run-time-count
`shift_r(uint32x4, unsigned)`, whose tier kernel `detail::insn::i_shift_r` is
not among the embedded files: shifts right, shifting in zeros. -/
def u32_shift_r (a count : Nat) : Nat := a / 2 ^ count

/-- Modelled from the spec: one lane of `bit_xor` on 32-bit lanes. -/
def u32_bit_xor (a b : Nat) : Nat := a ^^^ b

/-- Modelled from the spec: one lane of `sub(int32x4, int32x4)`
(functions/i_sub.h is not among the embedded files): subtraction modulo
`2^32`. -/
def i32_sub (a b : Nat) : Nat := (a + 2 ^ 32 - b % 2 ^ 32) % 2 ^ 32

/-- Modelled from the spec: one lane of `add(int32x4, int32x4)`
(functions/i_add.h is not among the embedded files): addition modulo `2^32`. -/
def i32_add (a b : Nat) : Nat := (a + b) % 2 ^ 32

/-- Modelled from the spec: one lane of `to_int32x4(float32x4)`
(functions/to_int32.h is not among the embedded files): conversion to a signed
32-bit integer (in two's complement) by truncation. For a NaN or a value
outside the `int32` range, SSE2 (`cvttps2dq`) returns `0x80000000`; NEON
(`vcvtq_s32_f32`) returns 0 for a NaN and saturates otherwise. -/
def f32_to_int32 (t : CeilTier) (a : Nat) : Nat :=
  let e := f32_exp a
  let m := f32_man a
  if e = 255 ∧ m ≠ 0 then
    match t with
    | .sse2 => 0x80000000
    | .neon_flt_sp => 0
  else if e < 127 then 0
  else if e < 158 then
    let mag := (2 ^ 23 + m) * 2 ^ (e - 150) / 2 ^ (150 - e)
    if f32_sign a = 1 then 2 ^ 32 - mag else mag
  else if f32_sign a = 1 ∧ e = 158 ∧ m = 0 then 0x80000000
  else
    match t with
    | .sse2 => 0x80000000
    | .neon_flt_sp => if f32_sign a = 1 then 0x80000000 else 0x7FFFFFFF

/-- Index of the leading one bit of `n`, found by halving at most `fuel` times;
32 halvings are enough for a 32-bit number. -/
def leading_bit : Nat → Nat → Nat
  | 0, _ => 0
  | fuel + 1, n => if n < 2 then 0 else leading_bit fuel (n / 2) + 1

/-- Modelled from the spec: one lane of `to_float32x4(int32x4)`
(functions/to_float32.h is not among the embedded files): conversion of a
signed 32-bit integer (in two's complement) to float32, exact when the
magnitude is below `2^24` and rounded to nearest, ties to even, otherwise. -/
def i32_to_float32 (i : Nat) : Nat :=
  let mag := if 2 ^ 31 ≤ i then 2 ^ 32 - i else i
  let sign := if 2 ^ 31 ≤ i then 2 ^ 31 else 0
  if mag = 0 then 0
  else
    let p := leading_bit 32 mag
    if p ≤ 23 then sign + (127 + p) * 2 ^ 23 + (mag * 2 ^ (23 - p) - 2 ^ 23)
    else
      let sh := p - 23
      let q := mag / 2 ^ sh
      let r := mag % 2 ^ sh
      let half := 2 ^ (sh - 1)
      let q1 := if half < r ∨ (r = half ∧ q % 2 = 1) then q + 1 else q
      sign + (127 + p) * 2 ^ 23 + (q1 - 2 ^ 23)

/-- Modelled from the spec: one lane of `blend(on, off, mask)`
(functions/blend.h is not among the embedded files): the lane of `on` where the
mask is set, the lane of `off` elsewhere. -/
def lane_blend (v_on v_off : Nat) (mask : Bool) : Nat := if mask then v_on else v_off

/-! ### Vector primitives used by `ceil` -/

/-- Modelled from the spec: `abs(float32x4)`, lane by lane. -/
def abs (a : List Nat) : List Nat := a.map f32_abs

/-- Modelled from the spec: `float32x4::make_const(c)`, four lanes holding the
bit pattern `c`. -/
def make_const (c : Nat) : List Nat := List.replicate 4 c

/-- Modelled from the spec: `float32x4::zero()`. -/
def float32x4_zero : List Nat := List.replicate 4 0

/-- Modelled from the spec: `cmp_gt(float32x4, float32x4)`, lane by lane. -/
def cmp_gt (a b : List Nat) : List Bool := List.zipWith f32_cmp_gt a b

/-- Modelled from the spec: `cmp_eq(float32x4, float32x4)`, lane by lane. -/
def cmp_eq (a b : List Nat) : List Bool := List.zipWith f32_cmp_eq a b

/-- Modelled from the spec: `bit_or` of two masks, lane by lane. -/
def bit_or (x y : List Bool) : List Bool := List.zipWith (fun p q => p || q) x y

/-- Modelled from the spec: the run-time-count `shift_r(uint32x4, count)`. -/
def shift_r_count (a : List Nat) (count : Nat) : List Nat :=
  a.map (fun x => u32_shift_r x count)

/-- Modelled from the spec: `bit_xor(int32x4, int32x4)`, lane by lane. -/
def bit_xor (a b : List Nat) : List Nat := List.zipWith u32_bit_xor a b

/-- Modelled from the spec: `sub(int32x4, int32x4)`, lane by lane. -/
def sub (a b : List Nat) : List Nat := List.zipWith i32_sub a b

/-- Modelled from the spec: `add(int32x4, int32x4)`, lane by lane. -/
def add (a b : List Nat) : List Nat := List.zipWith i32_add a b

/-- Modelled from the spec: `to_int32x4(float32x4)`, lane by lane. -/
def to_int32x4 (t : CeilTier) (a : List Nat) : List Nat := a.map (f32_to_int32 t)

/-- Modelled from the spec: `to_float32x4(int32x4)`, lane by lane. -/
def to_float32x4 (a : List Nat) : List Nat := a.map i32_to_float32

/-- Modelled from the spec: `blend(on, off, mask)`, lane by lane. -/
def blend (v_on v_off : List Nat) (mask : List Bool) : List Nat :=
  List.zipWith (fun p m => lane_blend p.1 p.2 m) (List.zip v_on v_off) mask

/-! ### `ceil` (functions/f_ceil.h) -/

/-- The bit pattern of the float constant `8388607.0f`. -/
def f32_8388607 : Nat := 0x4AFFFFFE

/-- The `SIMDPP_USE_SSE2 || SIMDPP_USE_NEON_FLT_SP` branch of
`ceil(float32x4 a)`. -/
def ceil_emulated (t : CeilTier) (a : List Nat) : List Nat :=
  let ba := abs a
  let large_mask := cmp_gt ba (make_const f32_8388607)
  let zero_mask := cmp_eq ba float32x4_zero
  let mask := bit_or large_mask zero_mask
  let s := shift_r_count a 31
  let s := bit_xor s (make_const 0x00000001)
  let a_t := sub a s
  let ia := to_int32x4 t a_t
  let ia := add ia s
  let fa := to_float32x4 ia
  let a := blend a fa mask
  a

/-- One lane of `ceil_emulated`. -/
def ceil_lane (t : CeilTier) (a : Nat) : Nat :=
  let ba := f32_abs a
  let large_mask := f32_cmp_gt ba f32_8388607
  let zero_mask := f32_cmp_eq ba 0
  let mask := large_mask || zero_mask
  let s := u32_shift_r a 31
  let s := u32_bit_xor s 0x00000001
  let a_t := i32_sub a s
  let ia := f32_to_int32 t a_t
  let ia := i32_add ia s
  let fa := i32_to_float32 ia
  lane_blend a fa mask

/-- Modelled from the spec: the scalar reference `std::ceil` on one float32
(the C library is not part of the repository): a NaN gives a (quiet) NaN, an
infinity and every value without fractional bits is returned as it is, and any
other value gives the least integer not below it, a zero result keeping the
sign of the argument. -/
def std_ceil (a : Nat) : Nat :=
  if f32_is_nan a then a ||| 0x00400000
  else if 150 ≤ f32_exp a then a
  else
    let z : Int := ⌈f32_val a⌉
    if z = 0 then f32_sign a * 2 ^ 31
    else i32_to_float32 (z % 2 ^ 32).toNat

/-- The `SIMDPP_USE_NULL` branch of `ceil(float32x4 a)`:
`null::foreach<float32x4>(a, [](float x){ return std::ceil(x); })`. -/
def ceil_null (a : List Nat) : List Nat := a.map std_ceil

/-- The tier selection of `ceil(float32x4)`, in the order of its `#if` chain:
`SIMDPP_USE_NULL` or NEON without single precision floats, then SSE4.1, then
SSE2 or NEON with single precision floats (the emulated branch), then
AltiVec. -/
inductive CeilArch where
  | null
  | sse4_1
  | emulated (t : CeilTier)
  | altivec
deriving DecidableEq, Repr

/-- The function `ceil(float32x4 a)`; `mm_ceil_ps` and `vec_ceil` are the native
instructions `_mm_ceil_ps` and `vec_ceil` of the SSE4.1 and AltiVec tiers. -/
def ceil (arch : CeilArch) (mm_ceil_ps vec_ceil : List Nat → List Nat) (a : List Nat) :
    List Nat :=
  match arch with
  | .null => ceil_null a
  | .sse4_1 => mm_ceil_ps a
  | .emulated t => ceil_emulated t a
  | .altivec => vec_ceil a

/-- The least integer not below the magnitude of a finite float32 whose
exponent field is at most 150: `ceil (sig / 2^(150 - scale))`. -/
def f32_ceil_mag (a : Nat) : Nat :=
  (f32_sig a + 2 ^ (150 - f32_scale a) - 1) / 2 ^ (150 - f32_scale a)

/-- The integer part of the magnitude of a finite float32 whose exponent field is
at most 150: `floor (sig / 2^(150 - scale))`. -/
def f32_trunc_mag (a : Nat) : Nat :=
  f32_sig a / 2 ^ (150 - f32_scale a)

/-- The float is strictly between -1 and 0: sign bit set, magnitude not zero
and below the bit pattern of `1.0f`. -/
def f32_is_neg_fraction (a : Nat) : Prop :=
  f32_sign a = 1 ∧ 0 < f32_abs a ∧ f32_abs a < 0x3F800000

instance (a : Nat) : Decidable (f32_is_neg_fraction a) :=
  inferInstanceAs (Decidable (f32_sign a = 1 ∧ 0 < f32_abs a ∧ f32_abs a < 0x3F800000))

/-- A `float32x4` value: four lanes, each a 32-bit pattern. -/
def wf_float32x4 (a : List Nat) : Prop := a.length = 4 ∧ ∀ x ∈ a, x < 2 ^ 32

/-! ### Reciprocal square root refinement in exact arithmetic (detail/insn/f_rsqrt_rh.h) -/

/-- Modelled from the spec: `mul(float32x4, float32x4)` (core/f_mul.h is not
among the embedded files) in exact arithmetic, lane by lane. -/
def f_mul {K : Type} [Field K] (a b : List K) : List K := List.zipWith (fun p q => p * q) a b

/-- Modelled from the spec: `mul(float32x4, scalar)` in exact arithmetic: every
lane times the scalar. -/
def f_mul_scalar {K : Type} [Field K] (a : List K) (c : K) : List K := a.map (fun p => p * c)

/-- Modelled from the spec: `sub(scalar, float32x4)` (core/f_sub.h is not among
the embedded files) in exact arithmetic: the scalar minus every lane. -/
def f_sub_scalar {K : Type} [Field K] (c : K) (a : List K) : List K := a.map (fun p => c - p)

/-- The generic `v_rsqrt_rh(x, a)` in exact arithmetic. -/
def v_rsqrt_rh {K : Type} [Field K] (x a : List K) : List K :=
  let x2 := f_mul x x
  let r := f_mul a x2
  let r := f_sub_scalar 3.0 r
  let tmp_x := f_mul_scalar x 0.5
  let r := f_mul tmp_x r
  r

/-- The lambda of the scalar branch, `x * (3.0f - a*x*x) * 0.5f`, in exact
arithmetic. -/
def rsqrt_rh_scalar {K : Type} [Field K] (x a : K) : K := x * (3.0 - a * x * x) * 0.5

/-- Modelled from the spec: `detail::null::foreach<float32x4>(x, a, f)`
(detail/null/foreach.h is not among the embedded files): `f` applied to the
lanes of `x` and `a` pairwise. -/
def null_foreach2 {K : Type} (x a : List K) (f : K → K → K) : List K := List.zipWith f x a

/-- Modelled from the spec: the NEON instruction `vrsqrtsq_f32(p, q)`, the
reciprocal square root step `(3 - p*q) / 2`, in exact arithmetic, lane by
lane. -/
def vrsqrtsq_f32 {K : Type} [Field K] (p q : List K) : List K :=
  List.zipWith (fun u v => (3 - u * v) / 2) p q

/-- Modelled from the spec: the AltiVec instruction `vec_nmsub(a, b, c)`, the
negated multiply-subtract `-(a*b - c)`, in exact arithmetic, lane by lane. -/
def vec_nmsub {K : Type} [Field K] (a b c : List K) : List K :=
  List.zipWith (fun p cc => -(p - cc)) (List.zipWith (fun u v => u * v) a b) c

/-- Modelled from the spec: `make_float(c)`, four lanes holding `c`. -/
def make_float {K : Type} (c : K) : List K := List.replicate 4 c

/-- The tiers `i_rsqrt_rh(float32x4, float32x4)` distinguishes, in the order of
its `#if` chain: `SIMDPP_USE_NULL` or NEON without single precision floats, then
SSE2, then NEON with single precision floats, then AltiVec. -/
inductive RsqrtArch where
  | null
  | sse2
  | neon_flt_sp
  | altivec
deriving DecidableEq, Repr

/-- The `SIMDPP_USE_NEON_FLT_SP` branch of `i_rsqrt_rh(float32x4, float32x4)`. -/
def i_rsqrt_rh_neon {K : Type} [Field K] (cx a : List K) : List K :=
  let x := cx
  let x2 := f_mul x x
  let r := vrsqrtsq_f32 a x2
  let x := f_mul x r
  x

/-- The `SIMDPP_USE_ALTIVEC` branch of `i_rsqrt_rh(float32x4, float32x4)`. -/
def i_rsqrt_rh_altivec {K : Type} [Field K] (cx a : List K) : List K :=
  let x := cx
  let c3 := make_float (3.0 : K)
  let x2 := f_mul x x
  let r := vec_nmsub a x2 c3
  let xp5 := f_mul_scalar x 0.5
  let r := f_mul xp5 r
  r

/-- The function `i_rsqrt_rh(const float32x4& cx, const float32x4& a)` in exact
arithmetic. -/
def i_rsqrt_rh {K : Type} [Field K] (arch : RsqrtArch) (cx a : List K) : List K :=
  match arch with
  | .null => null_foreach2 cx a (fun x a => rsqrt_rh_scalar x a)
  | .sse2 => v_rsqrt_rh cx a
  | .neon_flt_sp => i_rsqrt_rh_neon cx a
  | .altivec => i_rsqrt_rh_altivec cx a

/-! ### Tier forms of `align` and acceptance of `i_splat` -/

/-- Modelled from the spec: the SSSE3 instruction `_mm_alignr_epi8(a, b, imm)`:
the 32 bytes `b` (low) then `a` (high) are shifted right by `imm` bytes,
shifting in zeros, and the low 16 bytes are kept. -/
def mm_alignr_epi8 (a b : List Nat) (imm : Nat) : List Nat :=
  ((b ++ a ++ List.replicate 16 0).drop imm).take 16

/-- The `SIMDPP_USE_SSSE3` branch of `align<shift>(basic_int8x16, basic_int8x16)`:
`return _mm_alignr_epi8(upper, lower, shift);`. -/
def align_ssse3_kernel (shift : Nat) (lower upper : List Nat) : List Nat :=
  mm_alignr_epi8 upper lower shift

/-- Modelled from the spec: the AVX2 instruction `_mm256_alignr_epi8(a, b, imm)`:
the 128-bit instruction applied to the low 128-bit halves of `a` and `b` and,
separately, to their high halves. -/
def mm256_alignr_epi8 (a b : List Nat) (imm : Nat) : List Nat :=
  mm_alignr_epi8 (a.take 16) (b.take 16) imm ++ mm_alignr_epi8 (a.drop 16) (b.drop 16) imm

/-- The `SIMDPP_USE_AVX2` branch of `align<shift>(basic_int8x32, basic_int8x32)`:
`return _mm256_alignr_epi8(upper, lower, shift);`. -/
def align_avx2_kernel (shift : Nat) (lower upper : List Nat) : List Nat :=
  mm256_alignr_epi8 upper lower shift

/-- The tier kernel returns the 16-byte window at offset `shift` of `lower`
followed by `upper`, for `0 < shift < 16`. -/
def is_window_kernel (kernel : Nat → List Nat → List Nat → List Nat) : Prop :=
  ∀ (shift : Nat) (lower upper : List Nat), 0 < shift → shift < 16 →
    lower.length = 16 → upper.length = 16 →
    kernel shift lower upper = ((lower ++ upper).drop shift).take 16

/-- The tier configurations of the 256-bit `align`: without AVX2 any 128-bit
kernel, with AVX2 the `_mm256_alignr_epi8` form over the SSSE3 128-bit kernel. -/
def is_align_tier (avx2 : Option (Nat → List Nat → List Nat → List Nat))
    (kernel : Nat → List Nat → List Nat → List Nat) : Prop :=
  avx2 = none ∨ (avx2 = some align_avx2_kernel ∧ kernel = align_ssse3_kernel)

/-- The 32 bytes `0, 1, ..., 31`. -/
def align_example_lower : List Nat := List.range 32

/-- The 32 bytes `32, 33, ..., 63`. -/
def align_example_upper : List Nat := List.range' 32 32

/-! ### Acceptance of `i_splat` (detail/insn/splat.h) -/

/-- The generic-width overloads `i_splat<s>(const uint8<N>& a)`, and likewise
for `uint16<N>`, `uint32<N>`, `uint64<N>`, `float32<N>` and `float64<N>`:
`static_assert(s < N); return v_splat<s>(a);`. -/
def i_splat_wide {α : Type} (i_splat : Nat → List α → List α) (L N s : Nat) (a : Vec α) :
    Option (Vec α) :=
  if ¬ s < N then none
  else some (v_splat i_splat L s a)

/-- The 256-bit and 512-bit tier kernels of `i_splat`. -/
inductive SplatKernel where
  | uint8x32_avx2
  | uint16x16_avx2
  | uint32x8_avx2
  | uint32x16_avx512
  | uint64x4_avx2
  | uint64x8_avx512
  | float32x8_avx
  | float32x16_avx512
  | float64x4_avx
  | float64x8_avx512
deriving DecidableEq, Repr

/-- The number of lanes of the vector type the kernel is declared on. -/
def SplatKernel.lanes : SplatKernel → Nat
  | .uint8x32_avx2 => 32
  | .uint16x16_avx2 => 16
  | .uint32x8_avx2 => 8
  | .uint32x16_avx512 => 16
  | .uint64x4_avx2 => 4
  | .uint64x8_avx512 => 8
  | .float32x8_avx => 8
  | .float32x16_avx512 => 16
  | .float64x4_avx => 4
  | .float64x8_avx512 => 8

/-- The constant `c` of the kernel's `static_assert(s < c, "Access out of
bounds")`. -/
def SplatKernel.bound : SplatKernel → Nat
  | .uint8x32_avx2 => 32
  | .uint16x16_avx2 => 16
  | .uint32x8_avx2 => 8
  | .uint32x16_avx512 => 16
  | .uint64x4_avx2 => 4
  | .uint64x8_avx512 => 8
  | .float32x8_avx => 8
  | .float32x16_avx512 => 16
  | .float64x4_avx => 4
  | .float64x8_avx512 => 8

/-- A tier kernel `i_splat<s>(a)`: its `static_assert`, then its instruction
sequence `body`. -/
def i_splat_tier {α : Type} (k : SplatKernel) (body : Nat → List α → List α) (s : Nat)
    (a : List α) : Option (List α) :=
  if ¬ s < k.bound then none
  else some (body s a)

/-! ### Tier shifts for the signed `shift_r` -/

/-- Modelled from the spec: a tier shift `detail::insn::i_shift_r<count>` that
shifts in the sign bit at every count, so that each lane becomes
`floor(x / 2^count)` (detail/insn/i_shift_r.h is not among the embedded
files). -/
def i_shift_r_sign_fill (count : Nat) (a : List Int) : List Int :=
  a.map (fun x => x / 2 ^ count)

/-- Modelled from the spec: a tier shift whose instruction takes the count
modulo the element width `w`, as the AltiVec `vec_sra` does; it agrees with
`i_shift_r_sign_fill` for every count below `w`. -/
def i_shift_r_count_mod (w : Nat) (count : Nat) (a : List Int) : List Int :=
  a.map (fun x => x / 2 ^ (count % w))

/-- A lane of a signed element type of bit width `w`. -/
def is_signed_lane (w : Nat) (x : Int) : Prop := -(2 ^ (w - 1)) ≤ x ∧ x < 2 ^ (w - 1)

/-! ### Decomposition of wide float vectors -/

/-- The function `ceil(float32x8 a)`: `a[0]` is the first four lanes and `a[1]`
the last four; `avx` is `some` of the native `_mm256_ceil_ps` when
`SIMDPP_USE_AVX` holds. -/
def ceil_float32x8 (avx : Option (List Nat → List Nat)) (arch : CeilArch)
    (mm_ceil_ps vec_ceil : List Nat → List Nat) (a : List Nat) : List Nat :=
  match avx with
  | some mm256_ceil_ps => mm256_ceil_ps a
  | none => ceil arch mm_ceil_ps vec_ceil (a.take 4) ++ ceil arch mm_ceil_ps vec_ceil (a.drop 4)

/-- Modelled from the spec: the loop of the macro
`SIMDPP_VEC_ARRAY_IMPL2(R, OP, V1, V2)` (not among the embedded files),
`for (unsigned i = 0; i < R::vec_length; i++) r.vec(i) = OP(V1.vec(i), V2.vec(i));`,
after its first `n` iterations: the operation of one base vector applied to the
constituents of the operands, one by one. -/
def vec_array_impl2_loop {α : Type} (op : List α → List α → List α) (v1 v2 : Vec α)
    (r : Vec α) : Nat → Vec α
  | 0 => r
  | i + 1 => (vec_array_impl2_loop op v1 v2 r i).set_vec i (op (v1.vec i) (v2.vec i))

/-- Modelled from the spec: the macro `SIMDPP_VEC_ARRAY_IMPL2(R, OP, V1, V2)`:
`R r;`, the loop over the `R::vec_length` base vectors, `return r;`. The
uninitialised `r` holds `r0`. -/
def vec_array_impl2 {α : Type} (op : List α → List α → List α) (r0 : Vec α)
    (v1 v2 : Vec α) : Vec α :=
  vec_array_impl2_loop op v1 v2 r0 r0.vec_length

/-- The generic-width `i_rsqrt_rh(const float32<N>& x, const float32<N>& a)`:
`SIMDPP_VEC_ARRAY_IMPL2(float32<N>, i_rsqrt_rh, x, a);`, where `i_rsqrt_rh_base`
is the overload of `i_rsqrt_rh` on one base vector. -/
def i_rsqrt_rh_wide {α : Type} (i_rsqrt_rh_base : List α → List α → List α) (r0 : Vec α)
    (x a : Vec α) : Vec α :=
  vec_array_impl2 i_rsqrt_rh_base r0 x a

/-- A `float32<8>` of exact lanes: two base vectors of four lanes. -/
def rsqrt_example_x : Vec ℚ := ⟨[[1, 2, 3, 1 / 2], [1, 1, 2, 2]]⟩

/-- A second `float32<8>` of exact lanes. -/
def rsqrt_example_a : Vec ℚ := ⟨[[1, 1 / 4, 1 / 9, 5], [1, 2, 1 / 4, 1 / 2]]⟩

/-! ### The SSE2 form of `align` (functions/align.h) -/

/-- Modelled from the spec: `move_l<n>(basic_int8x16)` (functions/move_l.h is
not among the embedded sources): every byte moves `n` positions towards
index 0 and zero bytes enter at the top. -/
def move_l (n : Nat) (a : List Nat) : List Nat :=
  a.drop n ++ List.replicate (a.length - (a.length - n)) 0

/-- Modelled from the spec: `move_r<n>(basic_int8x16)` (functions/move_r.h is
not among the embedded sources): every byte moves `n` positions towards
index 15 and zero bytes enter at the bottom. -/
def move_r (n : Nat) (a : List Nat) : List Nat :=
  List.replicate (a.length - (a.length - n)) 0 ++ a.take (a.length - n)

/-- Modelled from the spec: `bit_or(basic_int8x16, basic_int8x16)`
(functions/bit_or.h is not among the embedded sources), the bitwise OR of the
two vectors byte by byte. -/
def bit_or_int8x16 (a b : List Nat) : List Nat :=
  List.zipWith (fun x y => x ||| y) a b

/-- The `SIMDPP_USE_SSE2` branch of `align<shift>(basic_int8x16, basic_int8x16)`:
`lower = move_l<shift>(lower); upper = move_r<16-shift>(upper);
a = bit_or(upper, lower); return a;`. -/
def align_sse2_kernel (shift : Nat) (lower upper : List Nat) : List Nat :=
  let lower := move_l shift lower
  let upper := move_r (16 - shift) upper
  let a := bit_or_int8x16 upper lower
  a

/-- Sixteen bytes that differ at every position between the two example
operands of `align`. -/
def align_doc_lower : List Nat := List.range 16

/-- The upper operand of the documentation example: bytes 100 .. 115. -/
def align_doc_upper : List Nat := List.range' 100 16

/-! ### `test_push_internal_vec` (test/utils/test_helpers.h) -/

/-- Modelled from the spec: `TestSuite::Result` as far as `set` touches it
(test_suite.h is not among the embedded sources): the slots of the result and
the log of the slot ids handed to `set`, in program order. -/
structure PushResult where
  data : List Nat
  sets : List Nat
deriving DecidableEq, Repr

/-- Modelled from the spec: `res.set(id, &x)`, which stores one element in slot
`id`. -/
def PushResult.set (res : PushResult) (id x : Nat) : PushResult :=
  { data := res.data.set id x, sets := res.sets ++ [id] }

/-- The inner loop `for (unsigned j = 0; j < Base::length; j++)
res.set(i*Base::length + j, &block[j]);` of `test_push_internal_vec`, after its
first `n` iterations; `L` is `Base::length` and the slot id is evaluated in
32-bit unsigned arithmetic. -/
def test_push_inner (L i : Nat) (block : List Nat) (res : PushResult) : Nat → PushResult
  | 0 => res
  | n + 1 =>
    let j := n
    (test_push_inner L i block res n).set (((i * L) % 2 ^ 32 + j) % 2 ^ 32) (block.getD j 0)

/-- The outer loop `for (unsigned i = 0; i < data.vec_length; ++i)` of
`test_push_internal_vec`, after its first `n` iterations: `block` is the
memory image of `data.vec(i)`. -/
def test_push_outer (L : Nat) (data : Vec Nat) (res : PushResult) : Nat → PushResult
  | 0 => res
  | n + 1 =>
    let i := n
    let block := data.vec i
    test_push_inner L i block (test_push_outer L data res n) L

/-- The function `test_push_internal_vec(res, data)`; `L` is the length of the
base vector type of `data`. -/
def test_push_internal_vec (L : Nat) (res : PushResult) (data : Vec Nat) : PushResult :=
  test_push_outer L data res data.vec_length

/-- A vector of three base vectors of four lanes. -/
def push_example : Vec Nat := ⟨[[10, 11, 12, 13], [20, 21, 22, 23], [30, 31, 32, 33]]⟩

/-! ### `float64<4>` and `mask_float64<4>` (types/float64x4.h) -/

/-- The class `float64<4, void>`: its only data member `d_`, the native
`__m256d`, as the list of its four 64-bit patterns. -/
structure float64x4 where
  d_ : List Nat
deriving DecidableEq, Repr

/-- The constructor `float64<4>(const native_type& d) : d_(d)`. -/
def float64x4.of_native (d : List Nat) : float64x4 := { d_ := d }

/-- The conversion `operator native_type() const { return d_; }`. -/
def float64x4.native (v : float64x4) : List Nat := v.d_

/-- Modelled from the spec: the class `mask_int64<4>` (types/int64x4.h is not
among the embedded sources) as the 256 bits it holds, four 64-bit patterns. -/
structure mask_int64x4 where
  d_ : List Nat
deriving DecidableEq, Repr

/-- The class `mask_float64<4, void>`: its only data member `d_`, the native
`__m256d`, as the list of its four 64-bit patterns. -/
structure mask_float64x4 where
  d_ : List Nat
deriving DecidableEq, Repr

/-- The constructor `mask_float64<4>(const native_type& d) : d_(d)`. -/
def mask_float64x4.of_native (d : List Nat) : mask_float64x4 := { d_ := d }

/-- The constructor `mask_float64<4>(const float64<4>& d) : d_(d)`; `d_` is
initialised through the conversion of `d` to the native type. -/
def mask_float64x4.of_float64x4 (d : float64x4) : mask_float64x4 := { d_ := d.native }

/-- Modelled from the spec: `bit_cast<mask_float64<4>>(mask_int64<4>)`
(core/cast.h is not among the embedded sources), the same 256 bits under the
other type. -/
def bit_cast_mask_float64x4 (d : mask_int64x4) : mask_float64x4 := { d_ := d.d_ }

/-- The explicit constructor from `mask_int64<4,E>`:
`*this = bit_cast<mask_float64<4>>(d.eval());`. -/
def mask_float64x4.of_mask_int64x4 (d : mask_int64x4) : mask_float64x4 :=
  bit_cast_mask_float64x4 d

/-- The assignment `operator=(const mask_int64<4,E>& d)`:
`*this = bit_cast<mask_float64<4>>(d.eval()); return *this;`. -/
def mask_float64x4.assign_mask_int64x4 (_self : mask_float64x4) (d : mask_int64x4) :
    mask_float64x4 :=
  bit_cast_mask_float64x4 d

/-- The defaulted copy assignment `operator=(const mask_float64<4>&)`. -/
def mask_float64x4.assign (_self : mask_float64x4) (d : mask_float64x4) : mask_float64x4 := d

/-- The conversion `operator native_type() const { return d_; }`. -/
def mask_float64x4.native (m : mask_float64x4) : List Nat := m.d_

/-- The member `unmask()`: `return float64<4>(d_);`. -/
def mask_float64x4.unmask (m : mask_float64x4) : float64x4 := float64x4.of_native m.d_

/-- The member `vec(unsigned)`: `return *this;`. -/
def mask_float64x4.vec (m : mask_float64x4) (_i : Nat) : mask_float64x4 := m

/-- The member `eval()`: `return *this;`. -/
def mask_float64x4.eval (m : mask_float64x4) : mask_float64x4 := m

/-- The ways a `mask_float64<4>` comes into being: the defaulted default
constructor (which leaves `d_` as it was in memory, `garbage`), the defaulted
copy constructor, the constructors from the native type, from `float64<4>` and
from `mask_int64<4>`. -/
inductive MaskSource where
  | default_ctor (garbage : List Nat)
  | copy (m : mask_float64x4)
  | native (d : List Nat)
  | float (d : float64x4)
  | mask_int (d : mask_int64x4)

/-- The bits a source carries. -/
def MaskSource.bits : MaskSource → List Nat
  | .default_ctor garbage => garbage
  | .copy m => m.d_
  | .native d => d
  | .float d => d.d_
  | .mask_int d => d.d_

/-- The value each constructor builds. -/
def mask_float64x4.construct : MaskSource → mask_float64x4
  | .default_ctor garbage => { d_ := garbage }
  | .copy m => m
  | .native d => mask_float64x4.of_native d
  | .float d => mask_float64x4.of_float64x4 d
  | .mask_int d => mask_float64x4.of_mask_int64x4 d

/-- Four 64-bit lanes, each the all-ones or the all-zeros pattern. -/
def is_mask_bits (d : List Nat) : Prop :=
  d.length = 4 ∧ ∀ x ∈ d, x = 0 ∨ x = 2 ^ 64 - 1

instance (d : List Nat) : Decidable (is_mask_bits d) :=
  inferInstanceAs (Decidable (d.length = 4 ∧ ∀ x ∈ d, x = 0 ∨ x = 2 ^ 64 - 1))

/-- The float64<4> vector holding 1.0 in every lane (bit pattern
0x3FF0000000000000). -/
def float64x4_ones : float64x4 :=
  float64x4.of_native [0x3FF0000000000000, 0x3FF0000000000000, 0x3FF0000000000000,
    0x3FF0000000000000]

/-! ### `TemplateTestHelper` (test/utils/test_helpers.h) -/

/-- The offsets `k` of the calls `F<V, i+k>::test(tc, a)` in `run` of the
specialisation `TemplateTestHelperImpl<F, V, true, i, limit>`, line by line in
program order. -/
def large_block_offsets : List Nat :=
  [0, 1, 2, 3, 4, 5, 6, 7, 8, 9, 10, 11, 12, 13, 14, 15, 16, 17, 18, 19, 20,
   20, 21, 22, 23, 24, 25, 26, 27, 28, 29]

/-- The instantiation `TemplateTestHelperImpl<F, V, large, i, limit>` whose
`run` is about to execute, together with the log `calls` of the indices `k` of
the invocations `F<V, k>::test` made so far. -/
structure ImplState where
  large : Bool
  i : Nat
  calls : List Nat
deriving DecidableEq, Repr

/-- One `run` of `TemplateTestHelperImpl<F, V, large, i, limit>`: `none` for the
two specialisations `<F, V, true, i, i>` and `<F, V, false, i, i>`, whose `run`
is empty; otherwise the invocations of the body are logged and control passes
to `TemplateTestHelperImpl<F, V, is_large, i+30, limit>` resp.
`<F, V, is_large, i+1, limit>`. The template arguments are `unsigned`, so the
sums are taken modulo 2^32. The one-operand `run(tc, a)` and the two-operand
`run(tc, a, b)` have the same body up to the operand that is passed along, so
this is the model of both. -/
def impl_step (limit : Nat) (st : ImplState) : Option ImplState :=
  if st.i = limit then none
  else if st.large then
    some { large := decide ((st.i + 60) % 2 ^ 32 < limit),
           i := (st.i + 30) % 2 ^ 32,
           calls := st.calls ++ large_block_offsets.map (fun k => (st.i + k) % 2 ^ 32) }
  else
    some { large := decide ((st.i + 30) % 2 ^ 32 < limit),
           i := (st.i + 1) % 2 ^ 32,
           calls := st.calls ++ [st.i] }

/-- The instantiation reached after `n` nested `run`s, if the chain is that
long. -/
def impl_iter (limit : Nat) : Nat → ImplState → Option ImplState
  | 0, st => some st
  | n + 1, st => (impl_iter limit n st).bind (impl_step limit)

/-- The chain of nested `run`s followed to its end: the state in which an empty
`run` is reached, or `none` when the chain is longer than `fuel`. -/
def TemplateTestHelperImpl_run (limit : Nat) : Nat → ImplState → Option ImplState
  | 0, _ => none
  | fuel + 1, st =>
    match impl_step limit st with
    | none => some st
    | some st1 => TemplateTestHelperImpl_run limit fuel st1

/-- The start of `TemplateTestHelper<F, V>::run`:
`TemplateTestHelperImpl<F, V, false, 0, limit>` with an empty log. -/
def impl_start : ImplState := { large := false, i := 0, calls := [] }

/-- The function `TemplateTestHelper<F, V>::run` with `limit = F<V,0>::limit`:
the indices on which `test` is invoked, in order of invocation. -/
def TemplateTestHelper_run (fuel limit : Nat) : Option (List Nat) :=
  (TemplateTestHelperImpl_run limit fuel impl_start).map (fun st => st.calls)

/-- What holds of the instantiation chain as long as the index arithmetic does
not wrap: the index is at most `limit`, a block of 30 lies below `limit`, and
the log holds exactly the indices below `i`. -/
def impl_inv (limit : Nat) (st : ImplState) : Prop :=
  st.i ≤ limit ∧ (st.large = true → st.i + 30 ≤ limit) ∧
    (∀ k ∈ st.calls, k < st.i) ∧ ∀ k, k < st.i → k ∈ st.calls

/-! ### Tier kernels of `i_splat` (detail/insn/splat.h)

A vector is the list of its lanes (bit patterns), lane 0 first; a lane that
does not exist reads as 0. -/

/-- The vector of `n` lanes whose lane `i` is lane `f i` of `a`. -/
def select_lanes (n : Nat) (f : Nat → Nat) (a : List Nat) : List Nat :=
  (List.range n).map (fun i => a.getD (f i) 0)

/-- The 128-bit chunk number `c` of a vector with `L` lanes per 128 bits. -/
def chunk_128 (L c : Nat) (a : List Nat) : List Nat := (a.drop (c * L)).take L

/-- Modelled from the spec: `sse::extract_lo` (sse/extract_half.h is not among
the embedded sources), the low 128-bit half of a 256-bit vector. -/
def extract_lo (a : List Nat) : List Nat := a.take (a.length / 2)

/-- Modelled from the spec: `sse::extract_hi`, the high 128-bit half of a
256-bit vector. -/
def extract_hi (a : List Nat) : List Nat := a.drop (a.length / 2)

/-- Modelled from the spec: `move16_l<n>(uint8x16)` (core/move_l.h is not among
the embedded sources): every lane moves `n` positions towards index 0 and
zeros enter at the top. -/
def move16_l (n : Nat) (a : List Nat) : List Nat :=
  a.drop n ++ List.replicate (a.length - (a.length - n)) 0

/-- Modelled from the spec: `move8_l<n>(uint16x8)`: every lane moves `n`
positions towards index 0 and zeros enter at the top. -/
def move8_l (n : Nat) (a : List Nat) : List Nat :=
  a.drop n ++ List.replicate (a.length - (a.length - n)) 0

/-- Modelled from the spec: the AVX2 instruction `_mm256_broadcastb_epi8(lo)`:
the lowest byte of `lo` in all 32 byte lanes. -/
def mm256_broadcastb_epi8 (lo : List Nat) : List Nat := List.replicate 32 (lo.getD 0 0)

/-- Modelled from the spec: the AVX2 instruction `_mm256_broadcastw_epi16(lo)`:
the lowest 16-bit lane of `lo` in all 16 lanes. -/
def mm256_broadcastw_epi16 (lo : List Nat) : List Nat := List.replicate 16 (lo.getD 0 0)

/-- Modelled from the spec: `permute4<s0,s1,s2,s3>(a)` (core/permute4.h is not
among the embedded sources): within every group of four consecutive lanes,
lane `j` of the result is lane `s_j` of the group. -/
def permute4 (s0 s1 s2 s3 : Nat) (a : List Nat) : List Nat :=
  select_lanes a.length (fun i => i / 4 * 4 + [s0, s1, s2, s3].getD (i % 4) 0) a

/-- Modelled from the spec: `permute2<s0,s1>(a)` (core/permute2.h is not among
the embedded sources): within every pair of consecutive lanes, lane `j` of the
result is lane `s_j` of the pair. -/
def permute2 (s0 s1 : Nat) (a : List Nat) : List Nat :=
  select_lanes a.length (fun i => i / 2 * 2 + [s0, s1].getD (i % 2) 0) a

/-- Modelled from the spec: `detail::shuffle1_128<s0,s1>(a, b)`
(detail/shuffle128.h is not among the embedded sources) on 256-bit vectors
with `L` lanes per 128 bits: the low half of the result is half `s0` of `a`,
the high half is half `s1` of `b`. -/
def shuffle1_128 (L s0 s1 : Nat) (a b : List Nat) : List Nat :=
  chunk_128 L s0 a ++ chunk_128 L s1 b

/-- Modelled from the spec: `detail::shuffle2_128<s0,s1,s2,s3>(a, b)` on
512-bit vectors with `L` lanes per 128 bits: chunks 0 and 1 of the result are
chunks `s0` and `s1` of `a`, chunks 2 and 3 are chunks `s2` and `s3` of `b`. -/
def shuffle2_128 (L s0 s1 s2 s3 : Nat) (a b : List Nat) : List Nat :=
  chunk_128 L s0 a ++ chunk_128 L s1 a ++ chunk_128 L s2 b ++ chunk_128 L s3 b

/-- Modelled from the spec: the AVX-512 instructions `_mm512_shuffle_f32x4`,
`_mm512_shuffle_i64x2` and `_mm512_shuffle_f64x2` `(a, b, imm)` on vectors with
`L` lanes per 128 bits: the bit pairs [1:0] and [3:2] of the 8-bit immediate
select the chunks of `a` that become chunks 0 and 1 of the result, the bit
pairs [5:4] and [7:6] the chunks of `b` that become chunks 2 and 3. -/
def mm512_shuffle_128 (L : Nat) (a b : List Nat) (imm : Nat) : List Nat :=
  chunk_128 L (imm % 4) a ++ chunk_128 L (imm / 4 % 4) a ++
    chunk_128 L (imm / 16 % 4) b ++ chunk_128 L (imm / 64 % 4) b

/-- The instruction `_mm512_shuffle_f32x4(a, b, imm)`, four lanes per chunk. -/
def mm512_shuffle_f32x4 (a b : List Nat) (imm : Nat) : List Nat := mm512_shuffle_128 4 a b imm

/-- The instruction `_mm512_shuffle_i64x2(a, b, imm)`, two lanes per chunk. -/
def mm512_shuffle_i64x2 (a b : List Nat) (imm : Nat) : List Nat := mm512_shuffle_128 2 a b imm

/-- The instruction `_mm512_shuffle_f64x2(a, b, imm)`, two lanes per chunk. -/
def mm512_shuffle_f64x2 (a b : List Nat) (imm : Nat) : List Nat := mm512_shuffle_128 2 a b imm

/-- The body of the AVX2 `i_splat<s>(uint8x32)` after its `static_assert`. -/
def i_splat_uint8x32 (s : Nat) (a : List Nat) : List Nat :=
  let lo := if s < 16 then extract_lo a else extract_hi a
  let lo := move16_l (s % 16) lo
  mm256_broadcastb_epi8 lo

/-- The body of the AVX2 `i_splat<s>(uint16x16)` after its `static_assert`. -/
def i_splat_uint16x16 (s : Nat) (a : List Nat) : List Nat :=
  let lo := if s < 8 then extract_lo a else extract_hi a
  let lo := move8_l (s % 8) lo
  mm256_broadcastw_epi16 lo

/-- The body of the AVX2 `i_splat<s>(uint32x8)` after its `static_assert`. -/
def i_splat_uint32x8 (s : Nat) (ca : List Nat) : List Nat :=
  let a := ca
  let a := permute4 (s % 4) (s % 4) (s % 4) (s % 4) a
  let a := shuffle1_128 4 (s / 4) (s / 4) a a
  a

/-- The body of the AVX-512 `i_splat<s>(uint32<16>)` after its `static_assert`. -/
def i_splat_uint32x16 (s : Nat) (ca : List Nat) : List Nat :=
  let a := ca
  let a := permute4 (s % 4) (s % 4) (s % 4) (s % 4) a
  let a := shuffle2_128 4 (s / 4) (s / 4) (s / 4) (s / 4) a a
  a

/-- The body of the AVX2 `i_splat<s>(uint64x4)` after its `static_assert`. -/
def i_splat_uint64x4 (s : Nat) (a : List Nat) : List Nat :=
  permute4 s s s s a

/-- The immediate `((s/2) << 6) + ((s/2) << 4) + ((s/2) << 2) + (s/2)` of the
64-bit AVX-512 kernels. -/
def splat_imm64 (s : Nat) : Nat :=
  ((s / 2) <<< 6) + ((s / 2) <<< 4) + ((s / 2) <<< 2) + (s / 2)

/-- The body of the AVX-512 `i_splat<s>(uint64<8>)` after its `static_assert`. -/
def i_splat_uint64x8 (s : Nat) (ca : List Nat) : List Nat :=
  let a := ca
  let a := permute2 (s % 2) (s % 2) a
  let a := mm512_shuffle_i64x2 a a (splat_imm64 s)
  a

/-- The body of the AVX `i_splat<s>(float32x8)` after its `static_assert`. -/
def i_splat_float32x8 (s : Nat) (ca : List Nat) : List Nat :=
  let a := ca
  let a := shuffle1_128 4 (s / 4) (s / 4) a a
  permute4 (s % 4) (s % 4) (s % 4) (s % 4) a

/-- The body of the AVX-512 `i_splat<s>(float32<16>)` after its
`static_assert`. -/
def i_splat_float32x16 (s : Nat) (ca : List Nat) : List Nat :=
  let a := ca
  let a := permute4 (s % 4) (s % 4) (s % 4) (s % 4) a
  let a := mm512_shuffle_f32x4 a a (s / 4)
  a

/-- The body of the AVX `i_splat<s>(float64x4)` after its `static_assert`;
`avx2` tells whether `SIMDPP_USE_AVX2` holds. -/
def i_splat_float64x4 (avx2 : Bool) (s : Nat) (a : List Nat) : List Nat :=
  if avx2 then permute4 s s s s a
  else
    let b := shuffle1_128 2 (s / 2) (s / 2) a a
    let b := permute2 (s % 2) (s % 2) b
    b

/-- The body of the AVX-512 `i_splat<s>(float64<8>)` after its `static_assert`. -/
def i_splat_float64x8 (s : Nat) (ca : List Nat) : List Nat :=
  let a := ca
  let a := permute2 (s % 2) (s % 2) a
  let a := mm512_shuffle_f64x2 a a (splat_imm64 s)
  a

/-- The ten tier kernels of `i_splat<s>`: the `static_assert` of the kernel
followed by its body. -/
def i_splat_kernel (avx2 : Bool) (k : SplatKernel) (s : Nat) (a : List Nat) :
    Option (List Nat) :=
  match k with
  | .uint8x32_avx2 => i_splat_tier k i_splat_uint8x32 s a
  | .uint16x16_avx2 => i_splat_tier k i_splat_uint16x16 s a
  | .uint32x8_avx2 => i_splat_tier k i_splat_uint32x8 s a
  | .uint32x16_avx512 => i_splat_tier k i_splat_uint32x16 s a
  | .uint64x4_avx2 => i_splat_tier k i_splat_uint64x4 s a
  | .uint64x8_avx512 => i_splat_tier k i_splat_uint64x8 s a
  | .float32x8_avx => i_splat_tier k i_splat_float32x8 s a
  | .float32x16_avx512 => i_splat_tier k i_splat_float32x16 s a
  | .float64x4_avx => i_splat_tier k (i_splat_float64x4 avx2) s a
  | .float64x8_avx512 => i_splat_tier k i_splat_float64x8 s a

/-- Thirty-two lanes holding 100, 101, ..., 131. -/
def splat_example_lanes (n : Nat) : List Nat := List.range' 100 n

/-! ### Base-vector access of `float64<4>` (types/float64x4.h) -/

/-- The member `vec(unsigned)` of `float64<4, void>`: `return *this;`. -/
def float64x4.vec (v : float64x4) (_i : Nat) : float64x4 := v

/-- The member `eval()` of `float64<4, void>`: `return *this;`. -/
def float64x4.eval (v : float64x4) : float64x4 := v

/-! ### The `TEST_ALL_COMB_HELPER` macros (test/utils/test_helpers.h)

`V` is the vector type `T` of the macro, `A i` the entry `*reinterpret_cast<const
T*>((A) + i)` of the array, `OP` the operation under test, and the log of the
values handed to `TEST_PUSH` stands for the test suite. The rotation
`simdpp::detail::align_v128<1>(v, v)` (detail/align_v128.h is not among the
embedded sources) is the parameter `rot`. -/

/-- The statement `l := align_v128<1>(l, l)` executed `k` times. -/
def rot_iter {V : Type} (rot : V → V) : Nat → V → V
  | 0, v => v
  | k + 1, v => rot (rot_iter rot k v)

/-- The rotation loop of `TEST_ALL_COMB_HELPER1` and `TEST_ALL_COMB_HELPER2`,
`for (unsigned rot = 0; rot < sizeof(T)/EL_SIZE; rot++) { TEST_PUSH(TC, T,
OP(l)); l = simdpp::detail::align_v128<1>(l, l); }`, after its first `n`
iterations; the state is `l` and the log of pushed values. In
`TEST_ALL_COMB_HELPER2` the operation is `OP(l, r)` with `r` fixed during the
loop. -/
def comb_rot_loop {V R : Type} (OP : V → R) (rot : V → V) (st : V × List R) :
    Nat → V × List R
  | 0 => st
  | n + 1 =>
    let st := comb_rot_loop OP rot st n
    (rot st.1, st.2 ++ [OP st.1])

/-- The loop over `i` of `TEST_ALL_COMB_HELPER1`, after its first `n`
iterations. -/
def comb1_loop {V R : Type} (OP : V → R) (rot : V → V) (A : Nat → V) (bound : Nat)
    (pushed : List R) : Nat → List R
  | 0 => pushed
  | n + 1 =>
    let i := n
    let l := A i
    (comb_rot_loop OP rot (l, comb1_loop OP rot A bound pushed n) bound).2

/-- The macro `TEST_ALL_COMB_HELPER1(TC, T, OP, A, EL_SIZE)`: the values pushed
after `(TC).reset_seq()`; the arguments are `sizeof(A)`, `sizeof(T)` and
`EL_SIZE`. -/
def TEST_ALL_COMB_HELPER1 {V R : Type} (sizeof_A sizeof_T EL_SIZE : Nat) (OP : V → R)
    (rot : V → V) (A : Nat → V) : List R :=
  comb1_loop OP rot A (sizeof_T / EL_SIZE) [] (sizeof_A / sizeof_T)

/-- The loop over `j` of `TEST_ALL_COMB_HELPER2`, after its first `n`
iterations. -/
def comb2_j_loop {V R : Type} (OP : V → V → R) (rot : V → V) (A : Nat → V) (bound i : Nat)
    (pushed : List R) : Nat → List R
  | 0 => pushed
  | n + 1 =>
    let j := n
    let l := A i
    let r := A j
    (comb_rot_loop (fun l => OP l r) rot (l, comb2_j_loop OP rot A bound i pushed n) bound).2

/-- The loop over `i` of `TEST_ALL_COMB_HELPER2`, after its first `n`
iterations; `entries` is `sizeof(A) / sizeof(T)`. -/
def comb2_i_loop {V R : Type} (OP : V → V → R) (rot : V → V) (A : Nat → V)
    (bound entries : Nat) (pushed : List R) : Nat → List R
  | 0 => pushed
  | n + 1 =>
    let i := n
    comb2_j_loop OP rot A bound i (comb2_i_loop OP rot A bound entries pushed n) entries

/-- The macro `TEST_ALL_COMB_HELPER2(TC, T, OP, A, EL_SIZE)`. -/
def TEST_ALL_COMB_HELPER2 {V R : Type} (sizeof_A sizeof_T EL_SIZE : Nat) (OP : V → V → R)
    (rot : V → V) (A : Nat → V) : List R :=
  comb2_i_loop OP rot A (sizeof_T / EL_SIZE) (sizeof_A / sizeof_T) [] (sizeof_A / sizeof_T)

/-- The variables `v0`, `v1` of `TEST_ALL_COMB_HELPER3` and the log of pushed
values. -/
structure Comb3State (V R : Type) where
  v0 : V
  v1 : V
  pushed : List R

/-- The loop over `rot1` of `TEST_ALL_COMB_HELPER3`,
`for (unsigned rot1 = 0; rot1 < sizeof(T)/EL_SIZE % 4; rot1++) { TEST_PUSH(TC,
T, OP(v0, v1, v2)); v0 = simdpp::detail::align_v128<1>(v0, v0); }`, after its
first `n` iterations. -/
def comb3_rot1_loop {V R : Type} (OP : V → V → V → R) (rot : V → V) (v2 : V)
    (st : Comb3State V R) : Nat → Comb3State V R
  | 0 => st
  | n + 1 =>
    let st := comb3_rot1_loop OP rot v2 st n
    { v0 := rot st.v0, v1 := st.v1, pushed := st.pushed ++ [OP st.v0 st.v1 v2] }

/-- The loop over `rot0` of `TEST_ALL_COMB_HELPER3`: the loop over `rot1`
followed by `v1 = simdpp::detail::align_v128<1>(v1, v1);`, after its first `n`
iterations; `bound` is `sizeof(T)/EL_SIZE % 4`. -/
def comb3_rot0_loop {V R : Type} (OP : V → V → V → R) (rot : V → V) (v2 : V) (bound : Nat)
    (st : Comb3State V R) : Nat → Comb3State V R
  | 0 => st
  | n + 1 =>
    let st := comb3_rot0_loop OP rot v2 bound st n
    let st := comb3_rot1_loop OP rot v2 st bound
    { v0 := st.v0, v1 := rot st.v1, pushed := st.pushed }

/-- The loop over `i2` of `TEST_ALL_COMB_HELPER3`, after its first `n`
iterations. -/
def comb3_i2_loop {V R : Type} (OP : V → V → V → R) (rot : V → V) (A : Nat → V)
    (bound i0 i1 : Nat) (pushed : List R) : Nat → List R
  | 0 => pushed
  | n + 1 =>
    let i2 := n
    let v0 := A i0
    let v1 := A i1
    let v2 := A i2
    (comb3_rot0_loop OP rot v2 bound
      { v0 := v0, v1 := v1, pushed := comb3_i2_loop OP rot A bound i0 i1 pushed n } bound).pushed

/-- The loop over `i1` of `TEST_ALL_COMB_HELPER3`, after its first `n`
iterations; `entries` is `sizeof(A) / sizeof(T)`. -/
def comb3_i1_loop {V R : Type} (OP : V → V → V → R) (rot : V → V) (A : Nat → V)
    (bound entries i0 : Nat) (pushed : List R) : Nat → List R
  | 0 => pushed
  | n + 1 =>
    let i1 := n
    comb3_i2_loop OP rot A bound i0 i1 (comb3_i1_loop OP rot A bound entries i0 pushed n)
      entries

/-- The loop over `i0` of `TEST_ALL_COMB_HELPER3`, after its first `n`
iterations. -/
def comb3_i0_loop {V R : Type} (OP : V → V → V → R) (rot : V → V) (A : Nat → V)
    (bound entries : Nat) (pushed : List R) : Nat → List R
  | 0 => pushed
  | n + 1 =>
    let i0 := n
    comb3_i1_loop OP rot A bound entries i0 (comb3_i0_loop OP rot A bound entries pushed n)
      entries

/-- The macro `TEST_ALL_COMB_HELPER3(TC, T, OP, A, EL_SIZE)`: the values pushed
after `(TC).reset_seq()`; the arguments are `sizeof(A)`, `sizeof(T)` and
`EL_SIZE`, and `sizeof(T)/EL_SIZE % 4` is `(sizeof(T)/EL_SIZE) % 4`. -/
def TEST_ALL_COMB_HELPER3 {V R : Type} (sizeof_A sizeof_T EL_SIZE : Nat)
    (OP : V → V → V → R) (rot : V → V) (A : Nat → V) : List R :=
  comb3_i0_loop OP rot A (sizeof_T / EL_SIZE % 4) (sizeof_A / sizeof_T) []
    (sizeof_A / sizeof_T)

/-- An array of three vectors of four 32-bit lanes. -/
def comb_example_array (i : Nat) : List Nat := [10 * i, 10 * i + 1, 10 * i + 2, 10 * i + 3]

/-- The rotation by one lane, what `align<1>(v, v)` returns. -/
def comb_example_rot (v : List Nat) : List Nat := v.rotate 1

/-! ## Theorems -/

/-! ### `v_splat` -/

theorem v_splat_loop_length {α : Type} (one : List α) (a : Vec α) (n : Nat) :
    (v_splat_loop one a n).vecs.length = a.vecs.length := by
  induction n with
  | zero => rfl
  | succ n ih => simp [v_splat_loop, Vec.set_vec, ih]

theorem v_splat_loop_vec {α : Type} (one : List α) (a : Vec α) (n : Nat)
    (hn : n ≤ a.vecs.length) (i : Nat) :
    (v_splat_loop one a n).vec i = if i < n then one else a.vec i := by
  induction n with
  | zero => simp [v_splat_loop]
  | succ n ih =>
    have hlen := v_splat_loop_length one a n
    simp only [v_splat_loop, Vec.set_vec, Vec.vec] at ih ⊢
    by_cases h : i = n
    · subst h
      rw [List.getD_eq_getElem?_getD, List.getElem?_set_self (by omega)]
      simp
    · rw [List.getD_eq_getElem?_getD, List.getElem?_set_ne (Ne.symm h),
        ← List.getD_eq_getElem?_getD, ih (by omega)]
      by_cases h2 : i < n
      · simp [h2, Nat.lt_succ_of_lt h2]
      · have : ¬ i < n + 1 := by omega
        simp [h2, this]

theorem v_splat_vec {α : Type} (i_splat : Nat → List α → List α) (L s : Nat) (a : Vec α)
    (i : Nat) (hi : i < a.vec_length) :
    (v_splat i_splat L s a).vec i = i_splat (s % L) (a.vec (s / L)) := by
  have h := v_splat_loop_vec (i_splat (s % L) (a.vec (s / L))) a a.vec_length
    (Nat.le_refl _) i
  rw [if_pos hi] at h
  exact h

/-- C1: for a logical vector `a` of `vec_length` base vectors of length `L` and a
lane index `s < vec_length * L`, `v_splat<s>(a)` has the same number of base
vectors, every one of them is the broadcast `i_splat<s mod L>` of base vector
`s / L`, and every logical lane of the result equals logical lane `s` of `a`,
provided the base-vector kernel `i_splat<k>` broadcasts lane `k`. -/
theorem v_splat_broadcasts {α : Type} (i_splat : Nat → List α → List α) (L s : Nat)
    (a : Vec α)
    (hwf : ∀ b ∈ a.vecs, b.length = L)
    (hs : s < a.vec_length * L)
    (hsplat : ∀ (k : Nat) (b : List α), k < L → b.length = L →
      (i_splat k b).length = L ∧ ∀ j, j < L → (i_splat k b).get? j = b.get? k) :
    ∃ x, a.lane L s = some x ∧
      (v_splat i_splat L s a).vec_length = a.vec_length ∧
      (∀ i, i < a.vec_length →
        (v_splat i_splat L s a).vec i = i_splat (s % L) (a.vec (s / L)) ∧
        ((v_splat i_splat L s a).vec i).length = L) ∧
      (∀ j, j < a.vec_length * L → (v_splat i_splat L s a).lane L j = some x) := by
  have hL : 0 < L := by
    rcases Nat.eq_zero_or_pos L with h | h
    · subst h; simp at hs
    · exact h
  have hdiv : s / L < a.vecs.length := by
    apply Nat.div_lt_of_lt_mul
    rw [Nat.mul_comm]; exact hs
  have hmod : s % L < L := Nat.mod_lt _ hL
  have hmem : a.vec (s / L) ∈ a.vecs := by
    unfold Vec.vec
    rw [List.getD_eq_getElem?_getD, List.getElem?_eq_getElem hdiv]
    exact List.getElem_mem hdiv
  have hlen : (a.vec (s / L)).length = L := hwf _ hmem
  have hk := hsplat (s % L) (a.vec (s / L)) hmod hlen
  have hx : (a.vec (s / L)).get? (s % L) = some ((a.vec (s / L)).get ⟨s % L, by omega⟩) := by
    simp [List.getElem?_eq_getElem, hlen, hmod]
  refine ⟨(a.vec (s / L)).get ⟨s % L, by omega⟩, hx, ?_, ?_, ?_⟩
  · exact v_splat_loop_length _ _ _
  · intro i hi
    have h := v_splat_vec i_splat L s a i hi
    exact ⟨h, by rw [h]; exact hk.1⟩
  · intro j hj
    have hjd : j / L < a.vec_length := by
      apply Nat.div_lt_of_lt_mul
      rw [Nat.mul_comm]; exact hj
    unfold Vec.lane
    rw [v_splat_vec i_splat L s a (j / L) hjd, hk.2 (j % L) (Nat.mod_lt _ hL)]
    exact hx

/-- C1 at a concrete input: splat of lane 3 of the two-base-vector value
`[[1, 2], [3, 4]]` with the broadcasting base kernel. -/
theorem v_splat_broadcasts_witness :
    ∃ x, splat_example.lane 2 3 = some x ∧
      (v_splat i_splat_base 2 3 splat_example).vec_length = splat_example.vec_length ∧
      (∀ i, i < splat_example.vec_length →
        (v_splat i_splat_base 2 3 splat_example).vec i =
          i_splat_base (3 % 2) (splat_example.vec (3 / 2)) ∧
        ((v_splat i_splat_base 2 3 splat_example).vec i).length = 2) ∧
      (∀ j, j < splat_example.vec_length * 2 →
        (v_splat i_splat_base 2 3 splat_example).lane 2 j = some x) :=
  v_splat_broadcasts i_splat_base 2 3 splat_example
    (by intro b hb; simp [splat_example] at hb; rcases hb with rfl | rfl <;> rfl)
    (by decide)
    (by
      intro k b hk hb
      refine ⟨by simp [i_splat_base, hb], ?_⟩
      intro j hj
      simp only [List.get?_eq_getElem?, i_splat_base]
      rw [List.getElem?_replicate, if_pos (by omega), List.getD_eq_getElem?_getD,
        List.getElem?_eq_getElem (by omega)]
      simp)

/-! ### `align` -/

theorem align_null_loop1_spec (shift : Nat) (lower : List Nat) (st : AlignState) (n : Nat) :
    (align_null_loop1 shift lower st n).r.length = st.r.length ∧
    (align_null_loop1 shift lower st n).writes = st.writes ++ List.range n ∧
    ∀ i, i < st.r.length → (align_null_loop1 shift lower st n).r.get? i =
      if i < n then some (lower.getD (i + shift) 0) else st.r.get? i := by
  induction n with
  | zero => simp [align_null_loop1]
  | succ n ih =>
    obtain ⟨h1, h2, h3⟩ := ih
    refine ⟨?_, ?_, ?_⟩
    · simp [align_null_loop1, AlignState.write, h1]
    · simp [align_null_loop1, AlignState.write, h2, List.range_succ]
    · intro i hi
      simp only [align_null_loop1, AlignState.write, List.get?_eq_getElem?]
      by_cases h : i = n
      · subst h
        rw [List.getElem?_set_self (by omega)]
        simp
      · rw [List.getElem?_set_ne (Ne.symm h)]
        have := h3 i hi
        simp only [List.get?_eq_getElem?] at this
        rw [this]
        by_cases h2 : i < n
        · simp [h2, Nat.lt_succ_of_lt h2]
        · have : ¬ i < n + 1 := by omega
          simp [h2, this]

theorem align_null_loop2_spec (shift : Nat) (upper : List Nat) (st : AlignState) (n : Nat) :
    (align_null_loop2 shift upper st n).r.length = st.r.length ∧
    (align_null_loop2 shift upper st n).writes = st.writes ++ List.range' (16 - shift) n ∧
    ∀ i, i < st.r.length → (align_null_loop2 shift upper st n).r.get? i =
      if 16 - shift ≤ i ∧ i < 16 - shift + n then
        some (upper.getD (((i + 2 ^ 32 - 16) % 2 ^ 32 + shift) % 2 ^ 32) 0)
      else st.r.get? i := by
  induction n with
  | zero =>
    refine ⟨rfl, by simp [align_null_loop2], ?_⟩
    intro i _
    have h4 : ¬ (16 - shift ≤ i ∧ i < 16 - shift + 0) := by omega
    simp only [align_null_loop2, h4, if_false]
  | succ n ih =>
    obtain ⟨h1, h2, h3⟩ := ih
    refine ⟨?_, ?_, ?_⟩
    · simp [align_null_loop2, AlignState.write, h1]
    · simp [align_null_loop2, AlignState.write, h2, List.range'_concat]
    · intro i hi
      simp only [align_null_loop2, AlignState.write, List.get?_eq_getElem?]
      by_cases h : i = 16 - shift + n
      · subst h
        rw [List.getElem?_set_self (by omega)]
        simp
      · rw [List.getElem?_set_ne (Ne.symm h)]
        have := h3 i hi
        simp only [List.get?_eq_getElem?] at this
        rw [this]
        by_cases h2 : 16 - shift ≤ i ∧ i < 16 - shift + n
        · have h4 : 16 - shift ≤ i ∧ i < 16 - shift + (n + 1) := ⟨h2.1, by omega⟩
          simp only [h2, h4, and_self, if_true]
        · have h4 : ¬ (16 - shift ≤ i ∧ i < 16 - shift + (n + 1)) := by
            intro h5; apply h2; exact ⟨h5.1, by omega⟩
          simp only [h2, h4, if_false]


/-- C2: on the scalar (NULL) tier, for 16-byte vectors and `0 < s < 16`,
`align<s>(lower, upper)` returns `r` with `r[i] = c[i + s]` for every `i < 16`,
`c` being `lower` followed by `upper`, whatever the uninitialised `r` held; the
two loops assign positions `0, 1, ..., 15`, each exactly once. -/
theorem align_null_window (r0 lower upper : List Nat) (s : Nat)
    (hl : lower.length = 16) (hu : upper.length = 16) (hr : r0.length = 16)
    (hs0 : 0 < s) (hs : s < 16) :
    ∃ r, align_int8x16 (align_null_kernel r0) s lower upper = some r ∧
      r.length = 16 ∧
      (∀ i, i < 16 → r.get? i = (lower ++ upper).get? (i + s)) ∧
      (align_null_run r0 s lower upper).writes = List.range 16 := by
  have e1 := align_null_loop1_spec s lower { r := r0, writes := [] } (16 - s)
  have e2 := align_null_loop2_spec s upper
    (align_null_loop1 s lower { r := r0, writes := [] } (16 - s)) (16 - (16 - s))
  obtain ⟨a1, a2, a3⟩ := e1
  obtain ⟨b1, b2, b3⟩ := e2
  refine ⟨align_null_kernel r0 s lower upper, ?_, ?_, ?_, ?_⟩
  · have h1 : ¬ ¬ s ≤ 16 := by omega
    have h2 : ¬ s = 0 := by omega
    have h3 : ¬ s = 16 := by omega
    simp only [align_int8x16, h1, h2, h3, if_false]
  · show (align_null_loop2 _ _ _ _).r.length = 16
    rw [b1, a1]; exact hr
  · intro i hi
    show (align_null_loop2 _ _ _ _).r.get? i = _
    rw [b3 i (by rw [a1]; simpa [hr] using hi)]
    by_cases h : i < 16 - s
    · have h4 : ¬ (16 - s ≤ i ∧ i < 16 - s + (16 - (16 - s))) := by omega
      rw [if_neg h4, a3 i (by simpa [hr] using hi), if_pos h]
      simp only [List.get?_eq_getElem?]
      rw [List.getElem?_append_left (by omega), List.getD_eq_getElem?_getD,
        List.getElem?_eq_getElem (by omega)]
      simp
    · have h4 : 16 - s ≤ i ∧ i < 16 - s + (16 - (16 - s)) := by omega
      rw [if_pos h4]
      have h5 : ((i + 2 ^ 32 - 16) % 2 ^ 32 + s) % 2 ^ 32 = i + s - 16 := by
        norm_num
        omega
      rw [h5]
      simp only [List.get?_eq_getElem?]
      rw [List.getElem?_append_right (by omega), List.getD_eq_getElem?_getD,
        List.getElem?_eq_getElem (by omega), hl]
      simp
  · show (align_null_loop2 _ _ _ _).writes = _
    rw [b2, a2]
    simp only [List.nil_append]
    rw [List.range_eq_range', List.range_eq_range']
    have h6 : 16 - (16 - s) = s := by omega
    rw [h6]
    have := List.range'_append 0 (16 - s) s 1
    simp only [Nat.zero_add, Nat.mul_one, Nat.one_mul] at this
    rw [this]
    congr 1
    omega

/-- C2 at a concrete input: shift 3 of the bytes `0..15` and `16..31`. -/
theorem align_null_window_witness :
    ∃ r, align_int8x16 (align_null_kernel (List.replicate 16 255)) 3
        (List.range 16) (List.range' 16 16) = some r ∧
      r.length = 16 ∧
      (∀ i, i < 16 → r.get? i = (List.range 16 ++ List.range' 16 16).get? (i + 3)) ∧
      (align_null_run (List.replicate 16 255) 3 (List.range 16)
        (List.range' 16 16)).writes = List.range 16 :=
  align_null_window (List.replicate 16 255) (List.range 16) (List.range' 16 16) 3
    (by decide) (by decide) (by decide) (by decide) (by decide)

theorem le_split_length (b x : Nat) : (le_split b x).length = b := by
  induction b generalizing x with
  | zero => rfl
  | succ b ih => simp [le_split, ih]

theorem le_combine_split (b x : Nat) (hx : x < 256 ^ b) : le_combine (le_split b x) = x := by
  induction b generalizing x with
  | zero => simp at hx; subst hx; rfl
  | succ b ih =>
    have h : x / 256 < 256 ^ b := by
      rw [Nat.div_lt_iff_lt_mul (by norm_num)]
      rw [pow_succ] at hx
      exact hx
    simp only [le_split, le_combine, ih _ h]
    omega

theorem from_to_bytes (b n : Nat) (v : List Nat) (h : wf_elems b n v) :
    from_bytes b n (to_bytes b v) = v := by
  induction v generalizing n with
  | nil =>
    obtain ⟨h1, _⟩ := h
    simp at h1
    subst h1
    rfl
  | cons x v ih =>
    obtain ⟨h1, h2⟩ := h
    cases n with
    | zero => simp at h1
    | succ n =>
      have hlen := le_split_length b x
      have hx : x < 256 ^ b := h2 x (List.mem_cons_self _ _)
      have hv : wf_elems b n v :=
        ⟨by simpa using h1, fun y hy => h2 y (List.mem_cons_of_mem _ hy)⟩
      simp only [to_bytes, from_bytes]
      rw [List.take_left' hlen, List.drop_left' hlen, le_combine_split b x hx, ih n hv]

/-- C3: for every element type and both vector forms, `align<0>(lower, upper)`
is `lower` and `align<W>(lower, upper)` is `upper`, `W` being the number of
elements of one 128-bit base vector; this holds for every tier kernel, through
the casts to bytes and the scaled shift of the wider element types. -/
theorem align_zero_and_full (T : AlignElem)
    (avx2 : Option (Nat → List Nat → List Nat → List Nat))
    (kernel : Nat → List Nat → List Nat → List Nat)
    (lower upper lower2 upper2 : List Nat)
    (hl : wf_elems T.size T.base_width lower) (hu : wf_elems T.size T.base_width upper)
    (hl2 : wf_elems T.size (2 * T.base_width) lower2)
    (hu2 : wf_elems T.size (2 * T.base_width) upper2) :
    align128 T kernel 0 lower upper = some lower ∧
    align128 T kernel T.base_width lower upper = some upper ∧
    align256 T avx2 kernel 0 lower2 upper2 = some lower2 ∧
    align256 T avx2 kernel T.base_width lower2 upper2 = some upper2 := by
  cases T <;>
    simp [align128, align256, align_int8x16, align_int8x32, align_int16x8, align_int16x16,
      align_int32x4, align_int32x8, align_int64x2, align_int64x4, align_float32x4,
      align_float32x8, align_float64x2, align_float64x4, AlignElem.base_width,
      AlignElem.size] at hl hu hl2 hu2 ⊢ <;>
    exact ⟨from_to_bytes _ _ _ hl, from_to_bytes _ _ _ hu, from_to_bytes _ _ _ hl2,
      from_to_bytes _ _ _ hu2⟩

/-- C3 at a concrete input: 32-bit lanes, 128-bit and 256-bit vectors. -/
theorem align_zero_and_full_witness :
    align128 .int32 align_null_kernel_zero 0 [1, 2, 3, 70000] [5, 6, 7, 8]
      = some [1, 2, 3, 70000] ∧
    align128 .int32 align_null_kernel_zero AlignElem.int32.base_width [1, 2, 3, 70000]
      [5, 6, 7, 8] = some [5, 6, 7, 8] ∧
    align256 .int32 none align_null_kernel_zero 0 [1, 2, 3, 4, 5, 6, 7, 8]
      [9, 10, 11, 12, 13, 14, 15, 16] = some [1, 2, 3, 4, 5, 6, 7, 8] ∧
    align256 .int32 none align_null_kernel_zero AlignElem.int32.base_width
      [1, 2, 3, 4, 5, 6, 7, 8] [9, 10, 11, 12, 13, 14, 15, 16]
      = some [9, 10, 11, 12, 13, 14, 15, 16] :=
  align_zero_and_full .int32 none align_null_kernel_zero [1, 2, 3, 70000] [5, 6, 7, 8]
    [1, 2, 3, 4, 5, 6, 7, 8] [9, 10, 11, 12, 13, 14, 15, 16]
    (by refine ⟨rfl, ?_⟩; decide) (by refine ⟨rfl, ?_⟩; decide)
    (by refine ⟨rfl, ?_⟩; decide) (by refine ⟨rfl, ?_⟩; decide)

/-! ### Compile-time-count `shift_r` -/

/-- C4: for each of the eight integer element types, every width and every
vector `a`, `shift_r<0>(a)` is `a`, whatever the tier shift `i_shift_r` would
return (it is not consulted). -/
theorem shift_r_zero_count (T : IntElem) (i_shift_r : Nat → List Int → List Int)
    (a : List Int) : shift_r T i_shift_r 0 a = some a := by
  cases T <;>
    simp [shift_r, shift_r_int8, shift_r_uint8, shift_r_int16, shift_r_uint16,
      shift_r_int32, shift_r_uint32, shift_r_int64, shift_r_uint64]

/-- C5: for each unsigned element type of bit width `w` and every vector `a`,
`shift_r<w>(a)` is the vector of the same length whose every lane is zero,
whatever the tier shift `i_shift_r` would return (it is not consulted). -/
theorem shift_r_full_count_unsigned (T : IntElem)
    (i_shift_r : Nat → List Int → List Int) (a : List Int)
    (hT : T.is_unsigned = true) :
    shift_r T i_shift_r T.bits a = some (List.replicate a.length 0) := by
  cases T <;>
    simp [IntElem.is_unsigned] at hT <;>
    simp [shift_r, shift_r_uint8, shift_r_uint16, shift_r_uint32, shift_r_uint64,
      IntElem.bits, zero]

/-- C5 at a concrete input: `shift_r<32>` of a `uint32x4` on a tier whose shift
leaves the vector as it is. -/
theorem shift_r_full_count_unsigned_witness :
    shift_r .uint32 (fun _ v => v) IntElem.uint32.bits [1, 2, 3, 4294967295]
      = some (List.replicate [1, 2, 3, (4294967295 : Int)].length 0) :=
  shift_r_full_count_unsigned .uint32 (fun _ v => v) [1, 2, 3, 4294967295] rfl

/-! ### `ceil` -/

/-- The emulated and the scalar branch of `ceil`. -/
theorem ceil_branches (t : CeilTier) (mm_ceil_ps vec_ceil : List Nat → List Nat)
    (a : List Nat) :
    ceil (.emulated t) mm_ceil_ps vec_ceil a = ceil_emulated t a ∧
    ceil .null mm_ceil_ps vec_ceil a = ceil_null a :=
  ⟨rfl, rfl⟩

/-- The emulated branch computes every lane by `ceil_lane`. -/
theorem ceil_emulated_lanes (t : CeilTier) (a : List Nat) (h : a.length = 4) :
    ceil_emulated t a = a.map (ceil_lane t) := by
  rcases a with _ | ⟨a0, a⟩; · simp at h
  rcases a with _ | ⟨a1, a⟩; · simp at h
  rcases a with _ | ⟨a2, a⟩; · simp at h
  rcases a with _ | ⟨a3, a⟩; · simp at h
  rcases a with _ | ⟨a4, a⟩
  · rfl
  · simp at h

theorem f32_fields (a : Nat) (h : a < 2 ^ 32) :
    a = f32_sign a * 2 ^ 31 + f32_exp a * 2 ^ 23 + f32_man a ∧
    f32_sign a ≤ 1 ∧ f32_exp a ≤ 255 ∧ f32_man a < 2 ^ 23 := by
  unfold f32_sign f32_exp f32_man
  omega

/-- The short-circuit mask of `ceil`, lane-wise: set exactly for a zero and for
a magnitude above `8388607.0` that is not a NaN. -/
theorem ceil_mask_eq (a : Nat) :
    (f32_cmp_gt (f32_abs a) f32_8388607 || f32_cmp_eq (f32_abs a) 0) =
      decide (a % 2 ^ 31 = 0 ∨ (0x4AFFFFFE < a % 2 ^ 31 ∧ a % 2 ^ 31 ≤ 0x7F800000)) := by
  have hb : a % 2 ^ 31 < 2 ^ 31 := Nat.mod_lt _ (by norm_num)
  generalize hbd : a % 2 ^ 31 = b at hb
  have hnan : f32_is_nan b ↔ 0x7F800000 < b := by
    unfold f32_is_nan f32_exp f32_man
    omega
  have hkey : f32_key b = (b : Int) := by
    unfold f32_key f32_sign
    have h1 : ¬ (b / 2 ^ 31 % 2 = 1) := by omega
    have h2 : b % 2 ^ 31 = b := by omega
    rw [if_neg h1, h2]
  have hc : ¬ f32_is_nan f32_8388607 := by decide
  have hz : ¬ f32_is_nan 0 := by decide
  have hkc : f32_key f32_8388607 = 0x4AFFFFFE := by decide
  have hkz : f32_key 0 = 0 := by decide
  rw [Bool.eq_iff_iff]
  simp only [f32_cmp_gt, f32_cmp_eq, f32_abs, hbd, hnan, hkey, hkc, hkz, hc, hz,
    Bool.or_eq_true, decide_eq_true_eq, not_false_eq_true, true_and]
  omega

theorem sign_flag_pos (a : Nat) (h : a < 2 ^ 31) :
    u32_bit_xor (u32_shift_r a 31) 0x00000001 = 1 := by
  have h0 : a / 2 ^ 31 = 0 := by omega
  unfold u32_bit_xor u32_shift_r
  rw [h0]
  rfl

theorem sign_flag_neg (a : Nat) (h1 : 2 ^ 31 ≤ a) (h2 : a < 2 ^ 32) :
    u32_bit_xor (u32_shift_r a 31) 0x00000001 = 0 := by
  have h0 : a / 2 ^ 31 = 1 := by omega
  unfold u32_bit_xor u32_shift_r
  rw [h0]
  rfl

theorem ceil_lane_masked (t : CeilTier) (a : Nat)
    (h : a % 2 ^ 31 = 0 ∨ (0x4AFFFFFE < a % 2 ^ 31 ∧ a % 2 ^ 31 ≤ 0x7F800000)) :
    ceil_lane t a = a := by
  unfold ceil_lane
  simp only [ceil_mask_eq, lane_blend]
  rw [if_pos (by simpa using h)]

theorem ceil_lane_pos (t : CeilTier) (a : Nat) (h1 : 0 < a) (h2 : a ≤ 0x4AFFFFFE) :
    ceil_lane t a = i32_to_float32 (i32_add (f32_to_int32 t (a - 1)) 1) := by
  unfold ceil_lane
  simp only [ceil_mask_eq, lane_blend]
  have hm : ¬ (a % 2 ^ 31 = 0 ∨ (0x4AFFFFFE < a % 2 ^ 31 ∧ a % 2 ^ 31 ≤ 0x7F800000)) := by
    omega
  rw [if_neg (by simpa using hm), sign_flag_pos a (by omega)]
  have hs : i32_sub a 1 = a - 1 := by
    unfold i32_sub
    omega
  rw [hs]


/-- Truncation of a float of magnitude below one. -/
theorem f32_to_int32_small (t : CeilTier) (a : Nat)
    (he : a % 2 ^ 31 < 127 * 2 ^ 23) : f32_to_int32 t a = 0 := by
  have h1 : f32_exp a < 127 := by
    unfold f32_exp
    omega
  unfold f32_to_int32
  simp only []
  rw [if_neg (by omega), if_pos h1]

/-- Truncation of a positive float with exponent field `150 - k`. -/
theorem f32_to_int32_pos (t : CeilTier) (k m : Nat) (hk1 : 1 ≤ k) (hk2 : k ≤ 23)
    (hm : m < 2 ^ 23) :
    f32_to_int32 t ((150 - k) * 2 ^ 23 + m) = (2 ^ 23 + m) / 2 ^ k := by
  have h1 : f32_exp ((150 - k) * 2 ^ 23 + m) = 150 - k := by
    unfold f32_exp
    omega
  have h2 : f32_man ((150 - k) * 2 ^ 23 + m) = m := by
    unfold f32_man
    omega
  have h3 : ¬ f32_sign ((150 - k) * 2 ^ 23 + m) = 1 := by
    unfold f32_sign
    omega
  unfold f32_to_int32
  simp only [h1, h2]
  rw [if_neg (by omega), if_neg (by omega), if_pos (by omega), if_neg h3]
  have h4 : 150 - k - 150 = 0 := by omega
  have h5 : 150 - (150 - k) = k := by omega
  rw [h4, h5]
  simp

/-- Truncation of a negative float with exponent field `150 - k`. -/
theorem f32_to_int32_neg (t : CeilTier) (k m : Nat) (hk1 : 1 ≤ k) (hk2 : k ≤ 23)
    (hm : m < 2 ^ 23) :
    f32_to_int32 t (2 ^ 31 + ((150 - k) * 2 ^ 23 + m)) = 2 ^ 32 - (2 ^ 23 + m) / 2 ^ k := by
  have h1 : f32_exp (2 ^ 31 + ((150 - k) * 2 ^ 23 + m)) = 150 - k := by
    unfold f32_exp
    omega
  have h2 : f32_man (2 ^ 31 + ((150 - k) * 2 ^ 23 + m)) = m := by
    unfold f32_man
    omega
  have h3 : f32_sign (2 ^ 31 + ((150 - k) * 2 ^ 23 + m)) = 1 := by
    unfold f32_sign
    omega
  unfold f32_to_int32
  simp only [h1, h2]
  rw [if_neg (by omega), if_neg (by omega), if_pos (by omega), if_pos h3]
  have h4 : 150 - k - 150 = 0 := by omega
  have h5 : 150 - (150 - k) = k := by omega
  rw [h4, h5]
  simp

theorem f32_param (a : Nat) (h1 : 127 * 2 ^ 23 ≤ a) (h2 : a < 150 * 2 ^ 23) :
    ∃ k m, 1 ≤ k ∧ k ≤ 23 ∧ m < 2 ^ 23 ∧ a = (150 - k) * 2 ^ 23 + m := by
  refine ⟨150 - a / 2 ^ 23, a % 2 ^ 23, ?_, ?_, ?_, ?_⟩ <;> omega

theorem f32_mag_param (k m : Nat) (hk1 : 1 ≤ k) (hk2 : k ≤ 23) (hm : m < 2 ^ 23) :
    f32_ceil_mag ((150 - k) * 2 ^ 23 + m) = (2 ^ 23 + m + 2 ^ k - 1) / 2 ^ k ∧
    f32_trunc_mag ((150 - k) * 2 ^ 23 + m) = (2 ^ 23 + m) / 2 ^ k := by
  have h1 : f32_exp ((150 - k) * 2 ^ 23 + m) = 150 - k := by
    unfold f32_exp
    omega
  have h2 : f32_man ((150 - k) * 2 ^ 23 + m) = m := by
    unfold f32_man
    omega
  have h5 : 150 - (150 - k) = k := by omega
  unfold f32_ceil_mag f32_trunc_mag f32_sig f32_scale
  rw [h1, h2, if_neg (by omega), if_neg (by omega), h5]
  exact ⟨rfl, rfl⟩

theorem f32_mag_small (a : Nat) (h0 : 0 < a) (h1 : a < 127 * 2 ^ 23) :
    f32_ceil_mag a = 1 ∧ f32_trunc_mag a = 0 := by
  have he : f32_exp a < 127 := by
    unfold f32_exp
    omega
  have hs1 : 0 < f32_sig a := by
    unfold f32_sig f32_exp f32_man
    split <;> omega
  have hs2 : f32_sig a < 2 ^ 24 := by
    unfold f32_sig f32_man
    split <;> omega
  have hj : 24 ≤ 150 - f32_scale a := by
    unfold f32_scale
    split <;> omega
  have hp : 2 ^ 24 ≤ 2 ^ (150 - f32_scale a) := Nat.pow_le_pow_right (by norm_num) hj
  unfold f32_ceil_mag f32_trunc_mag
  generalize 2 ^ (150 - f32_scale a) = d at hp
  constructor
  · apply Nat.div_eq_of_lt_le <;> omega
  · apply Nat.div_eq_of_lt
    omega

/-- The integer the emulated path converts back for a positive lane. -/
theorem ceil_int_pos (t : CeilTier) (a : Nat) (h1 : 0 < a) (h2 : a ≤ 0x4AFFFFFE) :
    i32_add (f32_to_int32 t (a - 1)) 1 = f32_ceil_mag a := by
  by_cases hsmall : a < 127 * 2 ^ 23
  · rw [(f32_mag_small a h1 hsmall).1, f32_to_int32_small t (a - 1) (by omega)]
    rfl
  · obtain ⟨k, m, hk1, hk2, hm, rfl⟩ := f32_param a (by omega) (by omega)
    rw [(f32_mag_param k m hk1 hk2 hm).1]
    by_cases hm0 : m = 0
    · subst hm0
      by_cases hk : k = 23
      · subst hk
        rw [f32_to_int32_small t _ (by omega)]
        rfl
      · have e1 : (150 - k) * 2 ^ 23 + 0 - 1 = (150 - (k + 1)) * 2 ^ 23 + (2 ^ 23 - 1) := by
          omega
        rw [e1, f32_to_int32_pos t (k + 1) (2 ^ 23 - 1) (by omega) (by omega) (by omega)]
        unfold i32_add
        interval_cases k <;> rfl
    · have e1 : (150 - k) * 2 ^ 23 + m - 1 = (150 - k) * 2 ^ 23 + (m - 1) := by omega
      rw [e1, f32_to_int32_pos t k (m - 1) hk1 hk2 (by omega)]
      unfold i32_add
      interval_cases k <;> omega

/-- The integer the emulated path converts back for a negative lane. -/
theorem ceil_int_neg (t : CeilTier) (b : Nat) (h1 : 0 < b) (h2 : b ≤ 0x4AFFFFFE) :
    i32_add (f32_to_int32 t (2 ^ 31 + b)) 0 = (2 ^ 32 - f32_trunc_mag b) % 2 ^ 32 ∧
    f32_trunc_mag b ≤ 8388607 := by
  by_cases hsmall : b < 127 * 2 ^ 23
  · rw [(f32_mag_small b h1 hsmall).2, f32_to_int32_small t _ (by omega)]
    exact ⟨rfl, by omega⟩
  · obtain ⟨k, m, hk1, hk2, hm, rfl⟩ := f32_param b (by omega) (by omega)
    rw [(f32_mag_param k m hk1 hk2 hm).2, f32_to_int32_neg t k m hk1 hk2 hm]
    unfold i32_add
    interval_cases k <;> omega

theorem f32_ceil_mag_bounds (a : Nat) (h1 : 0 < a) (h2 : a ≤ 0x4AFFFFFE) :
    1 ≤ f32_ceil_mag a ∧ f32_ceil_mag a ≤ 8388607 := by
  by_cases hsmall : a < 127 * 2 ^ 23
  · rw [(f32_mag_small a h1 hsmall).1]
    omega
  · obtain ⟨k, m, hk1, hk2, hm, rfl⟩ := f32_param a (by omega) (by omega)
    rw [(f32_mag_param k m hk1 hk2 hm).1]
    interval_cases k <;> omega

theorem ceil_lane_neg (t : CeilTier) (b : Nat) (h1 : 0 < b) (h2 : b ≤ 0x4AFFFFFE) :
    ceil_lane t (2 ^ 31 + b) = i32_to_float32 ((2 ^ 32 - f32_trunc_mag b) % 2 ^ 32) := by
  unfold ceil_lane
  simp only [ceil_mask_eq, lane_blend]
  have hm : ¬ ((2 ^ 31 + b) % 2 ^ 31 = 0 ∨
      (0x4AFFFFFE < (2 ^ 31 + b) % 2 ^ 31 ∧ (2 ^ 31 + b) % 2 ^ 31 ≤ 0x7F800000)) := by
    omega
  rw [if_neg (by simpa using hm), sign_flag_neg _ (by omega) (by omega)]
  have hs : i32_sub (2 ^ 31 + b) 0 = 2 ^ 31 + b := by
    unfold i32_sub
    omega
  rw [hs, (ceil_int_neg t b h1 h2).1]

theorem ceil_lane_pos_mag (t : CeilTier) (a : Nat) (h1 : 0 < a) (h2 : a ≤ 0x4AFFFFFE) :
    ceil_lane t a = i32_to_float32 (f32_ceil_mag a) := by
  rw [ceil_lane_pos t a h1 h2, ceil_int_pos t a h1 h2]

theorem leading_bit_eq (fuel n p : Nat) (hp : p < fuel) (h1 : 2 ^ p ≤ n)
    (h2 : n < 2 ^ (p + 1)) : leading_bit fuel n = p := by
  induction fuel generalizing n p with
  | zero => omega
  | succ f ih =>
    unfold leading_bit
    cases p with
    | zero =>
      simp at h1 h2
      rw [if_pos (by omega)]
    | succ q =>
      have e1 : 2 ^ (q + 1) = 2 * 2 ^ q := by rw [pow_succ]; omega
      have e2 : 2 ^ (q + 1 + 1) = 2 * 2 ^ (q + 1) := by rw [pow_succ]; omega
      have hq : 0 < 2 ^ q := Nat.two_pow_pos _
      rw [if_neg (by omega), ih (n / 2) q (by omega) (by omega) (by omega)]

/-- Conversion of a positive integer below `2^24` whose leading bit is bit `p`. -/
theorem i32_to_float32_pos (n p : Nat) (hp : p ≤ 23) (h1 : 2 ^ p ≤ n)
    (h2 : n < 2 ^ (p + 1)) :
    i32_to_float32 n = (127 + p) * 2 ^ 23 + (n * 2 ^ (23 - p) - 2 ^ 23) := by
  have hn : n < 2 ^ 24 := lt_of_lt_of_le h2 (Nat.pow_le_pow_right (by norm_num) (by omega))
  have hpos : 0 < 2 ^ p := Nat.two_pow_pos _
  have c1 : ¬ 2 ^ 31 ≤ n := by omega
  have c2 : ¬ n = 0 := by omega
  unfold i32_to_float32
  simp only [if_neg c1, if_neg c2, leading_bit_eq 32 n p (by omega) h1 h2, if_pos hp]
  omega

/-- Conversion of a negative integer above `-2^24` whose magnitude has leading
bit `p`. -/
theorem i32_to_float32_neg (n p : Nat) (hp : p ≤ 23) (h1 : 2 ^ p ≤ n)
    (h2 : n < 2 ^ (p + 1)) :
    i32_to_float32 (2 ^ 32 - n) = 2 ^ 31 + (127 + p) * 2 ^ 23 + (n * 2 ^ (23 - p) - 2 ^ 23) := by
  have hn : n < 2 ^ 24 := lt_of_lt_of_le h2 (Nat.pow_le_pow_right (by norm_num) (by omega))
  have hpos : 0 < 2 ^ p := Nat.two_pow_pos _
  have e : 2 ^ 32 - (2 ^ 32 - n) = n := by omega
  have c1 : 2 ^ 31 ≤ 2 ^ 32 - n := by omega
  have c2 : ¬ n = 0 := by omega
  unfold i32_to_float32
  simp only [if_pos c1, e, if_neg c2, leading_bit_eq 32 n p (by omega) h1 h2, if_pos hp]

theorem rat_ceil_div (M d : Nat) (hd : 0 < d) :
    ⌈(M : ℚ) / (d : ℚ)⌉ = (((M + d - 1) / d : Nat) : Int) := by
  rw [Int.ceil_eq_iff]
  have hdq : (0 : ℚ) < (d : ℚ) := by exact_mod_cast hd
  have h0 := Nat.div_add_mod (M + d - 1) d
  have hr : (M + d - 1) % d < d := Nat.mod_lt _ hd
  generalize (M + d - 1) / d = q at h0 ⊢
  generalize (M + d - 1) % d = r at h0 hr
  rw [Nat.mul_comm] at h0
  have h1 : q * d < M + d := by omega
  have h2 : M ≤ q * d := by omega
  constructor
  · rw [lt_div_iff₀ hdq]
    have : ((q * d : Nat) : ℚ) < ((M + d : Nat) : ℚ) := by exact_mod_cast h1
    push_cast at this ⊢
    linarith
  · rw [div_le_iff₀ hdq]
    have : ((M : Nat) : ℚ) ≤ ((q * d : Nat) : ℚ) := by exact_mod_cast h2
    push_cast at this ⊢
    linarith

theorem rat_ceil_neg_div (M d : Nat) :
    ⌈-((M : ℚ) / (d : ℚ))⌉ = -(((M / d : Nat)) : Int) := by
  rw [Int.ceil_neg, Rat.floor_natCast_div_natCast]
  simp

/-- Fixed points of the emulated path: an unmasked lane whose magnitude has no
fractional part is returned as it is, for either sign. -/
theorem ceil_lane_fix (t : CeilTier) (b : Nat) (h1 : 0 < b) (h2 : b ≤ 0x4AFFFFFE)
    (hint : f32_ceil_mag b = f32_trunc_mag b) :
    ceil_lane t b = b ∧ ceil_lane t (2 ^ 31 + b) = 2 ^ 31 + b := by
  by_cases hsmall : b < 127 * 2 ^ 23
  · have := f32_mag_small b h1 hsmall
    omega
  · rw [ceil_lane_pos_mag t b h1 h2, ceil_lane_neg t b h1 h2, hint]
    obtain ⟨k, m, hk1, hk2, hm, rfl⟩ := f32_param b (by omega) (by omega)
    rw [(f32_mag_param k m hk1 hk2 hm).1, (f32_mag_param k m hk1 hk2 hm).2] at hint
    rw [(f32_mag_param k m hk1 hk2 hm).2]
    have hp : 23 - k ≤ 23 := by omega
    have hu1 : 2 ^ (23 - k) ≤ (2 ^ 23 + m) / 2 ^ k := by
      interval_cases k <;> omega
    have hu2 : (2 ^ 23 + m) / 2 ^ k < 2 ^ (23 - k + 1) := by
      interval_cases k <;> omega
    have hmod : (2 ^ 32 - (2 ^ 23 + m) / 2 ^ k) % 2 ^ 32 = 2 ^ 32 - (2 ^ 23 + m) / 2 ^ k := by
      interval_cases k <;> omega
    rw [hmod, i32_to_float32_pos _ (23 - k) hp hu1 hu2,
      i32_to_float32_neg _ (23 - k) hp hu1 hu2]
    have e : 23 - (23 - k) = k := by omega
    rw [e]
    constructor <;> (interval_cases k <;> omega)

/-- The emulated path returns the float of every nonzero integer of magnitude at
most 8388607 as it is. -/
theorem ceil_lane_fix_int (t : CeilTier) (u : Nat) (h1 : 1 ≤ u) (h2 : u ≤ 8388607) :
    ceil_lane t (i32_to_float32 u) = i32_to_float32 u ∧
    ceil_lane t (i32_to_float32 (2 ^ 32 - u)) = i32_to_float32 (2 ^ 32 - u) := by
  have hu0 : u ≠ 0 := by omega
  have hp1 : 2 ^ Nat.log 2 u ≤ u := Nat.pow_log_le_self 2 hu0
  have hp2 : u < 2 ^ (Nat.log 2 u + 1) := Nat.lt_pow_succ_log_self (by norm_num) u
  have hp3 : Nat.log 2 u < 23 := by
    have : 2 ^ Nat.log 2 u < 2 ^ 23 := by omega
    exact (Nat.pow_lt_pow_iff_right (by norm_num)).1 this
  generalize Nat.log 2 u = p at hp1 hp2 hp3
  obtain ⟨k, hk1, hk2, rfl⟩ : ∃ k, 1 ≤ k ∧ k ≤ 23 ∧ p = 23 - k :=
    ⟨23 - p, by omega, by omega, by omega⟩
  rw [i32_to_float32_pos u (23 - k) (by omega) hp1 hp2,
    i32_to_float32_neg u (23 - k) (by omega) hp1 hp2]
  have e1 : 127 + (23 - k) = 150 - k := by omega
  have e2 : 23 - (23 - k) = k := by omega
  rw [e1, e2]
  have hm : u * 2 ^ k - 2 ^ 23 < 2 ^ 23 := by
    interval_cases k <;> omega
  have hb : (150 - k) * 2 ^ 23 + (u * 2 ^ k - 2 ^ 23) ≤ 0x4AFFFFFE := by
    interval_cases k <;> omega
  have hmag := f32_mag_param k (u * 2 ^ k - 2 ^ 23) hk1 hk2 hm
  have hint : f32_ceil_mag ((150 - k) * 2 ^ 23 + (u * 2 ^ k - 2 ^ 23)) =
      f32_trunc_mag ((150 - k) * 2 ^ 23 + (u * 2 ^ k - 2 ^ 23)) := by
    rw [hmag.1, hmag.2]
    interval_cases k <;> omega
  have hfix := ceil_lane_fix t _ (by omega) hb hint
  rw [Nat.add_assoc]
  exact hfix

/-- Lane-wise idempotence of the emulated `ceil` on finite inputs. -/
theorem ceil_lane_idem (t : CeilTier) (a : Nat) (h : a < 2 ^ 32) (hfin : f32_is_finite a) :
    ceil_lane t (ceil_lane t a) = ceil_lane t a := by
  have hb : a % 2 ^ 31 < 0x7F800000 := by
    unfold f32_is_finite f32_exp at hfin
    omega
  by_cases hmask : a % 2 ^ 31 = 0 ∨ (0x4AFFFFFE < a % 2 ^ 31 ∧ a % 2 ^ 31 ≤ 0x7F800000)
  · rw [ceil_lane_masked t a hmask, ceil_lane_masked t a hmask]
  · by_cases hs : a < 2 ^ 31
    · have h1 : 0 < a := by omega
      have h2 : a ≤ 0x4AFFFFFE := by omega
      rw [ceil_lane_pos_mag t a h1 h2]
      have hbd := f32_ceil_mag_bounds a h1 h2
      exact (ceil_lane_fix_int t _ hbd.1 hbd.2).1
    · obtain ⟨b, rfl⟩ : ∃ b, a = 2 ^ 31 + b := ⟨a - 2 ^ 31, by omega⟩
      have h1 : 0 < b := by omega
      have h2 : b ≤ 0x4AFFFFFE := by omega
      rw [ceil_lane_neg t b h1 h2]
      have hbd := (ceil_int_neg t b h1 h2).2
      by_cases h0 : f32_trunc_mag b = 0
      · rw [h0]
        have e0 : i32_to_float32 ((2 ^ 32 - 0) % 2 ^ 32) = 0 := by decide
        rw [e0]
        exact ceil_lane_masked t 0 (Or.inl rfl)
      · have e1 : (2 ^ 32 - f32_trunc_mag b) % 2 ^ 32 = 2 ^ 32 - f32_trunc_mag b := by omega
        rw [e1]
        exact (ceil_lane_fix_int t _ (by omega) hbd).2

theorem f32_fields_neg (b : Nat) (hb : b < 2 ^ 31) :
    f32_sign (2 ^ 31 + b) = 1 ∧ f32_sign b = 0 ∧ f32_exp (2 ^ 31 + b) = f32_exp b ∧
    f32_man (2 ^ 31 + b) = f32_man b := by
  unfold f32_sign f32_exp f32_man
  omega

theorem f32_val_pos (b : Nat) (hb : b < 2 ^ 31) (he : f32_exp b ≤ 150) :
    f32_val b = (f32_sig b : ℚ) / ((2 ^ (150 - f32_scale b) : Nat) : ℚ) := by
  have hs : ¬ f32_sign b = 1 := by
    rw [(f32_fields_neg b hb).2.1]
    omega
  have hsc : f32_scale b - 150 = 0 := by
    unfold f32_scale
    split <;> omega
  unfold f32_val
  rw [if_neg hs, hsc]
  push_cast
  ring

theorem f32_val_neg (b : Nat) (hb : b < 2 ^ 31) : f32_val (2 ^ 31 + b) = - f32_val b := by
  obtain ⟨h1, h2, h3, h4⟩ := f32_fields_neg b hb
  have hs : ¬ f32_sign b = 1 := by omega
  unfold f32_val f32_sig f32_scale
  rw [h1, h3, h4, if_pos rfl, if_neg hs]
  ring

theorem f32_ceil_val_pos (b : Nat) (hb : b < 2 ^ 31) (he : f32_exp b ≤ 150) :
    ⌈f32_val b⌉ = (f32_ceil_mag b : Int) ∧ ⌊f32_val b⌋ = (f32_trunc_mag b : Int) := by
  rw [f32_val_pos b hb he]
  constructor
  · rw [rat_ceil_div _ _ (Nat.two_pow_pos _)]
    rfl
  · rw [Rat.floor_natCast_div_natCast]
    rfl

theorem f32_ceil_val_neg (b : Nat) (hb : b < 2 ^ 31) (he : f32_exp b ≤ 150) :
    ⌈f32_val (2 ^ 31 + b)⌉ = -(f32_trunc_mag b : Int) := by
  rw [f32_val_neg b hb, f32_val_pos b hb he, rat_ceil_neg_div]
  rfl

theorem f32_integral_mag (b : Nat) (hb : b < 2 ^ 31) (he : f32_exp b ≤ 150)
    (hz : ∃ z : Int, f32_val b = z) : f32_ceil_mag b = f32_trunc_mag b := by
  obtain ⟨z, hz⟩ := hz
  obtain ⟨h1, h2⟩ := f32_ceil_val_pos b hb he
  rw [hz, Int.ceil_intCast] at h1
  rw [hz, Int.floor_intCast] at h2
  omega

theorem f32_exp_le_of_le (b : Nat) (h2 : b ≤ 0x4AFFFFFE) : f32_exp b ≤ 150 := by
  unfold f32_exp
  omega

/-- Lane-wise: the emulated `ceil` returns an integral-valued finite float as it
is. -/
theorem ceil_lane_integral (t : CeilTier) (a : Nat) (h : a < 2 ^ 32)
    (hfin : f32_is_finite a) (hz : ∃ z : Int, f32_val a = z) : ceil_lane t a = a := by
  have hb : a % 2 ^ 31 < 0x7F800000 := by
    unfold f32_is_finite f32_exp at hfin
    omega
  by_cases hmask : a % 2 ^ 31 = 0 ∨ (0x4AFFFFFE < a % 2 ^ 31 ∧ a % 2 ^ 31 ≤ 0x7F800000)
  · exact ceil_lane_masked t a hmask
  · by_cases hs : a < 2 ^ 31
    · have h1 : 0 < a := by omega
      have h2 : a ≤ 0x4AFFFFFE := by omega
      exact (ceil_lane_fix t a h1 h2
        (f32_integral_mag a hs (f32_exp_le_of_le a h2) hz)).1
    · obtain ⟨b, rfl⟩ : ∃ b, a = 2 ^ 31 + b := ⟨a - 2 ^ 31, by omega⟩
      have h1 : 0 < b := by omega
      have h2 : b ≤ 0x4AFFFFFE := by omega
      have hb31 : b < 2 ^ 31 := by omega
      obtain ⟨z, hz⟩ := hz
      rw [f32_val_neg b hb31] at hz
      have hz2 : ∃ y : Int, f32_val b = y := ⟨-z, by push_cast; linarith⟩
      exact (ceil_lane_fix t b h1 h2
        (f32_integral_mag b hb31 (f32_exp_le_of_le b h2) hz2)).2

theorem std_ceil_pos (b : Nat) (h1 : 0 < b) (h2 : b ≤ 0x4AFFFFFE) :
    std_ceil b = i32_to_float32 (f32_ceil_mag b) := by
  have he : f32_exp b ≤ 149 := by
    unfold f32_exp
    omega
  have hnan : ¬ f32_is_nan b := by
    unfold f32_is_nan
    omega
  have hbd := f32_ceil_mag_bounds b h1 h2
  have hc := (f32_ceil_val_pos b (by omega) (by omega)).1
  unfold std_ceil
  rw [if_neg hnan, if_neg (by omega)]
  simp only [hc]
  rw [if_neg (by omega)]
  congr 1
  omega

theorem std_ceil_neg (b : Nat) (h1 : 0 < b) (h2 : b ≤ 0x4AFFFFFE) :
    std_ceil (2 ^ 31 + b) =
      if f32_trunc_mag b = 0 then 2 ^ 31 else i32_to_float32 (2 ^ 32 - f32_trunc_mag b) := by
  have hb31 : b < 2 ^ 31 := by omega
  obtain ⟨f1, _, f3, f4⟩ := f32_fields_neg b hb31
  have he : f32_exp b ≤ 149 := by
    unfold f32_exp
    omega
  have hnan : ¬ f32_is_nan (2 ^ 31 + b) := by
    unfold f32_is_nan
    omega
  have hbd := (ceil_int_neg .sse2 b h1 h2).2
  have hc := f32_ceil_val_neg b hb31 (by omega)
  unfold std_ceil
  rw [if_neg hnan, if_neg (by omega)]
  simp only [hc, f1]
  by_cases h0 : f32_trunc_mag b = 0
  · rw [if_pos h0, if_pos (by omega)]
    norm_num
  · rw [if_neg h0, if_neg (by omega)]
    congr 1
    omega

theorem std_ceil_unchanged (a : Nat) (h : a < 2 ^ 32) (hnan : ¬ f32_is_nan a)
    (hmask : a % 2 ^ 31 = 0 ∨ 0x4AFFFFFF < a % 2 ^ 31) : std_ceil a = a := by
  rcases hmask with h0 | hbig
  · have ha : a = 0 ∨ a = 2 ^ 31 := by omega
    rcases ha with rfl | rfl
    · norm_num [std_ceil, f32_is_nan, f32_val, f32_sig, f32_scale, f32_exp, f32_man, f32_sign]
    · norm_num [std_ceil, f32_is_nan, f32_val, f32_sig, f32_scale, f32_exp, f32_man, f32_sign]
  · have he : 150 ≤ f32_exp a := by
      unfold f32_exp
      omega
    unfold std_ceil
    rw [if_neg hnan, if_pos he]

/-- Lane-wise comparison of the emulated path with `std::ceil`. -/
theorem ceil_lane_vs_std (t : CeilTier) (a : Nat) (h : a < 2 ^ 32) (hnan : ¬ f32_is_nan a)
    (hmag : f32_abs a ≠ 0x4AFFFFFF) :
    (f32_is_neg_fraction a → ceil_lane t a = 0 ∧ std_ceil a = 0x80000000) ∧
    (¬ f32_is_neg_fraction a → ceil_lane t a = std_ceil a) := by
  have hb : a % 2 ^ 31 ≤ 0x7F800000 := by
    unfold f32_is_nan f32_exp f32_man at hnan
    omega
  unfold f32_abs at hmag
  unfold f32_is_neg_fraction f32_abs f32_sign
  by_cases hmask : a % 2 ^ 31 = 0 ∨ (0x4AFFFFFE < a % 2 ^ 31 ∧ a % 2 ^ 31 ≤ 0x7F800000)
  · constructor
    · intro hf
      omega
    · intro _
      rw [ceil_lane_masked t a hmask, std_ceil_unchanged a h hnan (by omega)]
  · by_cases hs : a < 2 ^ 31
    · have h1 : 0 < a := by omega
      have h2 : a ≤ 0x4AFFFFFE := by omega
      constructor
      · intro hf
        omega
      · intro _
        rw [ceil_lane_pos_mag t a h1 h2, std_ceil_pos a h1 h2]
    · obtain ⟨b, rfl⟩ : ∃ b, a = 2 ^ 31 + b := ⟨a - 2 ^ 31, by omega⟩
      have h1 : 0 < b := by omega
      have h2 : b ≤ 0x4AFFFFFE := by omega
      rw [ceil_lane_neg t b h1 h2, std_ceil_neg b h1 h2]
      by_cases hsmall : b < 127 * 2 ^ 23
      · have h0 := (f32_mag_small b h1 hsmall).2
        rw [h0, if_pos rfl]
        constructor
        · intro _
          exact ⟨by decide, by norm_num⟩
        · intro hf
          omega
      · obtain ⟨k, m, hk1, hk2, hm, rfl⟩ := f32_param b (by omega) (by omega)
        have hmg := (f32_mag_param k m hk1 hk2 hm).2
        have hpos : 1 ≤ f32_trunc_mag ((150 - k) * 2 ^ 23 + m) := by
          rw [hmg]
          interval_cases k <;> omega
        have hbd := (ceil_int_neg t _ h1 h2).2
        constructor
        · intro hf
          omega
        · intro _
          rw [if_neg (by omega)]
          congr 1
          omega

/-! ### Checks of the float32 model against the decoded values -/

/-- The constant of the large-magnitude comparison decodes to `8388607`. -/
theorem f32_val_8388607 : f32_val f32_8388607 = 8388607 := by
  norm_num [f32_8388607, f32_val, f32_sig, f32_scale, f32_exp, f32_man, f32_sign]

theorem f32_val_big (b : Nat) (hb : b < 2 ^ 31) (he : 150 ≤ f32_exp b) :
    f32_val b = ((f32_sig b * 2 ^ (f32_scale b - 150) : Nat) : ℚ) ∧
    2 ^ 23 ≤ f32_sig b * 2 ^ (f32_scale b - 150) := by
  have hs : ¬ f32_sign b = 1 := by
    rw [(f32_fields_neg b hb).2.1]
    omega
  have hsc : 150 - f32_scale b = 0 := by
    unfold f32_scale
    split <;> omega
  have hsig : 2 ^ 23 ≤ f32_sig b := by
    unfold f32_sig
    rw [if_neg (by omega)]
    omega
  constructor
  · unfold f32_val
    rw [if_neg hs, hsc]
    push_cast
    ring
  · calc 2 ^ 23 ≤ f32_sig b := hsig
      _ = f32_sig b * 1 := (Nat.mul_one _).symm
      _ ≤ f32_sig b * 2 ^ (f32_scale b - 150) :=
        Nat.mul_le_mul_left _ (Nat.one_le_two_pow)

/-- For a non-negative bit pattern, being above the bit pattern of `8388607.0f`
is having a value above `8388607`, and being the zero pattern is having the value
zero: the short-circuit mask of `ceil` is set exactly for the non-NaN lanes of
magnitude greater than `8388607.0` or equal to zero. -/
theorem f32_order_check (b : Nat) (hb : b < 2 ^ 31) :
    (0x4AFFFFFE < b ↔ 8388607 < f32_val b) ∧ (b = 0 ↔ f32_val b = 0) := by
  by_cases he : f32_exp b ≤ 150
  · obtain ⟨hc, hf⟩ := f32_ceil_val_pos b hb he
    have hlt : (8388607 < f32_val b) ↔ 8388607 < f32_ceil_mag b := by
      have := @Int.lt_ceil ℚ _ _ 8388607 (f32_val b)
      rw [hc] at this
      simp only [Int.cast_ofNat] at this
      rw [← this]
      omega
    have hzero : f32_val b = 0 ↔ f32_ceil_mag b = 0 := by
      constructor
      · intro h0
        rw [h0] at hc
        simp at hc
        omega
      · intro h0
        have h1 : ⌈f32_val b⌉ ≤ 0 := by rw [hc, h0]; simp
        have h2 : (0 : ℚ) ≤ f32_val b := by
          rw [f32_val_pos b hb he]
          positivity
        have h3 : f32_val b ≤ 0 := by
          have := Int.ceil_le.1 h1
          simpa using this
        linarith
    rw [hlt, hzero]
    by_cases h0 : b = 0
    · subst h0
      have : f32_ceil_mag 0 = 0 := by decide
      omega
    · by_cases hsmall : b < 127 * 2 ^ 23
      · have := (f32_mag_small b (by omega) hsmall).1
        omega
      · have hlt151 : b < 151 * 2 ^ 23 := by
          unfold f32_exp at he
          omega
        by_cases h150 : b < 150 * 2 ^ 23
        · obtain ⟨k, m, hk1, hk2, hm, rfl⟩ := f32_param b (by omega) h150
          rw [(f32_mag_param k m hk1 hk2 hm).1]
          constructor
          · constructor
            · intro h
              interval_cases k <;> omega
            · intro h
              interval_cases k <;> omega
          · constructor
            · intro h
              omega
            · intro h
              interval_cases k <;> omega
        · have e1 : f32_exp b = 150 := by
            unfold f32_exp at he ⊢
            omega
          have e2 : f32_ceil_mag b = 2 ^ 23 + f32_man b := by
            unfold f32_ceil_mag f32_sig f32_scale
            rw [e1]
            simp
          rw [e2]
          omega
  · obtain ⟨hv, hbig⟩ := f32_val_big b hb (by omega)
    have he2 : 151 * 2 ^ 23 ≤ b := by
      unfold f32_exp at he
      omega
    rw [hv]
    constructor
    · constructor
      · intro _
        have : (8388607 : ℚ) = ((8388607 : Nat) : ℚ) := by norm_num
        rw [this]
        exact_mod_cast (by omega : 8388607 < f32_sig b * 2 ^ (f32_scale b - 150))
      · intro _
        omega
    · constructor
      · intro h
        omega
      · intro h
        have : f32_sig b * 2 ^ (f32_scale b - 150) = 0 := by exact_mod_cast h
        omega

/-- A bit pattern satisfies `f32_is_neg_fraction` exactly when its value is
strictly between -1 and 0. -/
theorem f32_is_neg_fraction_iff (a : Nat) (h : a < 2 ^ 32) :
    f32_is_neg_fraction a ↔ (-1 < f32_val a ∧ f32_val a < 0) := by
  by_cases hs : a < 2 ^ 31
  · have hsign : f32_sign a = 0 := (f32_fields_neg a hs).2.1
    have hnn : (0 : ℚ) ≤ f32_val a := by
      unfold f32_val
      rw [if_neg (by omega)]
      positivity
    unfold f32_is_neg_fraction
    constructor
    · intro hf
      omega
    · intro hv
      linarith [hv.2]
  · obtain ⟨b, rfl⟩ : ∃ b, a = 2 ^ 31 + b := ⟨a - 2 ^ 31, by omega⟩
    have hb : b < 2 ^ 31 := by omega
    have hsign : f32_sign (2 ^ 31 + b) = 1 := (f32_fields_neg b hb).1
    have habs : f32_abs (2 ^ 31 + b) = b := by
      unfold f32_abs
      omega
    rw [f32_val_neg b hb]
    unfold f32_is_neg_fraction
    rw [hsign, habs]
    have hz := (f32_order_check b hb).2
    by_cases he : f32_exp b ≤ 150
    · obtain ⟨hc, hf⟩ := f32_ceil_val_pos b hb he
      have hlt1 : f32_val b < 1 ↔ f32_trunc_mag b < 1 := by
        have := @Int.floor_lt ℚ _ _ 1 (f32_val b)
        rw [hf] at this
        simp only [Int.cast_one] at this
        rw [← this]
        omega
      have hnn : (0 : ℚ) ≤ f32_val b := by
        rw [f32_val_pos b hb he]
        positivity
      have hpos : 0 < f32_val b ↔ b ≠ 0 := by
        constructor
        · intro h1 h2
          have := hz.1 h2
          linarith
        · intro h1
          exact lt_of_le_of_ne hnn (fun h2 => h1 (hz.2 h2.symm))
      have htr : f32_trunc_mag b < 1 ↔ b < 0x3F800000 := by
        by_cases h0 : b = 0
        · subst h0
          have : f32_trunc_mag 0 = 0 := by decide
          omega
        · by_cases hsmall : b < 127 * 2 ^ 23
          · have := (f32_mag_small b (by omega) hsmall).2
            omega
          · have hlt151 : b < 151 * 2 ^ 23 := by
              unfold f32_exp at he
              omega
            by_cases h150 : b < 150 * 2 ^ 23
            · obtain ⟨k, m, hk1, hk2, hm, rfl⟩ := f32_param b (by omega) h150
              rw [(f32_mag_param k m hk1 hk2 hm).2]
              constructor
              · intro h
                interval_cases k <;> omega
              · intro h
                omega
            · have e1 : f32_exp b = 150 := by
                unfold f32_exp at he ⊢
                omega
              have e2 : f32_trunc_mag b = 2 ^ 23 + f32_man b := by
                unfold f32_trunc_mag f32_sig f32_scale
                rw [e1]
                simp
              rw [e2]
              omega
      constructor
      · rintro ⟨_, h1, h2⟩
        have := hlt1.2 (htr.2 h2)
        have := hpos.2 (by omega)
        constructor <;> linarith
      · rintro ⟨h1, h2⟩
        have hb0 : b ≠ 0 := hpos.1 (by linarith)
        have := htr.1 (hlt1.1 (by linarith))
        exact ⟨rfl, by omega, this⟩
    · obtain ⟨hv, hbig⟩ := f32_val_big b hb (by omega)
      have he2 : 151 * 2 ^ 23 ≤ b := by
        unfold f32_exp at he
        omega
      constructor
      · rintro ⟨_, _, h2⟩
        omega
      · rintro ⟨h1, _⟩
        rw [hv] at h1
        have h3 : ((f32_sig b * 2 ^ (f32_scale b - 150) : Nat) : ℚ) < ((1 : Nat) : ℚ) := by
          push_cast at h1 ⊢
          linarith
        have h4 : f32_sig b * 2 ^ (f32_scale b - 150) < 1 := by exact_mod_cast h3
        omega

theorem f32_to_int32_nan (t : CeilTier) (a : Nat) (hnan : f32_is_nan a) :
    f32_to_int32 t a = match t with
      | .sse2 => 0x80000000
      | .neon_flt_sp => 0 := by
  unfold f32_is_nan at hnan
  unfold f32_to_int32
  simp only []
  rw [if_pos hnan]

theorem f32_to_int32_inf (t : CeilTier) :
    f32_to_int32 t 0x7F800000 = match t with
      | .sse2 => 0x80000000
      | .neon_flt_sp => 0x7FFFFFFF := by
  cases t <;> decide

/-- The emulated path never returns a NaN for a NaN lane, whatever its payload,
on either tier. -/
theorem ceil_lane_nan (t : CeilTier) (a : Nat) (h : a < 2 ^ 32) (hnan : f32_is_nan a) :
    ¬ f32_is_nan (ceil_lane t a) := by
  have hb : 0x7F800000 < a % 2 ^ 31 := by
    unfold f32_is_nan f32_exp f32_man at hnan
    omega
  have hm : ¬ (a % 2 ^ 31 = 0 ∨ (0x4AFFFFFE < a % 2 ^ 31 ∧ a % 2 ^ 31 ≤ 0x7F800000)) := by
    omega
  unfold ceil_lane
  simp only [ceil_mask_eq, lane_blend]
  rw [if_neg (by simpa using hm)]
  by_cases hs : a < 2 ^ 31
  · rw [sign_flag_pos a hs]
    have hsub : i32_sub a 1 = a - 1 := by
      unfold i32_sub
      omega
    rw [hsub]
    by_cases hinf : a - 1 = 0x7F800000
    · rw [hinf, f32_to_int32_inf]
      cases t <;> decide
    · have hn2 : f32_is_nan (a - 1) := by
        unfold f32_is_nan f32_exp f32_man
        omega
      rw [f32_to_int32_nan t _ hn2]
      cases t <;> decide
  · rw [sign_flag_neg a (by omega) h]
    have hsub : i32_sub a 0 = a := by
      unfold i32_sub
      omega
    rw [hsub, f32_to_int32_nan t _ hnan]
    cases t <;> decide


theorem f32_sig_param (k m : Nat) (hk1 : 1 ≤ k) (hk2 : k ≤ 23) (hm : m < 2 ^ 23) :
    f32_sig ((150 - k) * 2 ^ 23 + m) = 2 ^ 23 + m ∧
    150 - f32_scale ((150 - k) * 2 ^ 23 + m) = k ∧
    f32_exp ((150 - k) * 2 ^ 23 + m) = 150 - k := by
  have h1 : f32_exp ((150 - k) * 2 ^ 23 + m) = 150 - k := by
    unfold f32_exp
    omega
  have h2 : f32_man ((150 - k) * 2 ^ 23 + m) = m := by
    unfold f32_man
    omega
  unfold f32_sig f32_scale
  rw [h1, h2, if_neg (by omega), if_neg (by omega)]
  exact ⟨rfl, by omega, rfl⟩

/-- Decoding the float of a nonzero integer of magnitude below `2^23` gives the
integer back. -/
theorem f32_val_of_int (u : Nat) (h1 : 1 ≤ u) (h2 : u ≤ 8388607) :
    f32_val (i32_to_float32 u) = (u : ℚ) ∧
    f32_val (i32_to_float32 (2 ^ 32 - u)) = -(u : ℚ) := by
  have hu0 : u ≠ 0 := by omega
  have hp1 : 2 ^ Nat.log 2 u ≤ u := Nat.pow_log_le_self 2 hu0
  have hp2 : u < 2 ^ (Nat.log 2 u + 1) := Nat.lt_pow_succ_log_self (by norm_num) u
  have hp3 : Nat.log 2 u < 23 := by
    have : 2 ^ Nat.log 2 u < 2 ^ 23 := by omega
    exact (Nat.pow_lt_pow_iff_right (by norm_num)).1 this
  generalize Nat.log 2 u = p at hp1 hp2 hp3
  obtain ⟨k, hk1, hk2, rfl⟩ : ∃ k, 1 ≤ k ∧ k ≤ 23 ∧ p = 23 - k :=
    ⟨23 - p, by omega, by omega, by omega⟩
  rw [i32_to_float32_pos u (23 - k) (by omega) hp1 hp2,
    i32_to_float32_neg u (23 - k) (by omega) hp1 hp2]
  have e1 : 127 + (23 - k) = 150 - k := by omega
  have e2 : 23 - (23 - k) = k := by omega
  rw [e1, e2]
  have hm : u * 2 ^ k - 2 ^ 23 < 2 ^ 23 := by
    interval_cases k <;> omega
  have hsum : 2 ^ 23 + (u * 2 ^ k - 2 ^ 23) = u * 2 ^ k := by
    interval_cases k <;> omega
  have hb31 : (150 - k) * 2 ^ 23 + (u * 2 ^ k - 2 ^ 23) < 2 ^ 31 := by omega
  obtain ⟨s1, s2, s3⟩ := f32_sig_param k (u * 2 ^ k - 2 ^ 23) hk1 hk2 hm
  have hv : f32_val ((150 - k) * 2 ^ 23 + (u * 2 ^ k - 2 ^ 23)) = (u : ℚ) := by
    rw [f32_val_pos _ hb31 (by omega), s1, s2, hsum]
    push_cast
    field_simp
  rw [Nat.add_assoc, f32_val_neg _ hb31, hv]
  exact ⟨rfl, rfl⟩

theorem f32_val_zero : f32_val 0 = 0 ∧ f32_val (2 ^ 31) = 0 := by
  constructor <;> norm_num [f32_val, f32_sig, f32_scale, f32_exp, f32_man, f32_sign]

/-- The value of a float with exponent field at least 150 is an integer. -/
theorem f32_val_big_int (a : Nat) (he : 150 ≤ f32_exp a) :
    ∃ z : Int, f32_val a = z := by
  have hsc : 150 - f32_scale a = 0 := by
    unfold f32_scale
    split <;> omega
  refine ⟨(if f32_sign a = 1 then -1 else 1) * (f32_sig a * 2 ^ (f32_scale a - 150) : Nat), ?_⟩
  unfold f32_val
  rw [hsc]
  split <;> (push_cast; ring)

/-- The reference `std_ceil` returns, for a finite float, a float whose value is
the least integer not below the value of the argument. -/
theorem std_ceil_value (a : Nat) (h : a < 2 ^ 32) (hfin : f32_is_finite a) :
    f32_val (std_ceil a) = (⌈f32_val a⌉ : ℚ) := by
  have hnan : ¬ f32_is_nan a := by
    unfold f32_is_nan
    unfold f32_is_finite at hfin
    omega
  by_cases he : 150 ≤ f32_exp a
  · obtain ⟨z, hz⟩ := f32_val_big_int a he
    unfold std_ceil
    rw [if_neg hnan, if_pos he, hz, Int.ceil_intCast]
  · have hb : a % 2 ^ 31 < 150 * 2 ^ 23 := by
      unfold f32_exp at he
      omega
    by_cases h0 : a % 2 ^ 31 = 0
    · rw [std_ceil_unchanged a h hnan (Or.inl h0)]
      have ha : a = 0 ∨ a = 2 ^ 31 := by omega
      rcases ha with rfl | rfl
      · rw [f32_val_zero.1]
        simp
      · rw [f32_val_zero.2]
        simp
    · by_cases hs : a < 2 ^ 31
      · by_cases htop : a = 0x4AFFFFFF
        · subst htop
          have h1 := (f32_ceil_val_pos 0x4AFFFFFF (by norm_num) (by decide)).1
          have h3 : f32_ceil_mag 0x4AFFFFFF = 8388608 := by decide
          rw [h3] at h1
          have hc : std_ceil 0x4AFFFFFF = 0x4B000000 := by
            unfold std_ceil
            rw [if_neg (by decide), if_neg (by decide)]
            simp only [h1]
            decide
          rw [hc, h1]
          norm_num [f32_val, f32_sig, f32_scale, f32_exp, f32_man, f32_sign]
        · have h1 : 0 < a := by omega
          have h2 : a ≤ 0x4AFFFFFE := by omega
          have hbd := f32_ceil_mag_bounds a h1 h2
          rw [std_ceil_pos a h1 h2, (f32_val_of_int _ hbd.1 hbd.2).1,
            (f32_ceil_val_pos a hs (f32_exp_le_of_le a h2)).1]
          simp
      · obtain ⟨b, rfl⟩ : ∃ b, a = 2 ^ 31 + b := ⟨a - 2 ^ 31, by omega⟩
        have hb31 : b < 2 ^ 31 := by omega
        by_cases htop : b = 0x4AFFFFFF
        · subst htop
          have h1 := f32_ceil_val_neg 0x4AFFFFFF (by norm_num) (by decide)
          have h3 : f32_trunc_mag 0x4AFFFFFF = 8388607 := by decide
          rw [h3] at h1
          have hc : std_ceil (2 ^ 31 + 0x4AFFFFFF) = 0xCAFFFFFE := by
            unfold std_ceil
            rw [if_neg (by decide), if_neg (by decide)]
            simp only [h1]
            decide
          rw [hc, h1]
          norm_num [f32_val, f32_sig, f32_scale, f32_exp, f32_man, f32_sign]
        · have h1 : 0 < b := by omega
          have h2 : b ≤ 0x4AFFFFFE := by omega
          have hbd := (ceil_int_neg .sse2 b h1 h2).2
          rw [std_ceil_neg b h1 h2, f32_ceil_val_neg b hb31 (f32_exp_le_of_le b h2)]
          by_cases hz : f32_trunc_mag b = 0
          · rw [if_pos hz, hz, f32_val_zero.2]
            simp
          · rw [if_neg hz, (f32_val_of_int _ (by omega) hbd).2]
            simp

/-- Away from the magnitude `8388607.5`, the emulated `ceil` of a finite float
has the value of the least integer not below the argument. -/
theorem ceil_lane_value (t : CeilTier) (a : Nat) (h : a < 2 ^ 32) (hfin : f32_is_finite a)
    (hmag : f32_abs a ≠ 0x4AFFFFFF) :
    f32_val (ceil_lane t a) = (⌈f32_val a⌉ : ℚ) := by
  have hnan : ¬ f32_is_nan a := by
    unfold f32_is_nan
    unfold f32_is_finite at hfin
    omega
  obtain ⟨c1, c2⟩ := ceil_lane_vs_std t a h hnan hmag
  by_cases hf : f32_is_neg_fraction a
  · rw [(c1 hf).1, f32_val_zero.1]
    obtain ⟨v1, v2⟩ := (f32_is_neg_fraction_iff a h).1 hf
    have hc : ⌈f32_val a⌉ = 0 := by
      rw [Int.ceil_eq_iff]
      constructor
      · simpa using v1
      · simpa using le_of_lt v2
    rw [hc]
    simp
  · rw [c2 hf, std_ceil_value a h hfin]

/-! ### `ceil`: the claims -/

/-- C6 at the failing input `8388607.5f` (bit pattern `0x4AFFFFFF`): the lane is
above the constant `8388607.0f`, so the mask keeps it; the emulated path returns
`8388607.5`, which is not an integer, where `std::ceil` returns `8388608.0`
(`0x4B000000`). -/
theorem ceil_emulated_at_8388607_5 (t : CeilTier) :
    ceil_emulated t [0x4AFFFFFF, 0x4AFFFFFF, 0x4AFFFFFF, 0x4AFFFFFF]
      = [0x4AFFFFFF, 0x4AFFFFFF, 0x4AFFFFFF, 0x4AFFFFFF] ∧
    f32_is_finite 0x4AFFFFFF ∧
    f32_val 0x4AFFFFFF = 16777215 / 2 ∧
    (¬ ∃ z : Int, f32_val 0x4AFFFFFF = z) ∧
    ceil_null [0x4AFFFFFF, 0x4AFFFFFF, 0x4AFFFFFF, 0x4AFFFFFF]
      = [0x4B000000, 0x4B000000, 0x4B000000, 0x4B000000] ∧
    f32_val 0x4B000000 = 8388608 := by
  have hv : f32_val 0x4AFFFFFF = 16777215 / 2 := by
    norm_num [f32_val, f32_sig, f32_scale, f32_exp, f32_man, f32_sign]
  have hc : std_ceil 0x4AFFFFFF = 0x4B000000 := by
    have h1 := (f32_ceil_val_pos 0x4AFFFFFF (by norm_num) (by decide)).1
    have h3 : f32_ceil_mag 0x4AFFFFFF = 8388608 := by decide
    rw [h3] at h1
    unfold std_ceil
    rw [if_neg (by decide), if_neg (by decide)]
    simp only [h1]
    decide
  refine ⟨?_, by decide, hv, ?_, ?_, ?_⟩
  · rw [ceil_emulated_lanes t [0x4AFFFFFF, 0x4AFFFFFF, 0x4AFFFFFF, 0x4AFFFFFF] rfl]
    simp only [List.map]
    rw [ceil_lane_masked t 0x4AFFFFFF (Or.inr (by norm_num))]
  · rintro ⟨z, hz⟩
    have h1 := (f32_ceil_val_pos 0x4AFFFFFF (by norm_num) (by decide)).1
    have h2 := (f32_ceil_val_pos 0x4AFFFFFF (by norm_num) (by decide)).2
    rw [hz, Int.ceil_intCast] at h1
    rw [hz, Int.floor_intCast] at h2
    have h3 : f32_ceil_mag 0x4AFFFFFF = 8388608 := by decide
    have h4 : f32_trunc_mag 0x4AFFFFFF = 8388607 := by decide
    omega
  · simp only [ceil_null, List.map, hc]
  · norm_num [f32_val, f32_sig, f32_scale, f32_exp, f32_man, f32_sign]

/-- C7 at the failing input, the NaN `0xFFC00000`: neither comparison of the
mask holds for a NaN, so the lane takes the conversion path and the emulated
path returns `-2147483648.0` (`0xCF000000`) on SSE2 and `+0.0` on NEON, neither
of which is a NaN. -/
theorem ceil_emulated_at_nan :
    f32_is_nan 0xFFC00000 ∧
    f32_cmp_gt (f32_abs 0xFFC00000) f32_8388607 = false ∧
    f32_cmp_eq (f32_abs 0xFFC00000) 0 = false ∧
    ceil_emulated .sse2 [0xFFC00000, 0xFFC00000, 0xFFC00000, 0xFFC00000]
      = [0xCF000000, 0xCF000000, 0xCF000000, 0xCF000000] ∧
    ¬ f32_is_nan 0xCF000000 ∧
    ceil_emulated .neon_flt_sp [0xFFC00000, 0xFFC00000, 0xFFC00000, 0xFFC00000]
      = [0, 0, 0, 0] ∧
    ¬ f32_is_nan 0 := by
  refine ⟨by decide, by decide, by decide, ?_, by decide, ?_, by decide⟩
  · rw [ceil_emulated_lanes .sse2 [0xFFC00000, 0xFFC00000, 0xFFC00000, 0xFFC00000] rfl]
    decide
  · rw [ceil_emulated_lanes .neon_flt_sp [0xFFC00000, 0xFFC00000, 0xFFC00000, 0xFFC00000] rfl]
    decide

/-- C8: the emulated `ceil` is idempotent on vectors of finite floats. -/
theorem ceil_emulated_idempotent (t : CeilTier) (a : List Nat) (ha : wf_float32x4 a)
    (hfin : ∀ x ∈ a, f32_is_finite x) :
    ceil_emulated t (ceil_emulated t a) = ceil_emulated t a := by
  obtain ⟨hlen, hlt⟩ := ha
  rw [ceil_emulated_lanes t a hlen, ceil_emulated_lanes t _ (by simpa using hlen),
    List.map_map]
  apply List.map_congr_left
  intro x hx
  exact ceil_lane_idem t x (hlt x hx) (hfin x hx)

/-- C8 at a concrete input: `1.5`, `-0.5`, `8388607.5` and the least positive
denormal. -/
theorem ceil_emulated_idempotent_witness :
    ceil_emulated .sse2 (ceil_emulated .sse2 [0x3FC00000, 0xBF000000, 0x4AFFFFFF, 0x00000001])
      = ceil_emulated .sse2 [0x3FC00000, 0xBF000000, 0x4AFFFFFF, 0x00000001] :=
  ceil_emulated_idempotent .sse2 [0x3FC00000, 0xBF000000, 0x4AFFFFFF, 0x00000001]
    ⟨rfl, by decide⟩ (by decide)

/-- C9: the emulated `ceil` returns a vector of integral-valued finite floats
unchanged; in particular `ceil(+0.0) = +0.0`. -/
theorem ceil_emulated_integral (t : CeilTier) (a : List Nat) (ha : wf_float32x4 a)
    (hint : ∀ x ∈ a, f32_is_finite x ∧ ∃ z : Int, f32_val x = z) :
    ceil_emulated t a = a ∧ ceil_emulated t float32x4_zero = float32x4_zero := by
  obtain ⟨hlen, hlt⟩ := ha
  constructor
  · rw [ceil_emulated_lanes t a hlen]
    conv_rhs => rw [← List.map_id a]
    apply List.map_congr_left
    intro x hx
    exact ceil_lane_integral t x (hlt x hx) (hint x hx).1 (hint x hx).2
  · rw [ceil_emulated_lanes t float32x4_zero rfl]
    simp only [float32x4_zero, List.replicate, List.map]
    rw [ceil_lane_masked t 0 (Or.inl rfl)]

/-- C9 at a concrete input: `+0.0`, `1.0`, `-3.0` and `8388607.0`. -/
theorem ceil_emulated_integral_witness :
    ceil_emulated .sse2 [0x00000000, 0x3F800000, 0xC0400000, 0x4AFFFFFE]
      = [0x00000000, 0x3F800000, 0xC0400000, 0x4AFFFFFE] ∧
    ceil_emulated .sse2 float32x4_zero = float32x4_zero :=
  ceil_emulated_integral .sse2 [0x00000000, 0x3F800000, 0xC0400000, 0x4AFFFFFE]
    ⟨rfl, by decide⟩
    (by
      intro x hx
      simp only [List.mem_cons, List.mem_singleton, List.not_mem_nil, or_false] at hx
      rcases hx with rfl | rfl | rfl | rfl
      · exact ⟨by decide, 0, by
          norm_num [f32_val, f32_sig, f32_scale, f32_exp, f32_man, f32_sign]⟩
      · exact ⟨by decide, 1, by
          norm_num [f32_val, f32_sig, f32_scale, f32_exp, f32_man, f32_sign]⟩
      · exact ⟨by decide, -3, by
          norm_num [f32_val, f32_sig, f32_scale, f32_exp, f32_man, f32_sign]⟩
      · exact ⟨by decide, 8388607, by
          norm_num [f32_val, f32_sig, f32_scale, f32_exp, f32_man, f32_sign]⟩)

/-- C10, evaluated at `-0.5` (`0xBF000000`) on the SSE2 tier: the emulated path
returns `+0.0` (`0x00000000`), the scalar reference path `std::ceil` returns
`-0.0` (`0x80000000`), so the two paths do not return the same bit pattern. -/
theorem ceil_emulated_differs_from_null :
    ceil_emulated .sse2 [0xBF000000, 0xBF000000, 0xBF000000, 0xBF000000] = [0, 0, 0, 0] ∧
    ceil_null [0xBF000000, 0xBF000000, 0xBF000000, 0xBF000000]
      = [0x80000000, 0x80000000, 0x80000000, 0x80000000] ∧
    ceil_emulated .sse2 [0xBF000000, 0xBF000000, 0xBF000000, 0xBF000000]
      ≠ ceil_null [0xBF000000, 0xBF000000, 0xBF000000, 0xBF000000] := by
  have h1 : ceil_emulated .sse2 [0xBF000000, 0xBF000000, 0xBF000000, 0xBF000000]
      = [0, 0, 0, 0] := by
    rw [ceil_emulated_lanes .sse2 [0xBF000000, 0xBF000000, 0xBF000000, 0xBF000000] rfl]
    decide
  have hs : std_ceil 0xBF000000 = 0x80000000 := by
    norm_num [std_ceil, f32_is_nan, f32_val, f32_sig, f32_scale, f32_exp, f32_man, f32_sign]
  have h2 : ceil_null [0xBF000000, 0xBF000000, 0xBF000000, 0xBF000000]
      = [0x80000000, 0x80000000, 0x80000000, 0x80000000] := by
    simp only [ceil_null, List.map, hs]
  refine ⟨h1, h2, ?_⟩
  rw [h1, h2]
  decide

/-- Where the SSE2 emulated path and `std::ceil` part: for a vector whose lanes
are neither a NaN nor of magnitude `8388607.5`, the two return the same bit
pattern in every lane that is not strictly between -1 and 0; in a lane
strictly between -1 and 0 the emulated path gives `0x00000000` and `std::ceil`
gives `0x80000000`. -/
theorem ceil_sse2_vs_std (a : List Nat) (ha : wf_float32x4 a)
    (h : ∀ x ∈ a, ¬ f32_is_nan x ∧ f32_abs x ≠ 0x4AFFFFFF) :
    ceil_emulated .sse2 a =
      a.map (fun x => if f32_is_neg_fraction x then 0 else std_ceil x) ∧
    ∀ x ∈ a, f32_is_neg_fraction x → std_ceil x = 0x80000000 := by
  obtain ⟨hlen, hlt⟩ := ha
  constructor
  · rw [ceil_emulated_lanes .sse2 a hlen]
    apply List.map_congr_left
    intro x hx
    have hx2 := ceil_lane_vs_std .sse2 x (hlt x hx) (h x hx).1 (h x hx).2
    by_cases hf : f32_is_neg_fraction x
    · simp only [if_pos hf]
      exact (hx2.1 hf).1
    · simp only [if_neg hf]
      exact hx2.2 hf
  · intro x hx hf
    exact ((ceil_lane_vs_std .sse2 x (hlt x hx) (h x hx).1 (h x hx).2).1 hf).2

/-! ### Reciprocal square root refinement -/

theorem list_length_4 {α : Type} (v : List α) (h : v.length = 4) :
    ∃ p q r s, v = [p, q, r, s] := by
  cases v with
  | nil => simp at h
  | cons p t =>
    have ht : t.length = 3 := by simpa using h
    obtain ⟨q, r, s, rfl⟩ := List.length_eq_three.1 ht
    exact ⟨p, q, r, s, rfl⟩

/-- One lane of each tier kernel of the refinement, in exact arithmetic. -/
theorem rsqrt_rh_lane_forms {K : Type} [Field K] [CharZero K] (x a : K) :
    rsqrt_rh_scalar x a = x * (3 - a * x * x) * 0.5 ∧
    (x * 0.5) * (3.0 - a * (x * x)) = x * (3 - a * x * x) * 0.5 ∧
    x * ((3 - a * (x * x)) / 2) = x * (3 - a * x * x) * 0.5 ∧
    (x * 0.5) * (-(a * (x * x) - 3.0)) = x * (3 - a * x * x) * 0.5 := by
  unfold rsqrt_rh_scalar
  refine ⟨?_, ?_, ?_, ?_⟩ <;> norm_num <;> ring

/-- The generic kernel on vectors of any width, lane by lane. -/
theorem v_rsqrt_rh_lanes {K : Type} [Field K] [CharZero K] (x a : List K) :
    v_rsqrt_rh x a = List.zipWith (fun x a => x * (3 - a * x * x) * 0.5) x a := by
  induction x generalizing a with
  | nil => simp [v_rsqrt_rh, f_mul, f_mul_scalar, f_sub_scalar]
  | cons x0 xs ih =>
    cases a with
    | nil => simp [v_rsqrt_rh, f_mul, f_mul_scalar, f_sub_scalar]
    | cons a0 as =>
      have h := ih as
      simp only [v_rsqrt_rh, f_mul, f_mul_scalar, f_sub_scalar, List.zipWith_cons_cons,
        List.map_cons] at h ⊢
      rw [h, (rsqrt_rh_lane_forms x0 a0).2.1]

/-- C11: in exact arithmetic (any field of characteristic zero, the reals in
particular), every tier kernel of the reciprocal square root refinement on a
`float32x4` returns in each lane `x * (3 - a*x*x) * 0.5`: the scalar lambda, the
generic `v_rsqrt_rh` (on vectors of any width), the NEON kernel and the AltiVec
kernel. -/
theorem i_rsqrt_rh_exact {K : Type} [Field K] [CharZero K] (arch : RsqrtArch)
    (x a y b : List K) (hx : x.length = 4) (ha : a.length = 4) :
    i_rsqrt_rh arch x a = List.zipWith (fun x a => x * (3 - a * x * x) * 0.5) x a ∧
    v_rsqrt_rh y b = List.zipWith (fun x a => x * (3 - a * x * x) * 0.5) y b ∧
    ∀ p q : K, rsqrt_rh_scalar p q = p * (3 - q * p * p) * 0.5 := by
  refine ⟨?_, v_rsqrt_rh_lanes y b, fun p q => (rsqrt_rh_lane_forms p q).1⟩
  obtain ⟨x0, x1, x2, x3, rfl⟩ := list_length_4 x hx
  obtain ⟨a0, a1, a2, a3, rfl⟩ := list_length_4 a ha
  have h0 := rsqrt_rh_lane_forms x0 a0
  have h1 := rsqrt_rh_lane_forms x1 a1
  have h2 := rsqrt_rh_lane_forms x2 a2
  have h3 := rsqrt_rh_lane_forms x3 a3
  cases arch
  · simp only [i_rsqrt_rh, null_foreach2, List.zipWith_cons_cons, List.zipWith_nil_left,
      h0.1, h1.1, h2.1, h3.1]
  · simp only [i_rsqrt_rh, v_rsqrt_rh, f_mul, f_mul_scalar, f_sub_scalar,
      List.zipWith_cons_cons, List.zipWith_nil_left, List.map_cons, List.map_nil,
      h0.2.1, h1.2.1, h2.2.1, h3.2.1]
  · simp only [i_rsqrt_rh, i_rsqrt_rh_neon, vrsqrtsq_f32, f_mul,
      List.zipWith_cons_cons, List.zipWith_nil_left,
      h0.2.2.1, h1.2.2.1, h2.2.2.1, h3.2.2.1]
  · simp only [i_rsqrt_rh, i_rsqrt_rh_altivec, vec_nmsub, make_float, f_mul, f_mul_scalar,
      List.replicate, List.zipWith_cons_cons, List.zipWith_nil_left, List.map_cons,
      List.map_nil, h0.2.2.2, h1.2.2.2, h2.2.2.2, h3.2.2.2]

/-- C11 at a concrete input: rational lanes, the AltiVec kernel. -/
theorem i_rsqrt_rh_exact_witness :
    i_rsqrt_rh .altivec [(1 : ℚ), 2, 3, 1 / 2] [1, 1 / 4, 1 / 9, 5]
      = List.zipWith (fun x a => x * (3 - a * x * x) * 0.5) [(1 : ℚ), 2, 3, 1 / 2]
          [1, 1 / 4, 1 / 9, 5] ∧
    v_rsqrt_rh [(2 : ℚ), 1] [1 / 4, 1]
      = List.zipWith (fun x a => x * (3 - a * x * x) * 0.5) [(2 : ℚ), 1] [1 / 4, 1] ∧
    ∀ p q : ℚ, rsqrt_rh_scalar p q = p * (3 - q * p * p) * 0.5 :=
  i_rsqrt_rh_exact .altivec [(1 : ℚ), 2, 3, 1 / 2] [1, 1 / 4, 1 / 9, 5] [2, 1] [1 / 4, 1]
    rfl rfl

/-- The error identity of one refinement step: with `s * s = a` and
`e = x * s - 1`, the refined value has `x' * s - 1 = -(e^2 * (3 + e)) / 2`. -/
theorem rsqrt_rh_error (x a s : ℝ) (hs : s * s = a) :
    rsqrt_rh_scalar x a * s - 1 = -((x * s - 1) ^ 2 * (3 + (x * s - 1))) / 2 := by
  unfold rsqrt_rh_scalar
  rw [← hs]
  norm_num
  ring

/-- C12 fails as stated: with `a = 1`, `k = 1` and the estimate `x = 3/2`
(relative error `2^-1`), the refined value is `9/16`, whose relative error
`7/16` exceeds `2^-2`. -/
theorem rsqrt_rh_not_doubling :
    (0 : ℝ) < 1 ∧ |(3 / 2 : ℝ) * Real.sqrt 1 - 1| ≤ 2 ^ (-(1 : ℤ)) ∧
    rsqrt_rh_scalar (3 / 2 : ℝ) 1 = 9 / 16 ∧
    ¬ |rsqrt_rh_scalar (3 / 2 : ℝ) 1 * Real.sqrt 1 - 1| ≤ 2 ^ (-(2 * 1 : ℤ)) := by
  have h : rsqrt_rh_scalar (3 / 2 : ℝ) 1 = 9 / 16 := by
    unfold rsqrt_rh_scalar
    norm_num
  refine ⟨by norm_num, ?_, h, ?_⟩
  · rw [Real.sqrt_one]
    norm_num [abs_of_nonneg]
  · rw [h, Real.sqrt_one]
    norm_num [abs_of_neg]

/-- C12, amended: for every real `a > 0`, every `k >= 1` and every estimate `x`
with `|x * sqrt a - 1| <= 2^-k`, the refined value
`x' = x * (3 - a*x*x) * 0.5` has
`|x' * sqrt a - 1| <= (3 + 2^-k) / 2 * 2^-(2k) <= 2^-(2k - 1)`: one step gives
at least `2k - 1` correct bits. -/
theorem rsqrt_rh_error_bound (a x : ℝ) (k : ℕ) (ha : 0 < a) (hk : 1 ≤ k)
    (hx : |x * Real.sqrt a - 1| ≤ 2 ^ (-(k : ℤ))) :
    |rsqrt_rh_scalar x a * Real.sqrt a - 1|
      ≤ (3 + 2 ^ (-(k : ℤ))) / 2 * 2 ^ (-(2 * k : ℤ)) ∧
    |rsqrt_rh_scalar x a * Real.sqrt a - 1| ≤ 2 ^ (-(2 * k - 1 : ℤ)) := by
  have hs : Real.sqrt a * Real.sqrt a = a := Real.mul_self_sqrt (le_of_lt ha)
  rw [rsqrt_rh_error x a (Real.sqrt a) hs]
  generalize x * Real.sqrt a - 1 = e at hx
  have hd : (2 : ℝ) ^ (-(k : ℤ)) = (1 / 2) ^ k := by
    rw [zpow_neg, zpow_natCast, one_div, inv_pow]
  have hd2 : (2 : ℝ) ^ (-(2 * k : ℤ)) = ((1 / 2) ^ k) ^ 2 := by
    rw [zpow_neg, ← pow_mul, mul_comm k 2, one_div, inv_pow]
    norm_cast
  have hd3 : (2 : ℝ) ^ (-(2 * k - 1 : ℤ)) = 2 * ((1 / 2) ^ k) ^ 2 := by
    have : (-(2 * (k : ℤ) - 1)) = 1 + -(2 * k : ℤ) := by ring
    rw [this, zpow_add₀ (by norm_num), hd2]
    norm_num
  rw [hd] at hx
  rw [hd, hd2, hd3]
  have hd0 : (0 : ℝ) < (1 / 2) ^ k := by positivity
  have hd1 : ((1 / 2 : ℝ)) ^ k ≤ 1 / 2 := by
    calc ((1 / 2 : ℝ)) ^ k ≤ (1 / 2) ^ 1 :=
          pow_le_pow_of_le_one (by norm_num) (by norm_num) hk
      _ = 1 / 2 := by norm_num
  generalize ((1 / 2 : ℝ)) ^ k = d at hx hd0 hd1
  obtain ⟨hlo, hhi⟩ := abs_le.1 hx
  have he2 : e ^ 2 ≤ d ^ 2 := by nlinarith
  have h3 : 0 ≤ 3 + e := by linarith
  have hval : |-(e ^ 2 * (3 + e)) / 2| = e ^ 2 * (3 + e) / 2 := by
    rw [neg_div, abs_neg, abs_of_nonneg]
    positivity
  rw [hval]
  have hmain : e ^ 2 * (3 + e) / 2 ≤ (3 + d) / 2 * d ^ 2 := by
    have : e ^ 2 * (3 + e) ≤ d ^ 2 * (3 + d) := by
      apply mul_le_mul he2 (by linarith) h3 (by positivity)
    linarith
  constructor
  · exact hmain
  · have : (3 + d) / 2 * d ^ 2 ≤ 2 * d ^ 2 := by
      have hdd : 0 ≤ d ^ 2 := by positivity
      nlinarith
    linarith

/-- C12, amended, at a concrete input: `a = 1`, `k = 1`, `x = 3/2`. -/
theorem rsqrt_rh_error_bound_witness :
    |rsqrt_rh_scalar (3 / 2 : ℝ) 1 * Real.sqrt 1 - 1|
      ≤ (3 + 2 ^ (-((1 : ℕ) : ℤ))) / 2 * 2 ^ (-(2 * (1 : ℕ) : ℤ)) ∧
    |rsqrt_rh_scalar (3 / 2 : ℝ) 1 * Real.sqrt 1 - 1| ≤ 2 ^ (-(2 * (1 : ℕ) - 1 : ℤ)) :=
  rsqrt_rh_error_bound 1 (3 / 2) 1 (by norm_num) (le_refl 1)
    (by rw [Real.sqrt_one]; norm_num [abs_of_nonneg])

/-! ### `align`: element windows, halves, acceptance -/

/-- The scalar tier kernel returns the 16-byte window at offset `s`. -/
theorem align_null_kernel_eq (r0 lower upper : List Nat) (s : Nat)
    (hl : lower.length = 16) (hu : upper.length = 16) (hr : r0.length = 16)
    (hs0 : 0 < s) (hs : s < 16) :
    align_null_kernel r0 s lower upper = ((lower ++ upper).drop s).take 16 := by
  have e1 := align_null_loop1_spec s lower { r := r0, writes := [] } (16 - s)
  have e2 := align_null_loop2_spec s upper
    (align_null_loop1 s lower { r := r0, writes := [] } (16 - s)) (16 - (16 - s))
  obtain ⟨a1, _, a3⟩ := e1
  obtain ⟨b1, _, b3⟩ := e2
  have hlen : (align_null_kernel r0 s lower upper).length = 16 := by
    show (align_null_loop2 _ _ _ _).r.length = 16
    rw [b1, a1]; exact hr
  apply List.ext_getElem?
  intro i
  by_cases hi : i < 16
  · have hget : (align_null_kernel r0 s lower upper).get? i = (lower ++ upper).get? (i + s) := by
      show (align_null_loop2 _ _ _ _).r.get? i = _
      rw [b3 i (by rw [a1]; simpa [hr] using hi)]
      by_cases h : i < 16 - s
      · have h4 : ¬ (16 - s ≤ i ∧ i < 16 - s + (16 - (16 - s))) := by omega
        rw [if_neg h4, a3 i (by simpa [hr] using hi), if_pos h]
        simp only [List.get?_eq_getElem?]
        rw [List.getElem?_append_left (by omega), List.getD_eq_getElem?_getD,
          List.getElem?_eq_getElem (by omega)]
        simp
      · have h4 : 16 - s ≤ i ∧ i < 16 - s + (16 - (16 - s)) := by omega
        rw [if_pos h4]
        have h5 : ((i + 2 ^ 32 - 16) % 2 ^ 32 + s) % 2 ^ 32 = i + s - 16 := by
          norm_num
          omega
        rw [h5]
        simp only [List.get?_eq_getElem?]
        rw [List.getElem?_append_right (by omega), List.getD_eq_getElem?_getD,
          List.getElem?_eq_getElem (by omega), hl]
        simp
    simp only [List.get?_eq_getElem?] at hget
    rw [hget, List.getElem?_take_of_lt hi, List.getElem?_drop, Nat.add_comm]
  · rw [List.getElem?_eq_none (by omega), List.getElem?_eq_none]
    simp only [List.length_take, List.length_drop, List.length_append, hl, hu]
    omega

theorem align_null_is_window (r0 : List Nat) (hr : r0.length = 16) :
    is_window_kernel (align_null_kernel r0) := by
  intro s lower upper hs0 hs hl hu
  exact align_null_kernel_eq r0 lower upper s hl hu hr hs0 hs

theorem align_ssse3_is_window : is_window_kernel align_ssse3_kernel := by
  intro s lower upper hs0 hs hl hu
  unfold align_ssse3_kernel mm_alignr_epi8
  rw [List.drop_append_of_le_length (by simp [hl, hu]; omega),
    List.take_append_of_le_length (by simp [hl, hu]; omega)]

/-- The byte `align` returns the 16-byte window at every accepted offset. -/
theorem align_int8x16_window (kernel : Nat → List Nat → List Nat → List Nat)
    (hk : is_window_kernel kernel) (s : Nat) (lower upper : List Nat)
    (hl : lower.length = 16) (hu : upper.length = 16) (hs : s ≤ 16) :
    align_int8x16 kernel s lower upper = some (((lower ++ upper).drop s).take 16) := by
  unfold align_int8x16
  rw [if_neg (by omega)]
  by_cases h0 : s = 0
  · subst h0
    rw [if_pos rfl, List.drop_zero, List.take_append_of_le_length (by omega),
      List.take_of_length_le (by omega)]
  · rw [if_neg h0]
    by_cases h16 : s = 16
    · subst h16
      rw [if_pos rfl, List.drop_append_of_le_length (by omega),
        List.drop_of_length_le (by omega), List.nil_append,
        List.take_of_length_le (by omega)]
    · rw [if_neg h16, hk s lower upper (by omega) (by omega) hl hu]

theorem to_bytes_append (b : Nat) (l u : List Nat) :
    to_bytes b (l ++ u) = to_bytes b l ++ to_bytes b u := by
  induction l with
  | nil => rfl
  | cons x l ih => simp [to_bytes, ih]

theorem to_bytes_length (b : Nat) (v : List Nat) : (to_bytes b v).length = v.length * b := by
  induction v with
  | nil => simp [to_bytes]
  | cons x v ih =>
    simp only [to_bytes, List.length_append, le_split_length, ih, List.length_cons]
    ring

theorem to_bytes_drop (b s : Nat) (v : List Nat) :
    (to_bytes b v).drop (s * b) = to_bytes b (v.drop s) := by
  induction s generalizing v with
  | zero => simp
  | succ s ih =>
    cases v with
    | nil => simp [to_bytes]
    | cons x v =>
      have e : (s + 1) * b = (le_split b x).length + s * b := by
        rw [le_split_length]; ring
      simp only [to_bytes, List.drop_succ_cons]
      rw [e, List.drop_append, ih]

theorem to_bytes_take (b n : Nat) (v : List Nat) :
    (to_bytes b v).take (n * b) = to_bytes b (v.take n) := by
  induction n generalizing v with
  | zero => simp [to_bytes]
  | succ n ih =>
    cases v with
    | nil => simp [to_bytes]
    | cons x v =>
      have e : (n + 1) * b = (le_split b x).length + n * b := by
        rw [le_split_length]; ring
      simp only [to_bytes, List.take_succ_cons]
      rw [e, List.take_append, ih]

/-- The element window read through the byte casts: the byte window at offset
`s * b` of the bytes of `lower` then `upper`, cast back to `W` elements, is the
element window at offset `s`. -/
theorem from_bytes_window (b W s : Nat) (lower upper : List Nat)
    (hl : wf_elems b W lower) (hu : wf_elems b W upper) (hs : s ≤ W) :
    from_bytes b W (((to_bytes b lower ++ to_bytes b upper).drop (s * b)).take (W * b))
      = ((lower ++ upper).drop s).take W := by
  rw [← to_bytes_append, to_bytes_drop, to_bytes_take]
  apply from_to_bytes
  constructor
  · simp only [List.length_take, List.length_drop, List.length_append, hl.1, hu.1]
    omega
  · intro x hx
    have hx2 : x ∈ lower ++ upper := List.mem_of_mem_drop (List.mem_of_mem_take hx)
    rcases List.mem_append.1 hx2 with h | h
    · exact hl.2 x h
    · exact hu.2 x h

theorem align_wide_window (b W s : Nat) (kernel : Nat → List Nat → List Nat → List Nat)
    (hk : is_window_kernel kernel) (lower upper : List Nat) (hW : W * b = 16)
    (hl : wf_elems b W lower) (hu : wf_elems b W upper) (hs : s ≤ W) :
    (align_int8x16 kernel (s * b) (to_bytes b lower) (to_bytes b upper)).map (from_bytes b W)
      = some (((lower ++ upper).drop s).take W) := by
  have h1 : (to_bytes b lower).length = 16 := by rw [to_bytes_length, hl.1, hW]
  have h2 : (to_bytes b upper).length = 16 := by rw [to_bytes_length, hu.1, hW]
  have h3 : s * b ≤ 16 := by
    rw [← hW]
    exact Nat.mul_le_mul_right b hs
  rw [align_int8x16_window kernel hk (s * b) _ _ h1 h2 h3, Option.map_some', ← hW,
    from_bytes_window b W s lower upper hl hu hs]

/-- C13: for every element type (element size `b`, `W = 16 / b` elements per
128-bit vector) and every shift `s <= W`, `align<s>(lower, upper)` on element
vectors returns the element window `r[i] = c[i + s]`, `c` being `lower` followed
by `upper`, on every tier whose byte kernel returns the byte window; float lanes
are bit patterns and are moved as they are. -/
theorem align_element_window (T : AlignElem) (kernel : Nat → List Nat → List Nat → List Nat)
    (hk : is_window_kernel kernel) (s : Nat) (lower upper : List Nat)
    (hl : wf_elems T.size T.base_width lower) (hu : wf_elems T.size T.base_width upper)
    (hs : s ≤ T.base_width) :
    ∃ r, align128 T kernel s lower upper = some r ∧
      r = ((lower ++ upper).drop s).take T.base_width ∧
      r.length = T.base_width ∧
      ∀ i, i < T.base_width → r.get? i = (lower ++ upper).get? (i + s) := by
  refine ⟨((lower ++ upper).drop s).take T.base_width, ?_, rfl, ?_, ?_⟩
  · cases T
    · have hs2 : s ≤ 16 := hs
      simp only [align128]
      exact align_int8x16_window kernel hk s lower upper hl.1 hu.1 hs2
    · have hs2 : s ≤ 8 := hs
      simp only [align128, align_int16x8]
      rw [if_neg (by omega)]
      exact align_wide_window 2 8 s kernel hk lower upper rfl hl hu hs2
    · have hs2 : s ≤ 4 := hs
      simp only [align128, align_int32x4]
      rw [if_neg (by omega)]
      exact align_wide_window 4 4 s kernel hk lower upper rfl hl hu hs2
    · have hs2 : s ≤ 2 := hs
      simp only [align128, align_int64x2]
      rw [if_neg (by omega)]
      exact align_wide_window 8 2 s kernel hk lower upper rfl hl hu hs2
    · have hs2 : s ≤ 4 := hs
      simp only [align128, align_float32x4, align_int32x4]
      rw [if_neg (by omega), if_neg (by omega)]
      exact align_wide_window 4 4 s kernel hk lower upper rfl hl hu hs2
    · have hs2 : s ≤ 2 := hs
      simp only [align128, align_float64x2, align_int64x2]
      rw [if_neg (by omega), if_neg (by omega)]
      exact align_wide_window 8 2 s kernel hk lower upper rfl hl hu hs2
  · simp only [List.length_take, List.length_drop, List.length_append, hl.1, hu.1]
    omega
  · intro i hi
    simp only [List.get?_eq_getElem?]
    rw [List.getElem?_take_of_lt hi, List.getElem?_drop, Nat.add_comm]

/-- C13 at a concrete input: 32-bit lanes, shift 1, the scalar tier. -/
theorem align_element_window_witness :
    ∃ r, align128 .int32 align_null_kernel_zero 1 [1, 2, 3, 70000] [5, 6, 7, 8] = some r ∧
      r = (([1, 2, 3, 70000] ++ [5, 6, 7, 8]).drop 1).take AlignElem.int32.base_width ∧
      r.length = AlignElem.int32.base_width ∧
      ∀ i, i < AlignElem.int32.base_width →
        r.get? i = ([1, 2, 3, 70000] ++ [5, 6, 7, 8]).get? (i + 1) :=
  align_element_window .int32 align_null_kernel_zero
    (align_null_is_window (List.replicate 16 0) rfl) 1 [1, 2, 3, 70000] [5, 6, 7, 8]
    (by refine ⟨rfl, ?_⟩; decide) (by refine ⟨rfl, ?_⟩; decide) (by decide)

/-- The 256-bit byte `align` is the 128-bit `align` of the low halves followed
by the 128-bit `align` of the high halves. -/
theorem align_int8x32_eq (avx2 : Option (Nat → List Nat → List Nat → List Nat))
    (kernel : Nat → List Nat → List Nat → List Nat) (htier : is_align_tier avx2 kernel)
    (s : Nat) (lower upper : List Nat) (hs : s ≤ 16) :
    ∃ lo hi, align_int8x16 kernel s (lower.take 16) (upper.take 16) = some lo ∧
      align_int8x16 kernel s (lower.drop 16) (upper.drop 16) = some hi ∧
      align_int8x32 avx2 kernel s lower upper = some (lo ++ hi) := by
  have c : ¬ ¬ s ≤ 16 := by omega
  unfold align_int8x32 align_int8x16
  simp only [if_neg c]
  by_cases h0 : s = 0
  · simp only [if_pos h0]
    exact ⟨_, _, rfl, rfl, by rw [List.take_append_drop]⟩
  · simp only [if_neg h0]
    by_cases h16 : s = 16
    · simp only [if_pos h16]
      exact ⟨_, _, rfl, rfl, by rw [List.take_append_drop]⟩
    · simp only [if_neg h16]
      rcases htier with h | ⟨h, hk⟩
      · subst h
        exact ⟨_, _, rfl, rfl, rfl⟩
      · subst h
        subst hk
        exact ⟨_, _, rfl, rfl, rfl⟩

theorem align_int8x16_length (kernel : Nat → List Nat → List Nat → List Nat)
    (hty : ∀ sh l u, 0 < sh → sh < 16 → l.length = 16 → u.length = 16 →
      (kernel sh l u).length = 16)
    (s : Nat) (l u r : List Nat) (hl : l.length = 16) (hu : u.length = 16)
    (h : align_int8x16 kernel s l u = some r) : r.length = 16 := by
  unfold align_int8x16 at h
  split at h
  · simp at h
  · split at h
    · simp at h; rw [← h]; exact hl
    · split at h
      · simp at h; rw [← h]; exact hu
      · simp at h; rw [← h]; exact hty s l u (by omega) (by omega) hl hu

theorem window_kernel_length (kernel : Nat → List Nat → List Nat → List Nat)
    (hk : is_window_kernel kernel) (sh : Nat) (l u : List Nat) (h0 : 0 < sh) (h1 : sh < 16)
    (hl : l.length = 16) (hu : u.length = 16) : (kernel sh l u).length = 16 := by
  rw [hk sh l u h0 h1 hl hu]
  simp only [List.length_take, List.length_drop, List.length_append, hl, hu]
  omega

/-- C14: for 32-byte vectors and `s <= 16`, `align<s>(lower, upper)` is
`align<s>(lower[0], upper[0])` followed by `align<s>(lower[1], upper[1])`, with
and without AVX2; the low half of the result is the same for all operands with
the same low halves, and the high half for all operands with the same high
halves. -/
theorem align_int8x32_halves (avx2 : Option (Nat → List Nat → List Nat → List Nat))
    (kernel : Nat → List Nat → List Nat → List Nat) (htier : is_align_tier avx2 kernel)
    (hty : ∀ sh l u, 0 < sh → sh < 16 → l.length = 16 → u.length = 16 →
      (kernel sh l u).length = 16)
    (s : Nat) (lower upper : List Nat) (hl : lower.length = 32) (hu : upper.length = 32)
    (hs : s ≤ 16) :
    ∃ lo hi, align_int8x16 kernel s (lower.take 16) (upper.take 16) = some lo ∧
      align_int8x16 kernel s (lower.drop 16) (upper.drop 16) = some hi ∧
      align_int8x32 avx2 kernel s lower upper = some (lo ++ hi) ∧
      lo.length = 16 ∧ hi.length = 16 ∧
      (∀ lower2 upper2 : List Nat, lower2.length = 32 → upper2.length = 32 →
        lower2.take 16 = lower.take 16 → upper2.take 16 = upper.take 16 →
        ∃ r2, align_int8x32 avx2 kernel s lower2 upper2 = some r2 ∧ r2.take 16 = lo) ∧
      (∀ lower2 upper2 : List Nat, lower2.length = 32 → upper2.length = 32 →
        lower2.drop 16 = lower.drop 16 → upper2.drop 16 = upper.drop 16 →
        ∃ r2, align_int8x32 avx2 kernel s lower2 upper2 = some r2 ∧ r2.drop 16 = hi) := by
  obtain ⟨lo, hi, e1, e2, e3⟩ := align_int8x32_eq avx2 kernel htier s lower upper hs
  have hlo : lo.length = 16 :=
    align_int8x16_length kernel hty s _ _ lo (by simp [hl]) (by simp [hu]) e1
  have hhi : hi.length = 16 :=
    align_int8x16_length kernel hty s _ _ hi (by simp [hl]) (by simp [hu]) e2
  refine ⟨lo, hi, e1, e2, e3, hlo, hhi, ?_, ?_⟩
  · intro lower2 upper2 hl2 hu2 h1 h2
    obtain ⟨lo2, hi2, f1, f2, f3⟩ := align_int8x32_eq avx2 kernel htier s lower2 upper2 hs
    rw [h1, h2, e1] at f1
    have hlo2 : lo2 = lo := (Option.some.inj f1).symm
    subst hlo2
    exact ⟨_, f3, by rw [List.take_left' hlo]⟩
  · intro lower2 upper2 hl2 hu2 h1 h2
    obtain ⟨lo2, hi2, f1, f2, f3⟩ := align_int8x32_eq avx2 kernel htier s lower2 upper2 hs
    rw [h1, h2, e2] at f2
    have hhi2 : hi2 = hi := (Option.some.inj f2).symm
    subst hhi2
    have hlo2 : lo2.length = 16 :=
      align_int8x16_length kernel hty s _ _ lo2 (by simp [hl2]) (by simp [hu2]) f1
    exact ⟨_, f3, by rw [List.drop_left' hlo2]⟩

/-- C14 at a concrete input: shift 3 of the bytes `0..31` and `32..63` on the
AVX2 tier. -/
theorem align_int8x32_halves_witness :
    ∃ lo hi, align_int8x16 align_ssse3_kernel 3 (align_example_lower.take 16)
        (align_example_upper.take 16) = some lo ∧
      align_int8x16 align_ssse3_kernel 3 (align_example_lower.drop 16)
        (align_example_upper.drop 16) = some hi ∧
      align_int8x32 (some align_avx2_kernel) align_ssse3_kernel 3 align_example_lower
        align_example_upper = some (lo ++ hi) ∧
      lo.length = 16 ∧ hi.length = 16 ∧
      (∀ lower2 upper2 : List Nat, lower2.length = 32 → upper2.length = 32 →
        lower2.take 16 = align_example_lower.take 16 →
        upper2.take 16 = align_example_upper.take 16 →
        ∃ r2, align_int8x32 (some align_avx2_kernel) align_ssse3_kernel 3 lower2 upper2
          = some r2 ∧ r2.take 16 = lo) ∧
      (∀ lower2 upper2 : List Nat, lower2.length = 32 → upper2.length = 32 →
        lower2.drop 16 = align_example_lower.drop 16 →
        upper2.drop 16 = align_example_upper.drop 16 →
        ∃ r2, align_int8x32 (some align_avx2_kernel) align_ssse3_kernel 3 lower2 upper2
          = some r2 ∧ r2.drop 16 = hi) :=
  align_int8x32_halves (some align_avx2_kernel) align_ssse3_kernel (Or.inr ⟨rfl, rfl⟩)
    (window_kernel_length align_ssse3_kernel align_ssse3_is_window) 3
    align_example_lower align_example_upper (by decide) (by decide) (by decide)

/-- C15: the 256-bit `align` is not a slide across the whole vector: for every
`0 < s < 16` there are 32-byte vectors (the bytes `0..31` and `32..63`) for which
`align<s>(lower, upper)` differs from the 32-byte window at offset `s` of the 64
bytes of `lower` followed by `upper`; with and without AVX2, on every tier whose
128-bit kernel returns the byte window. -/
theorem align_int8x32_not_slide (avx2 : Option (Nat → List Nat → List Nat → List Nat))
    (kernel : Nat → List Nat → List Nat → List Nat) (htier : is_align_tier avx2 kernel)
    (hk : is_window_kernel kernel) (s : Nat) (hs0 : 0 < s) (hs : s < 16) :
    ∃ lower upper r, lower.length = 32 ∧ upper.length = 32 ∧
      align_int8x32 avx2 kernel s lower upper = some r ∧
      r ≠ ((lower ++ upper).drop s).take 32 := by
  obtain ⟨lo, hi, e1, _, e3⟩ :=
    align_int8x32_eq avx2 kernel htier s align_example_lower align_example_upper (by omega)
  rw [align_int8x16_window kernel hk s _ _ (by decide) (by decide) (by omega)] at e1
  have hlo : lo = ((align_example_lower.take 16 ++ align_example_upper.take 16).drop s).take 16 :=
    (Option.some.inj e1).symm
  have hlen : lo.length = 16 := by
    rw [hlo]
    simp only [List.length_take, List.length_drop, List.length_append]
    have h1 : align_example_lower.length = 32 := by decide
    have h2 : align_example_upper.length = 32 := by decide
    omega
  refine ⟨align_example_lower, align_example_upper, lo ++ hi, by decide, by decide, e3, ?_⟩
  intro heq
  have h := congrArg (List.take 16) heq
  rw [List.take_left' hlen, hlo] at h
  revert h
  interval_cases s <;> decide

/-- C15 at a concrete shift: shift 5 on the scalar tier without AVX2. -/
theorem align_int8x32_not_slide_witness :
    ∃ lower upper r, lower.length = 32 ∧ upper.length = 32 ∧
      align_int8x32 none align_null_kernel_zero 5 lower upper = some r ∧
      r ≠ ((lower ++ upper).drop 5).take 32 :=
  align_int8x32_not_slide none align_null_kernel_zero (Or.inl rfl)
    (align_null_is_window (List.replicate 16 0) rfl) 5 (by decide) (by decide)

theorem align_int8x16_isSome (kernel : Nat → List Nat → List Nat → List Nat) (s : Nat)
    (l u : List Nat) : (align_int8x16 kernel s l u).isSome = true ↔ s ≤ 16 := by
  unfold align_int8x16
  by_cases h : s ≤ 16
  · have c : ¬ ¬ s ≤ 16 := by omega
    rw [if_neg c]
    split
    · simp [h]
    · split <;> simp [h]
  · rw [if_pos h]
    simp [h]

theorem align_int8x32_isSome (avx2 : Option (Nat → List Nat → List Nat → List Nat))
    (kernel : Nat → List Nat → List Nat → List Nat) (s : Nat)
    (l u : List Nat) : (align_int8x32 avx2 kernel s l u).isSome = true ↔ s ≤ 16 := by
  by_cases h : s ≤ 16
  · have c : ¬ ¬ s ≤ 16 := by omega
    have h1 := (align_int8x16_isSome kernel s (l.take 16) (u.take 16)).2 h
    have h2 := (align_int8x16_isSome kernel s (l.drop 16) (u.drop 16)).2 h
    obtain ⟨lo, hlo⟩ := Option.isSome_iff_exists.1 h1
    obtain ⟨hi, hhi⟩ := Option.isSome_iff_exists.1 h2
    unfold align_int8x32
    rw [if_neg c, hlo, hhi]
    split
    · simp [h]
    · split
      · simp [h]
      · cases avx2 <;> simp [h]
  · unfold align_int8x32
    rw [if_pos h]
    simp [h]

/-- C19: `align<shift>` is accepted exactly when `shift` is at most the number
of elements of one 128-bit base vector (16, 8, 4, 2 for element sizes 1, 2, 4, 8),
for the 128-bit and the 256-bit form of every element type and every tier, and
an accepted shift scaled by the element size is at most 16, the bound of the
byte version. -/
theorem align_accepts_iff (T : AlignElem)
    (avx2 : Option (Nat → List Nat → List Nat → List Nat))
    (kernel : Nat → List Nat → List Nat → List Nat) (shift : Nat)
    (lower upper lower2 upper2 : List Nat) :
    ((align128 T kernel shift lower upper).isSome = true ↔ shift ≤ T.base_width) ∧
    ((align256 T avx2 kernel shift lower2 upper2).isSome = true ↔ shift ≤ T.base_width) ∧
    (shift ≤ T.base_width → shift * T.size ≤ 16) ∧
    (T.base_width = 16 ∨ T.base_width = 8 ∨ T.base_width = 4 ∨ T.base_width = 2) := by
  have k16 := fun s l u => align_int8x16_isSome kernel s l u
  have k32 := fun s l u => align_int8x32_isSome avx2 kernel s l u
  cases T
  · refine ⟨k16 _ _ _, k32 _ _ _, ?_, by decide⟩
    intro h
    have : shift ≤ 16 := h
    simp only [AlignElem.size]
    omega
  · refine ⟨?_, ?_, ?_, by decide⟩
    · show (align_int16x8 kernel shift lower upper).isSome = true ↔ shift ≤ 8
      unfold align_int16x8
      split
      · simp; omega
      · rw [Option.isSome_map', k16]; omega
    · show (align_int16x16 avx2 kernel shift lower2 upper2).isSome = true ↔ shift ≤ 8
      unfold align_int16x16
      split
      · simp; omega
      · rw [Option.isSome_map', k32]; omega
    · intro h
      have : shift ≤ 8 := h
      simp only [AlignElem.size]
      omega
  · refine ⟨?_, ?_, ?_, by decide⟩
    · show (align_int32x4 kernel shift lower upper).isSome = true ↔ shift ≤ 4
      unfold align_int32x4
      split
      · simp; omega
      · rw [Option.isSome_map', k16]; omega
    · show (align_int32x8 avx2 kernel shift lower2 upper2).isSome = true ↔ shift ≤ 4
      unfold align_int32x8
      split
      · simp; omega
      · rw [Option.isSome_map', k32]; omega
    · intro h
      have : shift ≤ 4 := h
      simp only [AlignElem.size]
      omega
  · refine ⟨?_, ?_, ?_, by decide⟩
    · show (align_int64x2 kernel shift lower upper).isSome = true ↔ shift ≤ 2
      unfold align_int64x2
      split
      · simp; omega
      · rw [Option.isSome_map', k16]; omega
    · show (align_int64x4 avx2 kernel shift lower2 upper2).isSome = true ↔ shift ≤ 2
      unfold align_int64x4
      split
      · simp; omega
      · rw [Option.isSome_map', k32]; omega
    · intro h
      have : shift ≤ 2 := h
      simp only [AlignElem.size]
      omega
  · refine ⟨?_, ?_, ?_, by decide⟩
    · show (align_float32x4 kernel shift lower upper).isSome = true ↔ shift ≤ 4
      unfold align_float32x4 align_int32x4
      split
      · simp; omega
      · rw [Option.isSome_map', k16]; omega
    · show (align_float32x8 avx2 kernel shift lower2 upper2).isSome = true ↔ shift ≤ 4
      unfold align_float32x8 align_int32x8
      split
      · simp; omega
      · rw [Option.isSome_map', k32]; omega
    · intro h
      have : shift ≤ 4 := h
      simp only [AlignElem.size]
      omega
  · refine ⟨?_, ?_, ?_, by decide⟩
    · show (align_float64x2 kernel shift lower upper).isSome = true ↔ shift ≤ 2
      unfold align_float64x2 align_int64x2
      split
      · simp; omega
      · rw [Option.isSome_map', k16]; omega
    · show (align_float64x4 avx2 kernel shift lower2 upper2).isSome = true ↔ shift ≤ 2
      unfold align_float64x4 align_int64x4
      split
      · simp; omega
      · rw [Option.isSome_map', k32]; omega
    · intro h
      have : shift ≤ 2 := h
      simp only [AlignElem.size]
      omega

/-! ### Acceptance of `shift_r` and `i_splat`; the signed `shift_r` -/

/-- C17: the compile-time-count `shift_r<count>` on an element type of bit width
`w` builds exactly when `count <= w`: as a partial function it is defined iff
`count <= w`, for every tier shift and every vector. -/
theorem shift_r_accepts_iff (T : IntElem) (i_shift_r : Nat → List Int → List Int)
    (count : Nat) (a : List Int) :
    ((shift_r T i_shift_r count a).isSome = true ↔ count ≤ T.bits) ∧
    (T.bits = 8 ∨ T.bits = 16 ∨ T.bits = 32 ∨ T.bits = 64) := by
  cases T <;> refine ⟨?_, by decide⟩ <;>
    simp only [shift_r, shift_r_int8, shift_r_uint8, shift_r_int16, shift_r_uint16,
      shift_r_int32, shift_r_uint32, shift_r_int64, shift_r_uint64, IntElem.bits] <;>
    (split_ifs <;> simp <;> omega)

/-- C18: `i_splat<s>` on a vector of `N` lanes builds exactly when `s < N`, for
the generic-width overloads and for every 256-bit and 512-bit tier kernel (whose
`static_assert` constant is the lane count of its type); when it builds,
`v_splat` reads the base vector `s / L`, which lies inside the vector. -/
theorem i_splat_accepts_iff {α : Type} (i_splat : Nat → List α → List α) (L N s : Nat)
    (a : Vec α) (k : SplatKernel) (body : Nat → List α → List α) (v : List α)
    (hN : N = a.vec_length * L) :
    ((i_splat_wide i_splat L N s a).isSome = true ↔ s < N) ∧
    ((i_splat_tier k body s v).isSome = true ↔ s < k.lanes) ∧
    ((i_splat_wide i_splat L N s a).isSome = true →
      s / L < a.vec_length ∧ a.vec (s / L) ∈ a.vecs) := by
  have h1 : (i_splat_wide i_splat L N s a).isSome = true ↔ s < N := by
    unfold i_splat_wide
    split_ifs with h <;> simp <;> omega
  refine ⟨h1, ?_, ?_⟩
  · have hb : k.bound = k.lanes := by cases k <;> rfl
    unfold i_splat_tier
    rw [hb]
    split_ifs with h <;> simp <;> omega
  · intro h
    have hs : s < a.vec_length * L := by
      rw [← hN]
      exact h1.1 h
    have hdiv : s / L < a.vecs.length := by
      apply Nat.div_lt_of_lt_mul
      rw [Nat.mul_comm]
      exact hs
    refine ⟨hdiv, ?_⟩
    unfold Vec.vec
    rw [List.getD_eq_getElem?_getD, List.getElem?_eq_getElem hdiv]
    exact List.getElem_mem hdiv

/-- C18 at a concrete input: lane 3 of the two-base-vector value
`[[1, 2], [3, 4]]`, and the AVX2 kernel on `uint8x32`. -/
theorem i_splat_accepts_iff_witness :
    ((i_splat_wide i_splat_base 2 4 3 splat_example).isSome = true ↔ 3 < 4) ∧
    ((i_splat_tier .uint8x32_avx2 i_splat_base 3 (List.range 32)).isSome = true ↔
      3 < SplatKernel.uint8x32_avx2.lanes) ∧
    ((i_splat_wide i_splat_base 2 4 3 splat_example).isSome = true →
      3 / 2 < splat_example.vec_length ∧ splat_example.vec (3 / 2) ∈ splat_example.vecs) :=
  i_splat_accepts_iff i_splat_base 2 4 3 splat_example .uint8x32_avx2 i_splat_base
    (List.range 32) (by decide)

theorem floor_full_width (w : Nat) (hw : 0 < w) (x : Int) (hx : is_signed_lane w x) :
    x / 2 ^ w = if x < 0 then -1 else 0 := by
  obtain ⟨h1, h2⟩ := hx
  have hp : (2 : Int) ^ w = 2 * 2 ^ (w - 1) := by
    have : w = (w - 1) + 1 := by omega
    conv_lhs => rw [this, pow_succ]
    ring
  have hpos : (0 : Int) < 2 ^ (w - 1) := by positivity
  rw [hp]
  generalize (2 : Int) ^ (w - 1) = h at h1 h2 hpos
  split_ifs with hneg
  · exact ((Int.ediv_emod_unique (by omega : (0 : Int) < 2 * h)).2
      ⟨by ring, by omega, by omega⟩ : x / (2 * h) = -1 ∧ x % (2 * h) = x + 2 * h).1
  · exact Int.ediv_eq_zero_of_lt (by omega) (by omega)

theorem floor_div_pow (x : Int) (c : Nat) : ⌊(x : ℚ) / 2 ^ c⌋ = x / 2 ^ c := by
  have h := Rat.floor_intCast_div_natCast x (2 ^ c)
  push_cast at h
  exact h

theorem shift_r_signed_eq (T : IntElem) (i_shift_r : Nat → List Int → List Int)
    (count : Nat) (a : List Int) (hT : T.is_unsigned = false) (hc : count ≤ T.bits) :
    shift_r T i_shift_r count a = some (if count = 0 then a else i_shift_r count a) := by
  cases T <;> simp [IntElem.is_unsigned] at hT <;>
    simp only [shift_r, shift_r_int8, shift_r_int16, shift_r_int32, shift_r_int64,
      IntElem.bits, eval] at hc ⊢ <;>
    (split_ifs <;> rfl)

/-- C20 fails as stated: on a tier whose shift instruction takes the count modulo
the element width (AltiVec `vec_sra`), `shift_r<8>` of the `int8` lanes
`[64, -128]` returns them unchanged, although `floor(64 / 2^8) = 0` and
`floor(-128 / 2^8) = -1`; on a sign-filling tier it returns `[0, -1]`. The
boundary result is the tier primitive's. -/
theorem shift_r_signed_full_width_depends_on_tier :
    8 ≤ IntElem.int8.bits ∧ IntElem.int8.is_unsigned = false ∧
    shift_r .int8 (i_shift_r_count_mod 8) 8 [64, -128] = some [64, -128] ∧
    shift_r .int8 i_shift_r_sign_fill 8 [64, -128] = some [0, -1] ∧
    (64 : Int) / 2 ^ 8 = 0 ∧ (-128 : Int) / 2 ^ 8 = -1 ∧
    (∀ c, c < 8 → i_shift_r_count_mod 8 c [64, -128] = i_shift_r_sign_fill c [64, -128]) := by
  refine ⟨by decide, rfl, by decide, by decide, by decide, by decide, ?_⟩
  intro c hc
  interval_cases c <;> decide

/-- C20, amended: for every signed element type of bit width `w` and every
accepted count, `shift_r<0>(a)` is `a` and, for `0 < count <= w` (also at
`count == w`), `shift_r<count>(a)` is exactly what the tier shift
`i_shift_r<count>` returns; so each result lane is `floor(a_i / 2^count)`
whenever the tier shift shifts in the sign bit at that count, and then at
`count == w` a negative lane becomes -1 and a non-negative lane 0. -/
theorem shift_r_signed_is_tier_shift (T : IntElem) (i_shift_r : Nat → List Int → List Int)
    (count : Nat) (a : List Int) (hT : T.is_unsigned = false) (hc : count ≤ T.bits) :
    shift_r T i_shift_r count a = some (if count = 0 then a else i_shift_r count a) ∧
    (i_shift_r count a = a.map (fun (x : Int) => ⌊(x : ℚ) / 2 ^ count⌋) →
      shift_r T i_shift_r count a = some (a.map (fun (x : Int) => ⌊(x : ℚ) / 2 ^ count⌋))) ∧
    (∀ x : Int, is_signed_lane T.bits x →
      ⌊(x : ℚ) / 2 ^ T.bits⌋ = if x < 0 then -1 else 0) := by
  have h := shift_r_signed_eq T i_shift_r count a hT hc
  refine ⟨h, ?_, ?_⟩
  · intro hf
    rw [h]
    by_cases h0 : count = 0
    · subst h0
      rw [if_pos rfl]
      congr 1
      have : (fun x : Int => ⌊(x : ℚ) / 2 ^ 0⌋) = id := by
        funext x
        simp
      rw [this, List.map_id]
    · rw [if_neg h0, hf]
  · intro x hx
    rw [floor_div_pow]
    exact floor_full_width T.bits (by cases T <;> decide) x hx

/-- C20, amended, at a concrete input: `shift_r<8>` of `int8` lanes on a
sign-filling tier. -/
theorem shift_r_signed_is_tier_shift_witness :
    shift_r .int8 i_shift_r_sign_fill 8 [64, -128, -1, 127]
      = some (if 8 = 0 then [64, -128, -1, 127]
          else i_shift_r_sign_fill 8 [64, -128, -1, 127]) ∧
    (i_shift_r_sign_fill 8 [64, -128, -1, 127]
        = [64, -128, -1, 127].map (fun (x : Int) => ⌊(x : ℚ) / 2 ^ 8⌋) →
      shift_r .int8 i_shift_r_sign_fill 8 [64, -128, -1, 127]
        = some ([64, -128, -1, 127].map (fun (x : Int) => ⌊(x : ℚ) / 2 ^ 8⌋))) ∧
    (∀ x : Int, is_signed_lane IntElem.int8.bits x →
      ⌊(x : ℚ) / 2 ^ IntElem.int8.bits⌋ = if x < 0 then -1 else 0) :=
  shift_r_signed_is_tier_shift .int8 i_shift_r_sign_fill 8 [64, -128, -1, 127] rfl
    (by decide)

/-! ### Decomposition of wide float vectors -/

theorem vec_array_impl2_loop_length {α : Type} (op : List α → List α → List α)
    (v1 v2 r : Vec α) (n : Nat) :
    (vec_array_impl2_loop op v1 v2 r n).vecs.length = r.vecs.length := by
  induction n with
  | zero => rfl
  | succ n ih => simp [vec_array_impl2_loop, Vec.set_vec, ih]

theorem vec_array_impl2_loop_vec {α : Type} (op : List α → List α → List α)
    (v1 v2 r : Vec α) (n : Nat) (hn : n ≤ r.vecs.length) (i : Nat) :
    (vec_array_impl2_loop op v1 v2 r n).vec i =
      if i < n then op (v1.vec i) (v2.vec i) else r.vec i := by
  induction n with
  | zero => simp [vec_array_impl2_loop]
  | succ n ih =>
    have hlen := vec_array_impl2_loop_length op v1 v2 r n
    simp only [vec_array_impl2_loop, Vec.set_vec, Vec.vec] at ih ⊢
    by_cases h : i = n
    · subst h
      rw [List.getD_eq_getElem?_getD, List.getElem?_set_self (by omega)]
      simp
    · rw [List.getD_eq_getElem?_getD, List.getElem?_set_ne (Ne.symm h),
        ← List.getD_eq_getElem?_getD, ih (by omega)]
      by_cases h2 : i < n
      · simp [h2, Nat.lt_succ_of_lt h2]
      · have : ¬ i < n + 1 := by omega
        simp [h2, this]

theorem ceil_null_append (a b : List Nat) : ceil_null (a ++ b) = ceil_null a ++ ceil_null b := by
  simp [ceil_null]

/-- C16: decomposition transparency of the float kernels. Without AVX,
`ceil` of a `float32x8` is `ceil` of its low four lanes followed by `ceil` of its
high four lanes, which on the emulated and on the scalar tier is the lane
function applied to all eight lanes in order; and the generic-width
`i_rsqrt_rh(x, a)` has as many base vectors as its result type and its base
vector `i` is the base-vector `i_rsqrt_rh` of base vector `i` of `x` and of
`a`. -/
theorem float_decomposition {α : Type} (arch : CeilArch) (t : CeilTier)
    (mm_ceil_ps vec_ceil : List Nat → List Nat) (v : List Nat)
    (i_rsqrt_rh_base : List α → List α → List α) (r0 x a : Vec α)
    (hv : v.length = 8) (hx : x.vec_length = r0.vec_length)
    (ha : a.vec_length = r0.vec_length) :
    ceil_float32x8 none arch mm_ceil_ps vec_ceil v
      = ceil arch mm_ceil_ps vec_ceil (v.take 4) ++ ceil arch mm_ceil_ps vec_ceil (v.drop 4) ∧
    ceil_float32x8 none (.emulated t) mm_ceil_ps vec_ceil v = v.map (ceil_lane t) ∧
    ceil_float32x8 none .null mm_ceil_ps vec_ceil v = v.map std_ceil ∧
    (i_rsqrt_rh_wide i_rsqrt_rh_base r0 x a).vec_length = x.vec_length ∧
    ∀ i, i < x.vec_length →
      (i_rsqrt_rh_wide i_rsqrt_rh_base r0 x a).vec i = i_rsqrt_rh_base (x.vec i) (a.vec i) ∧
      x.vec i ∈ x.vecs ∧ a.vec i ∈ a.vecs := by
  have hmem : ∀ (w : Vec α) (i : Nat), i < w.vec_length → w.vec i ∈ w.vecs := by
    intro w i hi
    unfold Vec.vec
    rw [List.getD_eq_getElem?_getD, List.getElem?_eq_getElem hi]
    exact List.getElem_mem hi
  refine ⟨rfl, ?_, ?_, ?_, ?_⟩
  · show ceil_emulated t (v.take 4) ++ ceil_emulated t (v.drop 4) = _
    rw [ceil_emulated_lanes t _ (by simp [hv]), ceil_emulated_lanes t _ (by simp [hv]),
      ← List.map_append, List.take_append_drop]
  · show ceil_null (v.take 4) ++ ceil_null (v.drop 4) = _
    rw [← ceil_null_append, List.take_append_drop]
    rfl
  · rw [hx]
    exact vec_array_impl2_loop_length _ _ _ _ _
  · intro i hi
    have h := vec_array_impl2_loop_vec i_rsqrt_rh_base x a r0 r0.vec_length
      (Nat.le_refl _) i
    rw [if_pos (by rw [← hx]; exact hi)] at h
    exact ⟨h, hmem x i hi, hmem a i (by rw [ha, ← hx]; exact hi)⟩

/-- C16 at a concrete input: a `float32x8` on the SSE2 tier, and a
`float32<8>` of two base vectors refined by the SSE2 kernel. -/
theorem float_decomposition_witness :
    ceil_float32x8 none (.emulated .sse2) id id
        [0x3FC00000, 0xBF000000, 0x7F800000, 0x00000001, 0, 0x3F800000, 0xC0400000, 0x4AFFFFFE]
      = ceil (.emulated .sse2) id id
          ([0x3FC00000, 0xBF000000, 0x7F800000, 0x00000001, 0, 0x3F800000, 0xC0400000,
            0x4AFFFFFE].take 4) ++
        ceil (.emulated .sse2) id id
          ([0x3FC00000, 0xBF000000, 0x7F800000, 0x00000001, 0, 0x3F800000, 0xC0400000,
            0x4AFFFFFE].drop 4) ∧
    ceil_float32x8 none (.emulated .sse2) id id
        [0x3FC00000, 0xBF000000, 0x7F800000, 0x00000001, 0, 0x3F800000, 0xC0400000, 0x4AFFFFFE]
      = [0x3FC00000, 0xBF000000, 0x7F800000, 0x00000001, 0, 0x3F800000, 0xC0400000,
          0x4AFFFFFE].map (ceil_lane .sse2) ∧
    ceil_float32x8 none .null id id
        [0x3FC00000, 0xBF000000, 0x7F800000, 0x00000001, 0, 0x3F800000, 0xC0400000, 0x4AFFFFFE]
      = [0x3FC00000, 0xBF000000, 0x7F800000, 0x00000001, 0, 0x3F800000, 0xC0400000,
          0x4AFFFFFE].map std_ceil ∧
    (i_rsqrt_rh_wide (i_rsqrt_rh .sse2) rsqrt_example_x rsqrt_example_x
      rsqrt_example_a).vec_length = rsqrt_example_x.vec_length ∧
    ∀ i, i < rsqrt_example_x.vec_length →
      (i_rsqrt_rh_wide (i_rsqrt_rh .sse2) rsqrt_example_x rsqrt_example_x rsqrt_example_a).vec i
        = i_rsqrt_rh .sse2 (rsqrt_example_x.vec i) (rsqrt_example_a.vec i) ∧
      rsqrt_example_x.vec i ∈ rsqrt_example_x.vecs ∧
      rsqrt_example_a.vec i ∈ rsqrt_example_a.vecs :=
  float_decomposition (.emulated .sse2) .sse2 id id
    [0x3FC00000, 0xBF000000, 0x7F800000, 0x00000001, 0, 0x3F800000, 0xC0400000, 0x4AFFFFFE]
    (i_rsqrt_rh .sse2) rsqrt_example_x rsqrt_example_x rsqrt_example_a rfl rfl rfl

theorem zipWith_or_zero_left (l : List Nat) :
    List.zipWith (fun x y => x ||| y) (List.replicate l.length 0) l = l := by
  induction l with
  | nil => rfl
  | cons x l ih => simp [List.replicate_succ, ih]

theorem zipWith_or_zero_right (l : List Nat) :
    List.zipWith (fun x y => x ||| y) l (List.replicate l.length 0) = l := by
  induction l with
  | nil => rfl
  | cons x l ih => simp [List.replicate_succ, ih]

theorem align_sse2_is_window : is_window_kernel align_sse2_kernel := by
  intro s lower upper hs0 hs hl hu
  have e1 : (lower ++ upper).drop s = lower.drop s ++ upper := by
    rw [List.drop_append_of_le_length (by omega)]
  have e2 : (lower.drop s ++ upper).take 16 = lower.drop s ++ upper.take s := by
    rw [List.take_append_eq_append_take, List.take_of_length_le (by simp [hl])]
    simp [hl]
    congr 1
    omega
  have l1 : 16 - (16 - s) = s := by omega
  have l2 : 16 - (16 - (16 - s)) = 16 - s := by omega
  have l3 : (List.drop s lower).length = 16 - s := by simp [hl]
  have l4 : (List.take s upper).length = s := by simp [hu]; omega
  unfold align_sse2_kernel bit_or_int8x16 move_l move_r
  simp only [hl, hu, l1, l2]
  rw [e1, e2, List.zipWith_append _ _ _ _ _ (by simp [hl])]
  have z1 := zipWith_or_zero_left (lower.drop s)
  have z2 := zipWith_or_zero_right (upper.take s)
  rw [l3] at z1
  rw [l4] at z2
  rw [z1, z2]

/-- C29: for 16-byte operands and `0 < s < 16` the SSE2 emulation of `align`
(`bit_or` of `move_l<s>(lower)` and `move_r<16-s>(upper)`) and the SSSE3 form
(`_mm_alignr_epi8(upper, lower, s)`) both return exactly what the two scalar
loops of the NULL tier return, whatever `r` held before the loops. -/
theorem align_sse2_ssse3_eq_null (r0 lower upper : List Nat) (s : Nat)
    (hl : lower.length = 16) (hu : upper.length = 16) (hr : r0.length = 16)
    (hs0 : 0 < s) (hs : s < 16) :
    align_sse2_kernel s lower upper = align_null_kernel r0 s lower upper ∧
    align_ssse3_kernel s lower upper = align_null_kernel r0 s lower upper ∧
    align_int8x16 align_sse2_kernel s lower upper =
      align_int8x16 (align_null_kernel r0) s lower upper ∧
    align_int8x16 align_ssse3_kernel s lower upper =
      align_int8x16 (align_null_kernel r0) s lower upper := by
  have a := align_sse2_is_window s lower upper hs0 hs hl hu
  have b := align_ssse3_is_window s lower upper hs0 hs hl hu
  have c := align_null_kernel_eq r0 lower upper s hl hu hr hs0 hs
  refine ⟨a.trans c.symm, b.trans c.symm, ?_, ?_⟩
  · unfold align_int8x16
    rw [a, c]
  · unfold align_int8x16
    rw [b, c]

/-- C29 at a concrete input: shift 3 on the bytes 0 .. 15 and 100 .. 115, with
`r` holding sevens before the loops. -/
theorem align_sse2_ssse3_eq_null_witness :
    align_sse2_kernel 3 align_doc_lower align_doc_upper =
      align_null_kernel (List.replicate 16 7) 3 align_doc_lower align_doc_upper ∧
    align_ssse3_kernel 3 align_doc_lower align_doc_upper =
      align_null_kernel (List.replicate 16 7) 3 align_doc_lower align_doc_upper ∧
    align_int8x16 align_sse2_kernel 3 align_doc_lower align_doc_upper =
      align_int8x16 (align_null_kernel (List.replicate 16 7)) 3 align_doc_lower
        align_doc_upper ∧
    align_int8x16 align_ssse3_kernel 3 align_doc_lower align_doc_upper =
      align_int8x16 (align_null_kernel (List.replicate 16 7)) 3 align_doc_lower
        align_doc_upper :=
  align_sse2_ssse3_eq_null (List.replicate 16 7) align_doc_lower align_doc_upper 3
    (by decide) (by decide) (by decide) (by decide) (by decide)

/-- C24 as stated fails: at shift 2 position 15 of the result holds element 1
of `upper` (101 in the example), not element 1 of `lower` (1). -/
theorem align_doc_row_2_counterexample :
    align_int8x16 (align_null_kernel (List.replicate 16 0)) 2 align_doc_lower align_doc_upper =
      some [2, 3, 4, 5, 6, 7, 8, 9, 10, 11, 12, 13, 14, 15, 100, 101] ∧
    align_doc_lower.get? 1 = some 1 ∧ align_doc_upper.get? 1 = some 101 ∧
    ¬ ((align_int8x16 (align_null_kernel (List.replicate 16 0)) 2 align_doc_lower
        align_doc_upper).bind (fun r => r.get? 15) = align_doc_lower.get? 1) := by
  decide

/-- C24 amended: at shift 2 the byte `align` returns
`[l2, l3, ..., l15, u0, u1]`: positions 0 .. 13 hold elements 2 .. 15 of
`lower`, position 14 holds element 0 of `upper` and position 15 holds element
1 of `upper`. -/
theorem align_shift_2_row (r0 lower upper : List Nat)
    (hl : lower.length = 16) (hu : upper.length = 16) (hr : r0.length = 16) :
    ∃ r, align_int8x16 (align_null_kernel r0) 2 lower upper = some r ∧
      r.length = 16 ∧
      (∀ i, i < 14 → r.get? i = lower.get? (i + 2)) ∧
      r.get? 14 = upper.get? 0 ∧ r.get? 15 = upper.get? 1 := by
  refine ⟨_, align_int8x16_window _ (align_null_is_window r0 hr) 2 lower upper hl hu
    (by omega), by simp [hl, hu], ?_, ?_, ?_⟩
  · intro i hi
    rw [List.get?_eq_getElem?, List.get?_eq_getElem?, List.getElem?_take_of_lt (by omega),
      List.getElem?_drop, List.getElem?_append_left (by omega), Nat.add_comm]
  · rw [List.get?_eq_getElem?, List.get?_eq_getElem?, List.getElem?_take_of_lt (by omega),
      List.getElem?_drop, List.getElem?_append_right (by omega)]
    simp [hl]
  · rw [List.get?_eq_getElem?, List.get?_eq_getElem?, List.getElem?_take_of_lt (by omega),
      List.getElem?_drop, List.getElem?_append_right (by omega)]
    simp [hl]

/-- C24 (amended) at a concrete input: the bytes 0 .. 15 and 100 .. 115. -/
theorem align_shift_2_row_witness :
    ∃ r, align_int8x16 (align_null_kernel (List.replicate 16 0)) 2 align_doc_lower
        align_doc_upper = some r ∧
      r.length = 16 ∧
      (∀ i, i < 14 → r.get? i = align_doc_lower.get? (i + 2)) ∧
      r.get? 14 = align_doc_upper.get? 0 ∧ r.get? 15 = align_doc_upper.get? 1 :=
  align_shift_2_row (List.replicate 16 0) align_doc_lower align_doc_upper
    (by decide) (by decide) (by decide)

/-! ### `test_push_internal_vec` -/

theorem test_push_inner_spec (L i : Nat) (block : List Nat) (res : PushResult) (n : Nat)
    (hw : i * L + n ≤ 2 ^ 32) :
    (test_push_inner L i block res n).data.length = res.data.length ∧
    (test_push_inner L i block res n).sets = res.sets ++ List.range' (i * L) n ∧
    ∀ k, k < res.data.length → (test_push_inner L i block res n).data.get? k =
      if i * L ≤ k ∧ k < i * L + n then some (block.getD (k - i * L) 0)
      else res.data.get? k := by
  induction n with
  | zero =>
    refine ⟨rfl, by simp [test_push_inner], ?_⟩
    intro k _
    have c : ¬ (i * L ≤ k ∧ k < i * L + 0) := by omega
    simp only [test_push_inner, c, if_false]
  | succ n ih =>
    obtain ⟨h1, h2, h3⟩ := ih (by omega)
    have e : ((i * L) % 2 ^ 32 + n) % 2 ^ 32 = i * L + n := by
      rw [Nat.mod_eq_of_lt (by omega), Nat.mod_eq_of_lt (by omega)]
    refine ⟨?_, ?_, ?_⟩
    · simp [test_push_inner, PushResult.set, h1]
    · simp only [test_push_inner, PushResult.set, h2, e, List.append_assoc]
      rw [List.range'_1_concat]
    · intro k hk
      simp only [test_push_inner, PushResult.set, e, List.get?_eq_getElem?]
      by_cases h : k = i * L + n
      · subst h
        rw [List.getElem?_set_self (by omega)]
        have c : i * L ≤ i * L + n ∧ i * L + n < i * L + (n + 1) := by omega
        simp only [c, and_self, if_true, Nat.add_sub_cancel_left]
      · rw [List.getElem?_set_ne (Ne.symm h)]
        have := h3 k hk
        simp only [List.get?_eq_getElem?] at this
        rw [this]
        by_cases h4 : i * L ≤ k ∧ k < i * L + n
        · have c : i * L ≤ k ∧ k < i * L + (n + 1) := by omega
          simp only [h4, c, and_self, if_true]
        · have c : ¬ (i * L ≤ k ∧ k < i * L + (n + 1)) := by omega
          simp only [h4, c, if_false]

theorem test_push_outer_spec (L : Nat) (data : Vec Nat) (res : PushResult) (n : Nat)
    (hw : n * L ≤ 2 ^ 32) (hd : n * L ≤ res.data.length) :
    (test_push_outer L data res n).data.length = res.data.length ∧
    (test_push_outer L data res n).sets = res.sets ++ List.range (n * L) ∧
    ∀ k, k < res.data.length → (test_push_outer L data res n).data.get? k =
      if k < n * L then some ((data.vec (k / L)).getD (k % L) 0)
      else res.data.get? k := by
  induction n with
  | zero =>
    refine ⟨rfl, by simp [test_push_outer], ?_⟩
    intro k _
    simp [test_push_outer]
  | succ n ih =>
    have e : (n + 1) * L = n * L + L := by ring
    obtain ⟨h1, h2, h3⟩ := ih (by omega) (by omega)
    obtain ⟨g1, g2, g3⟩ := test_push_inner_spec L n (data.vec n)
      (test_push_outer L data res n) L (by omega)
    refine ⟨?_, ?_, ?_⟩
    · simp only [test_push_outer, g1, h1]
    · simp only [test_push_outer, g2, h2, List.append_assoc, e]
      have r1 := List.range'_append_1 0 (n * L) L
      rw [Nat.zero_add, Nat.add_comm L] at r1
      rw [List.range_eq_range', List.range_eq_range', r1]
    · intro k hk
      simp only [test_push_outer]
      rw [g3 k (by omega), h3 k hk, e]
      by_cases c : n * L ≤ k ∧ k < n * L + L
      · have hL : 0 < L := by omega
        have c1 : k < n * L + L := c.2
        have q : k / L = n := by
          apply Nat.div_eq_of_lt_le
          · exact c.1
          · rw [Nat.succ_mul]; exact c.2
        have r : k % L = k - n * L := by
          have := Nat.div_add_mod k L
          rw [q, Nat.mul_comm] at this
          omega
        rw [if_pos c, if_pos c1, q, r]
      · rw [if_neg c]
        by_cases c1 : k < n * L
        · have c2 : k < n * L + L := by omega
          rw [if_pos c1, if_pos c2]
        · have c2 : ¬ k < n * L + L := by omega
          rw [if_neg c1, if_neg c2]

/-- C23: for a vector of `vec_length` base vectors of `L` lanes each,
`test_push_internal_vec` hands to `set` exactly the slot ids
`0, 1, ..., vec_length * L - 1`, each once (in this order) and no other id, and
afterwards slot `k` holds element `k mod L` of base vector `k / L`. -/
theorem test_push_internal_vec_order (L : Nat) (data : Vec Nat) (res : PushResult)
    (hlen : ∀ b ∈ data.vecs, b.length = L)
    (hN : data.vec_length * L < 2 ^ 32)
    (hres : res.data.length = data.vec_length * L) (hlog : res.sets = []) :
    (test_push_internal_vec L res data).sets = List.range (data.vec_length * L) ∧
    (test_push_internal_vec L res data).data.length = data.vec_length * L ∧
    ∀ k, k < data.vec_length * L →
      (test_push_internal_vec L res data).data.get? k = (data.vec (k / L)).get? (k % L) ∧
      (test_push_internal_vec L res data).data.get? k = data.lane L k ∧
      ((test_push_internal_vec L res data).sets.count k = 1) := by
  obtain ⟨h1, h2, h3⟩ := test_push_outer_spec L data res data.vec_length (by omega) (by omega)
  unfold test_push_internal_vec
  rw [hlog, List.nil_append] at h2
  refine ⟨h2, by rw [h1, hres], ?_⟩
  intro k hk
  have hL : 0 < L := by
    rcases Nat.eq_zero_or_pos L with h | h
    · rw [h] at hk; omega
    · exact h
  have hq : k / L < data.vecs.length := by
    rw [Nat.div_lt_iff_lt_mul hL]; exact hk
  have hb : (data.vec (k / L)).length = L := by
    apply hlen
    unfold Vec.vec
    rw [List.getD_eq_getElem _ _ hq]
    exact List.getElem_mem _
  have hm : k % L < (data.vec (k / L)).length := by rw [hb]; exact Nat.mod_lt _ hL
  have e : (test_push_outer L data res data.vec_length).data.get? k =
      (data.vec (k / L)).get? (k % L) := by
    rw [h3 k (by omega), if_pos hk, List.getD_eq_getElem _ _ hm, List.get?_eq_getElem?,
      List.getElem?_eq_getElem hm]
  refine ⟨e, e, ?_⟩
  rw [h2]
  exact List.count_eq_one_of_mem (List.nodup_range _) (List.mem_range.2 hk)

/-- C23 at a concrete input: three base vectors of four lanes pushed into
twelve slots. -/
theorem test_push_internal_vec_order_witness :
    (test_push_internal_vec 4 ⟨List.replicate 12 0, []⟩ push_example).sets =
      List.range (push_example.vec_length * 4) ∧
    (test_push_internal_vec 4 ⟨List.replicate 12 0, []⟩ push_example).data.length =
      push_example.vec_length * 4 ∧
    ∀ k, k < push_example.vec_length * 4 →
      (test_push_internal_vec 4 ⟨List.replicate 12 0, []⟩ push_example).data.get? k =
        (push_example.vec (k / 4)).get? (k % 4) ∧
      (test_push_internal_vec 4 ⟨List.replicate 12 0, []⟩ push_example).data.get? k =
        push_example.lane 4 k ∧
      ((test_push_internal_vec 4 ⟨List.replicate 12 0, []⟩ push_example).sets.count k = 1) :=
  test_push_internal_vec_order 4 push_example ⟨List.replicate 12 0, []⟩
    (by decide) (by decide) (by decide) rfl

/-! ### `mask_float64<4>` -/

/-- C21 as stated fails: the constructor from `float64<4>` applied to the vector
of four 1.0 lanes gives a mask whose lanes are 0x3FF0000000000000, neither
all-ones nor all-zeros, and `unmask()` returns these bits. -/
theorem mask_float64x4_not_invariant :
    ¬ is_mask_bits (mask_float64x4.of_float64x4 float64x4_ones).d_ ∧
    ¬ is_mask_bits (mask_float64x4.construct (.float float64x4_ones)).d_ ∧
    (mask_float64x4.of_float64x4 float64x4_ones).unmask = float64x4_ones := by
  decide

/-- C21 amended: a `mask_float64<4>` holds exactly the bits of what it was
constructed or assigned from, unchecked; so its four lanes are all-ones or
all-zeros patterns exactly when the source's lanes are, and `unmask()` (like
the conversion to the native type, `vec` and `eval`) returns exactly the
stored bits. -/
theorem mask_float64x4_holds_source_bits (src : MaskSource) (self : mask_float64x4)
    (d : mask_int64x4) (m : mask_float64x4) (i : Nat) :
    (mask_float64x4.construct src).d_ = src.bits ∧
    (is_mask_bits (mask_float64x4.construct src).d_ ↔ is_mask_bits src.bits) ∧
    (self.assign_mask_int64x4 d).d_ = d.d_ ∧
    (self.assign m).d_ = m.d_ ∧
    m.unmask.d_ = m.d_ ∧ m.native = m.d_ ∧ (m.vec i).unmask.d_ = m.d_ ∧
    m.eval.unmask.d_ = m.d_ := by
  have h : (mask_float64x4.construct src).d_ = src.bits := by
    cases src <;> rfl
  refine ⟨h, by rw [h], rfl, rfl, rfl, rfl, rfl, rfl⟩

/-! ### `TemplateTestHelper` -/

theorem large_block_offsets_lt : ∀ d ∈ large_block_offsets, d < 30 := by decide

theorem large_block_offsets_mem : ∀ d, d < 30 → d ∈ large_block_offsets := by decide

theorem impl_inv_step (limit : Nat) (hw : limit + 30 < 2 ^ 32) (st st1 : ImplState)
    (hinv : impl_inv limit st) (hs : impl_step limit st = some st1) :
    impl_inv limit st1 ∧ st.i < limit ∧
      ((st.large = false ∧ st1.i = st.i + 1) ∨ (st.large = true ∧ st1.i = st.i + 30)) := by
  obtain ⟨h1, h2, h3, h4⟩ := hinv
  unfold impl_step at hs
  by_cases c : st.i = limit
  · rw [if_pos c] at hs
    exact absurd hs (by simp)
  · rw [if_neg c] at hs
    have hlt : st.i < limit := by omega
    by_cases hl : st.large = true
    · rw [if_pos hl] at hs
      have h5 := h2 hl
      have e30 : (st.i + 30) % 2 ^ 32 = st.i + 30 := Nat.mod_eq_of_lt (by omega)
      have e60 : (st.i + 60) % 2 ^ 32 = st.i + 60 := Nat.mod_eq_of_lt (by omega)
      rw [e30, e60] at hs
      have hs1 := (Option.some.inj hs).symm
      subst hs1
      refine ⟨⟨?_, ?_, ?_, ?_⟩, hlt, Or.inr ⟨hl, rfl⟩⟩
      · show st.i + 30 ≤ limit
        exact h5
      · intro h
        have : st.i + 60 < limit := by simpa using h
        show st.i + 30 + 30 ≤ limit
        omega
      · intro k hk
        show k < st.i + 30
        rcases List.mem_append.1 hk with hk | hk
        · have := h3 k hk
          omega
        · obtain ⟨d, hd, rfl⟩ := List.mem_map.1 hk
          have := large_block_offsets_lt d hd
          rw [Nat.mod_eq_of_lt (by omega)]
          omega
      · intro k hk
        have hk1 : k < st.i + 30 := hk
        apply List.mem_append.2
        by_cases c1 : k < st.i
        · exact Or.inl (h4 k c1)
        · refine Or.inr (List.mem_map.2 ⟨k - st.i, large_block_offsets_mem _ (by omega), ?_⟩)
          rw [Nat.mod_eq_of_lt (by omega)]
          omega
    · rw [if_neg hl] at hs
      have e1 : (st.i + 1) % 2 ^ 32 = st.i + 1 := Nat.mod_eq_of_lt (by omega)
      have e30 : (st.i + 30) % 2 ^ 32 = st.i + 30 := Nat.mod_eq_of_lt (by omega)
      rw [e1, e30] at hs
      have hs1 := (Option.some.inj hs).symm
      subst hs1
      have hl1 : st.large = false := by simpa using hl
      refine ⟨⟨?_, ?_, ?_, ?_⟩, hlt, Or.inl ⟨hl1, rfl⟩⟩
      · show st.i + 1 ≤ limit
        omega
      · intro h
        have : st.i + 30 < limit := by simpa using h
        show st.i + 1 + 30 ≤ limit
        omega
      · intro k hk
        show k < st.i + 1
        rcases List.mem_append.1 hk with hk | hk
        · have := h3 k hk
          omega
        · have := List.mem_singleton.1 hk
          omega
      · intro k hk
        have hk1 : k < st.i + 1 := hk
        apply List.mem_append.2
        by_cases c1 : k < st.i
        · exact Or.inl (h4 k c1)
        · exact Or.inr (List.mem_singleton.2 (by omega))

theorem impl_inv_start (limit : Nat) : impl_inv limit impl_start := by
  refine ⟨Nat.zero_le _, ?_, ?_, ?_⟩
  · intro h
    exact absurd h (by decide)
  · intro k hk
    exact absurd hk (List.not_mem_nil k)
  · intro k hk
    exact absurd hk (Nat.not_lt_zero k)

theorem impl_inv_iter (limit : Nat) (hw : limit + 30 < 2 ^ 32) (st0 : ImplState)
    (h0 : impl_inv limit st0) (n : Nat) :
    ∀ st, impl_iter limit n st0 = some st → impl_inv limit st := by
  induction n with
  | zero =>
    intro st h
    have := Option.some.inj h
    subst this
    exact h0
  | succ n ih =>
    intro st h
    simp only [impl_iter] at h
    obtain ⟨mid, hm, hs⟩ := Option.bind_eq_some.1 h
    exact (impl_inv_step limit hw mid st (ih mid hm) hs).1

theorem impl_run_terminates (limit : Nat) (hw : limit + 30 < 2 ^ 32) (fuel : Nat) :
    ∀ st, impl_inv limit st → limit - st.i < fuel →
      ∃ fin, TemplateTestHelperImpl_run limit fuel st = some fin ∧ impl_inv limit fin ∧
        fin.i = limit := by
  induction fuel with
  | zero =>
    intro st _ h
    omega
  | succ fuel ih =>
    intro st hinv hf
    unfold TemplateTestHelperImpl_run
    cases hs : impl_step limit st with
    | none =>
      refine ⟨st, rfl, hinv, ?_⟩
      unfold impl_step at hs
      by_contra c
      rw [if_neg c] at hs
      split at hs <;> simp at hs
    | some st1 =>
      obtain ⟨i1, i2, i3⟩ := impl_inv_step limit hw st st1 hinv hs
      have : limit - st1.i < fuel := by
        rcases i3 with ⟨_, e⟩ | ⟨_, e⟩ <;> omega
      exact ih st1 i1 this

theorem impl_blocks_reach (j : Nat) (hj : j ≤ 143165576) :
    ∃ c, impl_iter 4294967295 (j + 1) impl_start = some ⟨true, 1 + 30 * j, c⟩ := by
  induction j with
  | zero => exact ⟨[0], by decide⟩
  | succ j ih =>
    obtain ⟨c, hc⟩ := ih (by omega)
    have a1 : ¬ (1 + 30 * j = 4294967295) := by omega
    have a2 : (1 + 30 * j + 60) % 2 ^ 32 < 4294967295 := by omega
    have a3 : (1 + 30 * j + 30) % 2 ^ 32 = 1 + 30 * (j + 1) := by omega
    refine ⟨c ++ large_block_offsets.map (fun k => (1 + 30 * j + k) % 2 ^ 32), ?_⟩
    rw [impl_iter, hc, Option.some_bind]
    unfold impl_step
    simp only [if_neg a1, if_true, a3, decide_eq_true a2]


theorem impl_iter_succ (limit n : Nat) (st : ImplState) :
    impl_iter limit (n + 1) st = (impl_iter limit n st).bind (impl_step limit) := rfl

theorem impl_step_wrapped (c : List Nat) :
    impl_step 4294967295 ⟨true, 4294967281, c⟩ = some ⟨true, 15,
      c ++ large_block_offsets.map (fun k => (4294967281 + k) % 2 ^ 32)⟩ := by
  have a1 : ¬ (4294967281 = 4294967295) := by omega
  have a2 : (4294967281 + 60) % 2 ^ 32 < 4294967295 := by omega
  have a3 : (4294967281 + 30) % 2 ^ 32 = 15 := by omega
  unfold impl_step
  simp only [if_neg a1, if_true, a3, decide_eq_true a2]

/-- C30 as stated fails for `limit = 4294967295`: after 143165577 nested `run`s
the chain stands at `<true, 4294967281, limit>`, a block of 30 whose index
`i + 14` is `limit` itself; its `run` invokes `test` with the index `limit`, and
the next index is `(i + 30) mod 2^32 = 15`, past `limit` without meeting it. -/
theorem impl_recursion_wraps :
    (∃ c, impl_iter 4294967295 143165577 impl_start = some ⟨true, 4294967281, c⟩) ∧
    ∃ st, impl_iter 4294967295 143165578 impl_start = some st ∧
      4294967295 ∈ st.calls ∧ st.i = 15 := by
  obtain ⟨c, hc⟩ := impl_blocks_reach 143165576 (Nat.le_refl _)
  have e : 1 + 30 * 143165576 = 4294967281 := by norm_num
  have e1 : 143165576 + 1 = 143165577 := by norm_num
  rw [e, e1] at hc
  have h := impl_iter_succ 4294967295 143165577 impl_start
  rw [hc, Option.some_bind, impl_step_wrapped] at h
  refine ⟨⟨c, hc⟩, _, h, ?_, rfl⟩
  exact List.mem_append.2 (Or.inr (List.mem_map.2 ⟨14, by decide, by norm_num⟩))
/-- C30 amended: for every `limit` with `limit + 30 < 2^32` the chain of nested
`run`s started at `<false, 0, limit>` ends after at most `limit + 1`
instantiations, in an empty `run` whose index is `limit`; by then `test` was
invoked on every index below `limit` and on no other index. Every
instantiation of the chain has an index of at most `limit`, a block of 30 has
all its 30 indices below `limit`, and each step raises the index by 1 (small
form) or by 30 (block form). -/
theorem impl_recursion_within_limit (limit : Nat) (hw : limit + 30 < 2 ^ 32) :
    (∃ fin, TemplateTestHelperImpl_run limit (limit + 1) impl_start = some fin ∧
      fin.i = limit ∧ (∀ k ∈ fin.calls, k < limit) ∧ ∀ k, k < limit → k ∈ fin.calls) ∧
    ∀ n st, impl_iter limit n impl_start = some st →
      st.i ≤ limit ∧ (st.large = true → st.i + 30 ≤ limit) ∧
      (∀ k ∈ st.calls, k < limit) ∧
      ∀ st1, impl_step limit st = some st1 →
        (st.large = false ∧ st1.i = st.i + 1) ∨ (st.large = true ∧ st1.i = st.i + 30) := by
  constructor
  · obtain ⟨fin, h1, ⟨_, _, h3, h4⟩, h5⟩ := impl_run_terminates limit hw (limit + 1) impl_start
      (impl_inv_start limit) (by omega)
    refine ⟨fin, h1, h5, ?_, ?_⟩
    · intro k hk
      have := h3 k hk
      omega
    · intro k hk
      exact h4 k (by omega)
  · intro n st h
    have hinv := impl_inv_iter limit hw impl_start (impl_inv_start limit) n st h
    refine ⟨hinv.1, hinv.2.1, ?_, ?_⟩
    · intro k hk
      have := hinv.2.2.1 k hk
      have := hinv.1
      omega
    · intro st1 hs
      exact (impl_inv_step limit hw st st1 hinv hs).2.2

/-- C30 (amended) at a concrete input: `limit = 35`, where one block of 30 is
entered. -/
theorem impl_recursion_within_limit_witness :
    (∃ fin, TemplateTestHelperImpl_run 35 (35 + 1) impl_start = some fin ∧
      fin.i = 35 ∧ (∀ k ∈ fin.calls, k < 35) ∧ ∀ k, k < 35 → k ∈ fin.calls) ∧
    ∀ n st, impl_iter 35 n impl_start = some st →
      st.i ≤ 35 ∧ (st.large = true → st.i + 30 ≤ 35) ∧
      (∀ k ∈ st.calls, k < 35) ∧
      ∀ st1, impl_step 35 st = some st1 →
        (st.large = false ∧ st1.i = st.i + 1) ∨ (st.large = true ∧ st1.i = st.i + 30) :=
  impl_recursion_within_limit 35 (by decide)

/-- C22, evaluated at `limit = 32`: `TemplateTestHelper<F, V>::run` invokes
`test` on 0, 1, ..., 21, 21, 22, ..., 31; the index 21 is invoked twice, so the
sequence is not the one of the for loop `0, 1, ..., 31`. -/
theorem template_test_helper_repeats_index :
    TemplateTestHelper_run 40 32 =
      some [0, 1, 2, 3, 4, 5, 6, 7, 8, 9, 10, 11, 12, 13, 14, 15, 16, 17, 18, 19, 20, 21,
        21, 22, 23, 24, 25, 26, 27, 28, 29, 30, 31] ∧
    (TemplateTestHelper_run 40 32).map (fun tr => tr.count 21) = some 2 ∧
    TemplateTestHelper_run 40 32 ≠ some (List.range 32) ∧
    TemplateTestHelper_run 40 30 = some (List.range 30) := by
  decide

/-! ### Tier kernels of `i_splat` -/

theorem select_lanes_length (n : Nat) (f : Nat → Nat) (a : List Nat) :
    (select_lanes n f a).length = n := by
  simp [select_lanes]

theorem select_lanes_getD (n : Nat) (f : Nat → Nat) (a : List Nat) (i : Nat) (hi : i < n) :
    (select_lanes n f a).getD i 0 = a.getD (f i) 0 := by
  unfold select_lanes
  rw [List.getD_eq_getElem _ _ (by simp [hi])]
  simp

theorem chunk_128_length (L c : Nat) (a : List Nat) (h : c * L + L ≤ a.length) :
    (chunk_128 L c a).length = L := by
  unfold chunk_128
  rw [List.length_take, List.length_drop]
  omega

theorem chunk_128_getD (L c : Nat) (a : List Nat) (i : Nat) (hi : i < L) :
    (chunk_128 L c a).getD i 0 = a.getD (c * L + i) 0 := by
  unfold chunk_128
  rw [List.getD_eq_getElem?_getD, List.getD_eq_getElem?_getD, List.getElem?_take_of_lt hi,
    List.getElem?_drop]

theorem eq_replicate_of_getD (v : List Nat) (n x : Nat) (hv : v.length = n)
    (h : ∀ i, i < n → v.getD i 0 = x) : v = List.replicate n x := by
  rw [List.eq_replicate_iff]
  refine ⟨hv, ?_⟩
  intro b hb
  obtain ⟨i, hi, rfl⟩ := List.getElem_of_mem hb
  have := h i (by omega)
  rw [List.getD_eq_getElem _ _ hi] at this
  exact this

theorem chunk_128_const (L c : Nat) (a : List Nat) (x : Nat) (h : c * L + L ≤ a.length)
    (hx : ∀ i, i < L → a.getD (c * L + i) 0 = x) : chunk_128 L c a = List.replicate L x := by
  apply eq_replicate_of_getD _ _ _ (chunk_128_length L c a h)
  intro i hi
  rw [chunk_128_getD L c a i hi]
  exact hx i hi

theorem shuffle1_128_length (L c : Nat) (a : List Nat) (h : c * L + L ≤ a.length) :
    (shuffle1_128 L c c a a).length = L + L := by
  unfold shuffle1_128
  rw [List.length_append, chunk_128_length L c a h]

theorem shuffle1_128_getD (L c : Nat) (a : List Nat) (j : Nat) (h : c * L + L ≤ a.length)
    (hj : j < L + L) :
    (shuffle1_128 L c c a a).getD j 0 = a.getD (c * L + j % L) 0 := by
  have hlen := chunk_128_length L c a h
  unfold shuffle1_128
  by_cases c1 : j < L
  · rw [List.getD_append _ _ _ _ (by omega), chunk_128_getD L c a j c1, Nat.mod_eq_of_lt c1]
  · rw [List.getD_append_right _ _ _ _ (by omega), hlen, chunk_128_getD L c a _ (by omega)]
    have : j % L = j - L := by
      rw [Nat.mod_eq_sub_mod (by omega), Nat.mod_eq_of_lt (by omega)]
    rw [this]

theorem sel4_const (t k : Nat) (hk : k < 4) : [t, t, t, t].getD k 0 = t := by
  interval_cases k <;> rfl

theorem sel2_const (t k : Nat) (hk : k < 2) : [t, t].getD k 0 = t := by
  interval_cases k <;> rfl

theorem permute4_length (s0 s1 s2 s3 : Nat) (a : List Nat) :
    (permute4 s0 s1 s2 s3 a).length = a.length :=
  select_lanes_length _ _ _

theorem permute4_getD (t : Nat) (a : List Nat) (i : Nat) (hi : i < a.length) :
    (permute4 t t t t a).getD i 0 = a.getD (i / 4 * 4 + t) 0 := by
  unfold permute4
  rw [select_lanes_getD _ _ _ _ hi, sel4_const t _ (Nat.mod_lt _ (by decide))]

theorem permute2_length (s0 s1 : Nat) (a : List Nat) :
    (permute2 s0 s1 a).length = a.length :=
  select_lanes_length _ _ _

theorem permute2_getD (t : Nat) (a : List Nat) (i : Nat) (hi : i < a.length) :
    (permute2 t t a).getD i 0 = a.getD (i / 2 * 2 + t) 0 := by
  unfold permute2
  rw [select_lanes_getD _ _ _ _ hi, sel2_const t _ (Nat.mod_lt _ (by decide))]

theorem getD_get? (a : List Nat) (s : Nat) (hs : s < a.length) :
    a.get? s = some (a.getD s 0) := by
  rw [List.get?_eq_getElem?, List.getElem?_eq_getElem hs, List.getD_eq_getElem _ _ hs]

theorem i_splat_uint8x32_eq (a : List Nat) (s : Nat) (ha : a.length = 32) (hs : s < 32) :
    i_splat_uint8x32 s a = List.replicate 32 (a.getD s 0) := by
  unfold i_splat_uint8x32 mm256_broadcastb_epi8 move16_l extract_lo extract_hi
  simp only [ha]
  congr 1
  by_cases c : s < 16
  · rw [if_pos c, List.getD_append _ _ _ _ (by simp [ha]; omega)]
    rw [List.getD_eq_getElem?_getD, List.getD_eq_getElem?_getD, List.getElem?_drop,
      List.getElem?_take_of_lt (by omega), Nat.mod_eq_of_lt c, Nat.add_zero]
  · rw [if_neg c, List.getD_append _ _ _ _ (by simp [ha]; omega)]
    rw [List.getD_eq_getElem?_getD, List.getD_eq_getElem?_getD, List.getElem?_drop,
      List.getElem?_drop]
    congr 2
    omega

theorem i_splat_uint16x16_eq (a : List Nat) (s : Nat) (ha : a.length = 16) (hs : s < 16) :
    i_splat_uint16x16 s a = List.replicate 16 (a.getD s 0) := by
  unfold i_splat_uint16x16 mm256_broadcastw_epi16 move8_l extract_lo extract_hi
  simp only [ha]
  congr 1
  by_cases c : s < 8
  · rw [if_pos c, List.getD_append _ _ _ _ (by simp [ha]; omega)]
    rw [List.getD_eq_getElem?_getD, List.getD_eq_getElem?_getD, List.getElem?_drop,
      List.getElem?_take_of_lt (by omega), Nat.mod_eq_of_lt c, Nat.add_zero]
  · rw [if_neg c, List.getD_append _ _ _ _ (by simp [ha]; omega)]
    rw [List.getD_eq_getElem?_getD, List.getD_eq_getElem?_getD, List.getElem?_drop,
      List.getElem?_drop]
    congr 2
    omega

theorem i_splat_uint32x8_eq (a : List Nat) (s : Nat) (ha : a.length = 8) (hs : s < 8) :
    i_splat_uint32x8 s a = List.replicate 8 (a.getD s 0) := by
  unfold i_splat_uint32x8 shuffle1_128
  have hp := permute4_length (s % 4) (s % 4) (s % 4) (s % 4) a
  have hc : chunk_128 4 (s / 4) (permute4 (s % 4) (s % 4) (s % 4) (s % 4) a) =
      List.replicate 4 (a.getD s 0) := by
    apply chunk_128_const _ _ _ _ (by omega)
    intro i hi
    rw [permute4_getD _ _ _ (by omega)]
    congr 1
    omega
  simp only [hc, List.append_replicate_replicate]

theorem i_splat_uint32x16_eq (a : List Nat) (s : Nat) (ha : a.length = 16) (hs : s < 16) :
    i_splat_uint32x16 s a = List.replicate 16 (a.getD s 0) := by
  unfold i_splat_uint32x16 shuffle2_128
  have hp := permute4_length (s % 4) (s % 4) (s % 4) (s % 4) a
  have hc : chunk_128 4 (s / 4) (permute4 (s % 4) (s % 4) (s % 4) (s % 4) a) =
      List.replicate 4 (a.getD s 0) := by
    apply chunk_128_const _ _ _ _ (by omega)
    intro i hi
    rw [permute4_getD _ _ _ (by omega)]
    congr 1
    omega
  simp only [hc, List.append_replicate_replicate]

theorem permute4_whole_eq (a : List Nat) (s : Nat) (ha : a.length = 4) :
    permute4 s s s s a = List.replicate 4 (a.getD s 0) := by
  apply eq_replicate_of_getD _ _ _ (by rw [permute4_length, ha])
  intro i hi
  rw [permute4_getD _ _ _ (by omega)]
  congr 1
  omega

theorem splat_imm64_fields (s : Nat) (hs : s < 8) :
    splat_imm64 s % 4 = s / 2 ∧ splat_imm64 s / 4 % 4 = s / 2 ∧
    splat_imm64 s / 16 % 4 = s / 2 ∧ splat_imm64 s / 64 % 4 = s / 2 ∧
    splat_imm64 s < 256 ∧ splat_imm64 s = s / 2 * 85 := by
  interval_cases s <;> decide

theorem i_splat_64x8_eq (a : List Nat) (s : Nat) (ha : a.length = 8) (hs : s < 8) :
    mm512_shuffle_128 2 (permute2 (s % 2) (s % 2) a) (permute2 (s % 2) (s % 2) a)
      (splat_imm64 s) = List.replicate 8 (a.getD s 0) := by
  obtain ⟨f0, f1, f2, f3, _, _⟩ := splat_imm64_fields s hs
  unfold mm512_shuffle_128
  rw [f0, f1, f2, f3]
  have hp := permute2_length (s % 2) (s % 2) a
  have hc : chunk_128 2 (s / 2) (permute2 (s % 2) (s % 2) a) =
      List.replicate 2 (a.getD s 0) := by
    apply chunk_128_const _ _ _ _ (by omega)
    intro i hi
    rw [permute2_getD _ _ _ (by omega)]
    congr 1
    omega
  simp only [hc, List.append_replicate_replicate]

theorem i_splat_uint64x8_eq (a : List Nat) (s : Nat) (ha : a.length = 8) (hs : s < 8) :
    i_splat_uint64x8 s a = List.replicate 8 (a.getD s 0) :=
  i_splat_64x8_eq a s ha hs

theorem i_splat_float64x8_eq (a : List Nat) (s : Nat) (ha : a.length = 8) (hs : s < 8) :
    i_splat_float64x8 s a = List.replicate 8 (a.getD s 0) :=
  i_splat_64x8_eq a s ha hs

theorem i_splat_float32x8_eq (a : List Nat) (s : Nat) (ha : a.length = 8) (hs : s < 8) :
    i_splat_float32x8 s a = List.replicate 8 (a.getD s 0) := by
  unfold i_splat_float32x8
  have hl := shuffle1_128_length 4 (s / 4) a (by omega)
  apply eq_replicate_of_getD _ _ _ (by rw [permute4_length, hl])
  intro i hi
  rw [permute4_getD _ _ _ (by omega), shuffle1_128_getD 4 (s / 4) a _ (by omega) (by omega)]
  congr 1
  omega

theorem i_splat_float64x4_eq (avx2 : Bool) (a : List Nat) (s : Nat) (ha : a.length = 4)
    (hs : s < 4) :
    i_splat_float64x4 avx2 s a = List.replicate 4 (a.getD s 0) := by
  unfold i_splat_float64x4
  cases avx2
  · simp only [Bool.false_eq_true, if_false]
    have hl := shuffle1_128_length 2 (s / 2) a (by omega)
    apply eq_replicate_of_getD _ _ _ (by rw [permute2_length, hl])
    intro i hi
    rw [permute2_getD _ _ _ (by omega), shuffle1_128_getD 2 (s / 2) a _ (by omega) (by omega)]
    congr 1
    omega
  · simp only [if_true]
    exact permute4_whole_eq a s ha

theorem i_splat_tier_some (k : SplatKernel) (body : Nat → List Nat → List Nat) (s : Nat)
    (a : List Nat) (hs : s < k.bound) : i_splat_tier k body s a = some (body s a) := by
  unfold i_splat_tier
  rw [if_neg (by omega)]

/-- C26: for a `uint8x32` vector `a` and `s < 32`, and for a `uint16x16` vector
`b` and `t < 16`, the AVX2 kernel `i_splat` is accepted and returns the vector
whose every lane is lane `s` of `a` (resp. lane `t` of `b`). -/
theorem i_splat_avx2_narrow (avx2 : Bool) (a b : List Nat) (s t : Nat)
    (ha : a.length = 32) (hs : s < 32) (hb : b.length = 16) (ht : t < 16) :
    (∃ x, a.get? s = some x ∧
      i_splat_kernel avx2 .uint8x32_avx2 s a = some (List.replicate 32 x)) ∧
    ∃ y, b.get? t = some y ∧
      i_splat_kernel avx2 .uint16x16_avx2 t b = some (List.replicate 16 y) := by
  refine ⟨⟨a.getD s 0, getD_get? a s (by omega), ?_⟩, b.getD t 0, getD_get? b t (by omega), ?_⟩
  · unfold i_splat_kernel
    dsimp only
    rw [i_splat_tier_some, i_splat_uint8x32_eq a s ha hs]
    exact hs
  · unfold i_splat_kernel
    dsimp only
    rw [i_splat_tier_some, i_splat_uint16x16_eq b t hb ht]
    exact ht

/-- C26 at a concrete input: lane 21 of 32 bytes and lane 9 of 16 words. -/
theorem i_splat_avx2_narrow_witness :
    (∃ x, (splat_example_lanes 32).get? 21 = some x ∧
      i_splat_kernel true .uint8x32_avx2 21 (splat_example_lanes 32) =
        some (List.replicate 32 x)) ∧
    ∃ y, (splat_example_lanes 16).get? 9 = some y ∧
      i_splat_kernel true .uint16x16_avx2 9 (splat_example_lanes 16) =
        some (List.replicate 16 y) :=
  i_splat_avx2_narrow true (splat_example_lanes 32) (splat_example_lanes 16) 21 9
    (by decide) (by decide) (by decide) (by decide)

/-- C27: for 256-bit vectors and every in-range `s` the kernels of `uint32x8`
(AVX2), `float32x8` (AVX) and `float64x4` (AVX and AVX2) are accepted and
return the vector whose every lane is lane `s` of the operand; the AVX and the
AVX2 form of the `float64x4` kernel return the same vector. -/
theorem i_splat_256_kernels (avx2 : Bool) (a b c : List Nat) (s t u : Nat)
    (ha : a.length = 8) (hs : s < 8) (hb : b.length = 8) (ht : t < 8)
    (hc : c.length = 4) (hu : u < 4) :
    (∃ x, a.get? s = some x ∧
      i_splat_kernel avx2 .uint32x8_avx2 s a = some (List.replicate 8 x)) ∧
    (∃ y, b.get? t = some y ∧
      i_splat_kernel avx2 .float32x8_avx t b = some (List.replicate 8 y)) ∧
    (∃ z, c.get? u = some z ∧
      i_splat_kernel false .float64x4_avx u c = some (List.replicate 4 z) ∧
      i_splat_kernel true .float64x4_avx u c = some (List.replicate 4 z)) ∧
    i_splat_kernel false .float64x4_avx u c = i_splat_kernel true .float64x4_avx u c := by
  have e0 : i_splat_kernel false .float64x4_avx u c = some (List.replicate 4 (c.getD u 0)) := by
    unfold i_splat_kernel
    dsimp only
    rw [i_splat_tier_some, i_splat_float64x4_eq false c u hc hu]
    exact hu
  have e1 : i_splat_kernel true .float64x4_avx u c = some (List.replicate 4 (c.getD u 0)) := by
    unfold i_splat_kernel
    dsimp only
    rw [i_splat_tier_some, i_splat_float64x4_eq true c u hc hu]
    exact hu
  refine ⟨⟨a.getD s 0, getD_get? a s (by omega), ?_⟩,
    ⟨b.getD t 0, getD_get? b t (by omega), ?_⟩,
    ⟨c.getD u 0, getD_get? c u (by omega), e0, e1⟩, e0.trans e1.symm⟩
  · unfold i_splat_kernel
    dsimp only
    rw [i_splat_tier_some, i_splat_uint32x8_eq a s ha hs]
    exact hs
  · unfold i_splat_kernel
    dsimp only
    rw [i_splat_tier_some, i_splat_float32x8_eq b t hb ht]
    exact ht

/-- C27 at a concrete input: lanes 6, 5 and 3 of the lanes 100, 101, .... -/
theorem i_splat_256_kernels_witness :
    (∃ x, (splat_example_lanes 8).get? 6 = some x ∧
      i_splat_kernel true .uint32x8_avx2 6 (splat_example_lanes 8) =
        some (List.replicate 8 x)) ∧
    (∃ y, (splat_example_lanes 8).get? 5 = some y ∧
      i_splat_kernel true .float32x8_avx 5 (splat_example_lanes 8) =
        some (List.replicate 8 y)) ∧
    (∃ z, (splat_example_lanes 4).get? 3 = some z ∧
      i_splat_kernel false .float64x4_avx 3 (splat_example_lanes 4) =
        some (List.replicate 4 z) ∧
      i_splat_kernel true .float64x4_avx 3 (splat_example_lanes 4) =
        some (List.replicate 4 z)) ∧
    i_splat_kernel false .float64x4_avx 3 (splat_example_lanes 4) =
      i_splat_kernel true .float64x4_avx 3 (splat_example_lanes 4) :=
  i_splat_256_kernels true (splat_example_lanes 8) (splat_example_lanes 8)
    (splat_example_lanes 4) 6 5 3 (by decide) (by decide) (by decide) (by decide)
    (by decide) (by decide)

/-- C28: for the AVX-512 kernels of `uint64<8>` and `float64<8>` the immediate
`((s/2) << 6) + ((s/2) << 4) + ((s/2) << 2) + (s/2)` is below 256 and each of
its four 2-bit fields holds `s/2`; these two kernels and the `uint32<16>`
kernel are accepted for every in-range `s` and return the vector whose every
lane is lane `s` of the operand. -/
theorem i_splat_512_kernels (avx2 : Bool) (a b c : List Nat) (s t u : Nat)
    (ha : a.length = 8) (hs : s < 8) (hb : b.length = 8) (ht : t < 8)
    (hc : c.length = 16) (hu : u < 16) :
    (splat_imm64 s < 256 ∧ splat_imm64 s % 4 = s / 2 ∧ splat_imm64 s / 4 % 4 = s / 2 ∧
      splat_imm64 s / 16 % 4 = s / 2 ∧ splat_imm64 s / 64 % 4 = s / 2) ∧
    (∃ x, a.get? s = some x ∧
      i_splat_kernel avx2 .uint64x8_avx512 s a = some (List.replicate 8 x)) ∧
    (∃ y, b.get? t = some y ∧
      i_splat_kernel avx2 .float64x8_avx512 t b = some (List.replicate 8 y)) ∧
    ∃ z, c.get? u = some z ∧
      i_splat_kernel avx2 .uint32x16_avx512 u c = some (List.replicate 16 z) := by
  obtain ⟨f0, f1, f2, f3, f4, _⟩ := splat_imm64_fields s hs
  refine ⟨⟨f4, f0, f1, f2, f3⟩, ⟨a.getD s 0, getD_get? a s (by omega), ?_⟩,
    ⟨b.getD t 0, getD_get? b t (by omega), ?_⟩, c.getD u 0, getD_get? c u (by omega), ?_⟩
  · unfold i_splat_kernel
    dsimp only
    rw [i_splat_tier_some, i_splat_uint64x8_eq a s ha hs]
    exact hs
  · unfold i_splat_kernel
    dsimp only
    rw [i_splat_tier_some, i_splat_float64x8_eq b t hb ht]
    exact ht
  · unfold i_splat_kernel
    dsimp only
    rw [i_splat_tier_some, i_splat_uint32x16_eq c u hc hu]
    exact hu

/-- C28 at a concrete input: lanes 5, 7 and 13 of the lanes 100, 101, .... -/
theorem i_splat_512_kernels_witness :
    (splat_imm64 5 < 256 ∧ splat_imm64 5 % 4 = 5 / 2 ∧ splat_imm64 5 / 4 % 4 = 5 / 2 ∧
      splat_imm64 5 / 16 % 4 = 5 / 2 ∧ splat_imm64 5 / 64 % 4 = 5 / 2) ∧
    (∃ x, (splat_example_lanes 8).get? 5 = some x ∧
      i_splat_kernel true .uint64x8_avx512 5 (splat_example_lanes 8) =
        some (List.replicate 8 x)) ∧
    (∃ y, (splat_example_lanes 8).get? 7 = some y ∧
      i_splat_kernel true .float64x8_avx512 7 (splat_example_lanes 8) =
        some (List.replicate 8 y)) ∧
    ∃ z, (splat_example_lanes 16).get? 13 = some z ∧
      i_splat_kernel true .uint32x16_avx512 13 (splat_example_lanes 16) =
        some (List.replicate 16 z) :=
  i_splat_512_kernels true (splat_example_lanes 8) (splat_example_lanes 8)
    (splat_example_lanes 16) 5 7 13 (by decide) (by decide) (by decide) (by decide)
    (by decide) (by decide)

/-- C25, evaluated at `s = 4` on the lanes 100, 101, ..., 115: the AVX-512
kernel of `float32<16>` returns lane 4 of the operand (104) in lanes 0 .. 3 only
and lane 0 of the operand (100) in lanes 4 .. 15, because the immediate `s/4 = 1`
has the chunk index in its bit pair [1:0] alone; the `uint32<16>` kernel
returns 104 in all 16 lanes. -/
theorem i_splat_float32x16_not_broadcast :
    i_splat_kernel true .float32x16_avx512 4 (splat_example_lanes 16) =
      some [104, 104, 104, 104, 100, 100, 100, 100, 100, 100, 100, 100, 100, 100, 100, 100] ∧
    (splat_example_lanes 16).get? 4 = some 104 ∧
    i_splat_kernel true .float32x16_avx512 4 (splat_example_lanes 16) ≠
      some (List.replicate 16 104) ∧
    i_splat_kernel true .uint32x16_avx512 4 (splat_example_lanes 16) =
      some (List.replicate 16 104) := by
  decide

/-! ### `ceil`: the result lies in `[x, x + 1)` -/

theorem f32_val_nonneg (b : Nat) (hb : b < 2 ^ 31) : 0 ≤ f32_val b := by
  have hs : ¬ f32_sign b = 1 := by
    unfold f32_sign
    rw [Nat.div_eq_of_lt hb]
    decide
  unfold f32_val
  rw [if_neg hs]
  positivity

theorem f32_val_abs (a : Nat) (h : a < 2 ^ 32) : |f32_val a| = f32_val (f32_abs a) := by
  unfold f32_abs
  by_cases c : a < 2 ^ 31
  · rw [Nat.mod_eq_of_lt c, abs_of_nonneg (f32_val_nonneg a c)]
  · have hb : a - 2 ^ 31 < 2 ^ 31 := by omega
    have e : a = 2 ^ 31 + (a - 2 ^ 31) := by omega
    have e2 : a % 2 ^ 31 = a - 2 ^ 31 := by omega
    rw [e2]
    conv_lhs => rw [e]
    rw [f32_val_neg _ hb, abs_neg, abs_of_nonneg (f32_val_nonneg _ hb)]

theorem ceil_lane_bounds (t : CeilTier) (a : Nat) (h : a < 2 ^ 32) :
    (f32_is_finite a →
      f32_val a ≤ f32_val (ceil_lane t a) ∧ f32_val (ceil_lane t a) < f32_val a + 1) ∧
    (¬ f32_is_nan a → (8388607 < |f32_val a| ∨ f32_val a = 0 ∨ ¬ f32_is_finite a) →
      ceil_lane t a = a) := by
  constructor
  · intro hfin
    by_cases hm : f32_abs a = 0x4AFFFFFF
    · have hmask : ceil_lane t a = a := by
        apply ceil_lane_masked
        unfold f32_abs at hm
        omega
      rw [hmask]
      exact ⟨le_refl _, by linarith⟩
    · rw [ceil_lane_value t a h hfin hm]
      exact ⟨Int.le_ceil _, Int.ceil_lt_add_one _⟩
  · intro hnan hc
    have hb : a % 2 ^ 31 < 2 ^ 31 := Nat.mod_lt _ (by norm_num)
    obtain ⟨o1, o2⟩ := f32_order_check (a % 2 ^ 31) hb
    have habs := f32_val_abs a h
    unfold f32_abs at habs
    have htop : a % 2 ^ 31 ≤ 0x7F800000 := by
      by_contra c
      apply hnan
      unfold f32_is_nan f32_exp f32_man
      omega
    apply ceil_lane_masked
    rcases hc with hc | hc | hc
    · rw [habs] at hc
      exact Or.inr ⟨o1.2 hc, htop⟩
    · have : f32_val (a % 2 ^ 31) = 0 := by rw [← habs, hc, abs_zero]
      exact Or.inl (o2.2 this)
    · right
      refine ⟨?_, htop⟩
      unfold f32_is_finite f32_exp at hc
      omega

/-- C32: on both emulated tiers, for a vector of four 32-bit patterns, every
lane `x` and its result lane `r` satisfy: if `x` is finite then
`x <= r < x + 1` as rational (hence real) numbers; and if `x` is not a NaN and
its magnitude is greater than 8388607, or it is a zero, or it is infinite, then
`r` is `x`, bit for bit. -/
theorem ceil_emulated_bounds (t : CeilTier) (mm_ceil_ps vec_ceil : List Nat → List Nat)
    (a : List Nat) (ha : wf_float32x4 a) :
    ceil (.emulated t) mm_ceil_ps vec_ceil a = ceil_emulated t a ∧
    (ceil_emulated t a).length = 4 ∧
    ∀ i x r, a.get? i = some x → (ceil_emulated t a).get? i = some r →
      (f32_is_finite x →
        f32_val x ≤ f32_val r ∧ f32_val r < f32_val x + 1 ∧
        ((f32_val x : ℚ) : ℝ) ≤ ((f32_val r : ℚ) : ℝ) ∧
        ((f32_val r : ℚ) : ℝ) < ((f32_val x : ℚ) : ℝ) + 1) ∧
      (¬ f32_is_nan x → (8388607 < |f32_val x| ∨ f32_val x = 0 ∨ ¬ f32_is_finite x) →
        r = x) := by
  obtain ⟨hlen, hlt⟩ := ha
  have hl := ceil_emulated_lanes t a hlen
  refine ⟨(ceil_branches t mm_ceil_ps vec_ceil a).1, by rw [hl, List.length_map, hlen], ?_⟩
  intro i x r hx hr
  have hmem : x ∈ a := List.get?_mem hx
  rw [List.get?_eq_getElem?] at hx
  rw [hl, List.get?_eq_getElem?, List.getElem?_map, hx] at hr
  have hr1 : ceil_lane t x = r := by simpa using hr
  obtain ⟨b1, b2⟩ := ceil_lane_bounds t x (hlt x hmem)
  rw [hr1] at b1 b2
  refine ⟨?_, b2⟩
  intro hfin
  obtain ⟨c1, c2⟩ := b1 hfin
  refine ⟨c1, c2, by exact_mod_cast c1, by exact_mod_cast c2⟩

/-- C32 at a concrete input: `1.5`, `-0.5`, `8388608.0` and `+0.0` on the SSE2
tier. -/
theorem ceil_emulated_bounds_witness :
    ceil (.emulated .sse2) (fun v => v) (fun v => v)
        [0x3FC00000, 0xBF000000, 0x4B000000, 0x00000000] =
      ceil_emulated .sse2 [0x3FC00000, 0xBF000000, 0x4B000000, 0x00000000] ∧
    (ceil_emulated .sse2 [0x3FC00000, 0xBF000000, 0x4B000000, 0x00000000]).length = 4 ∧
    ∀ i x r, [0x3FC00000, 0xBF000000, 0x4B000000, 0x00000000].get? i = some x →
      (ceil_emulated .sse2 [0x3FC00000, 0xBF000000, 0x4B000000, 0x00000000]).get? i =
        some r →
      (f32_is_finite x →
        f32_val x ≤ f32_val r ∧ f32_val r < f32_val x + 1 ∧
        ((f32_val x : ℚ) : ℝ) ≤ ((f32_val r : ℚ) : ℝ) ∧
        ((f32_val r : ℚ) : ℝ) < ((f32_val x : ℚ) : ℝ) + 1) ∧
      (¬ f32_is_nan x → (8388607 < |f32_val x| ∨ f32_val x = 0 ∨ ¬ f32_is_finite x) →
        r = x) :=
  ceil_emulated_bounds .sse2 (fun v => v) (fun v => v)
    [0x3FC00000, 0xBF000000, 0x4B000000, 0x00000000] ⟨rfl, by decide⟩

/-! ### The refinement step never overshoots -/

/-- Every tier kernel of the refinement on four lanes applies the scalar
formula to each pair of lanes. -/
theorem i_rsqrt_rh_lanes {K : Type} [Field K] [CharZero K] (arch : RsqrtArch)
    (x a : List K) (hx : x.length = 4) (ha : a.length = 4) :
    i_rsqrt_rh arch x a = List.zipWith (fun p q => rsqrt_rh_scalar p q) x a := by
  obtain ⟨x0, x1, x2, x3, rfl⟩ := list_length_4 x hx
  obtain ⟨a0, a1, a2, a3, rfl⟩ := list_length_4 a ha
  have h0 := rsqrt_rh_lane_forms x0 a0
  have h1 := rsqrt_rh_lane_forms x1 a1
  have h2 := rsqrt_rh_lane_forms x2 a2
  have h3 := rsqrt_rh_lane_forms x3 a3
  cases arch
  · simp only [i_rsqrt_rh, null_foreach2]
  · simp only [i_rsqrt_rh, v_rsqrt_rh, f_mul, f_mul_scalar, f_sub_scalar,
      List.zipWith_cons_cons, List.zipWith_nil_left, List.map_cons, List.map_nil,
      h0.1, h1.1, h2.1, h3.1, h0.2.1, h1.2.1, h2.2.1, h3.2.1]
  · simp only [i_rsqrt_rh, i_rsqrt_rh_neon, vrsqrtsq_f32, f_mul,
      List.zipWith_cons_cons, List.zipWith_nil_left,
      h0.1, h1.1, h2.1, h3.1, h0.2.2.1, h1.2.2.1, h2.2.2.1, h3.2.2.1]
  · simp only [i_rsqrt_rh, i_rsqrt_rh_altivec, vec_nmsub, make_float, f_mul, f_mul_scalar,
      List.replicate, List.zipWith_cons_cons, List.zipWith_nil_left, List.map_cons,
      List.map_nil, h0.1, h1.1, h2.1, h3.1, h0.2.2.2, h1.2.2.2, h2.2.2.2, h3.2.2.2]

theorem rsqrt_rh_step_le (x a s : ℝ) (hs : s * s = a) (hs0 : 0 < s) (hx : 0 ≤ x) :
    rsqrt_rh_scalar x a ≤ 1 / s ∧ (rsqrt_rh_scalar x a = 1 / s ↔ x = 1 / s) := by
  have herr := rsqrt_rh_error x a s hs
  have he : 0 ≤ x * s := mul_nonneg hx (le_of_lt hs0)
  have hpos : 0 < 3 + (x * s - 1) := by linarith
  have hle : rsqrt_rh_scalar x a * s ≤ 1 := by
    have : 0 ≤ (x * s - 1) ^ 2 * (3 + (x * s - 1)) := by positivity
    linarith
  have hxs : x = 1 / s ↔ x * s = 1 := by
    rw [eq_div_iff (ne_of_gt hs0)]
  have hrs : rsqrt_rh_scalar x a = 1 / s ↔ rsqrt_rh_scalar x a * s = 1 := by
    rw [eq_div_iff (ne_of_gt hs0)]
  refine ⟨by rw [le_div_iff₀ hs0]; exact hle, ?_⟩
  rw [hxs, hrs]
  constructor
  · intro h
    have h0 : (x * s - 1) ^ 2 * (3 + (x * s - 1)) = 0 := by linarith
    rcases mul_eq_zero.1 h0 with h1 | h1
    · have := pow_eq_zero_iff (two_ne_zero) |>.1 h1
      linarith
    · linarith
  · intro h
    have : x * s - 1 = 0 := by linarith
    rw [this] at herr
    linarith [herr]

/-- C33: in exact arithmetic, for every real `a > 0` and every estimate
`x >= 0` the refined value `x' = x*(3 - a*x*x)*0.5` satisfies
`x' <= 1/sqrt(a)`, with equality exactly when `x = 1/sqrt(a)`; so the exact
reciprocal square root is a fixed point of the step. Every tier kernel of
`i_rsqrt_rh` on four lanes and the generic `v_rsqrt_rh` compute this `x'` in
each lane. -/
theorem rsqrt_rh_never_overshoots (arch : RsqrtArch) (xs as ys bs : List ℝ) (a x : ℝ)
    (hxs : xs.length = 4) (has : as.length = 4) (ha : 0 < a) (hx : 0 ≤ x) :
    i_rsqrt_rh arch xs as = List.zipWith (fun p q => rsqrt_rh_scalar p q) xs as ∧
    v_rsqrt_rh ys bs = List.zipWith (fun p q => rsqrt_rh_scalar p q) ys bs ∧
    rsqrt_rh_scalar x a = x * (3 - a * x * x) * 0.5 ∧
    rsqrt_rh_scalar x a ≤ 1 / Real.sqrt a ∧
    (rsqrt_rh_scalar x a = 1 / Real.sqrt a ↔ x = 1 / Real.sqrt a) ∧
    rsqrt_rh_scalar (1 / Real.sqrt a) a = 1 / Real.sqrt a := by
  have hs : Real.sqrt a * Real.sqrt a = a := Real.mul_self_sqrt (le_of_lt ha)
  have hs0 : 0 < Real.sqrt a := Real.sqrt_pos.2 ha
  have h := rsqrt_rh_step_le x a (Real.sqrt a) hs hs0 hx
  have hfix := (rsqrt_rh_step_le (1 / Real.sqrt a) a (Real.sqrt a) hs hs0
    (by positivity)).2.2 rfl
  refine ⟨i_rsqrt_rh_lanes arch xs as hxs has, ?_, (rsqrt_rh_lane_forms x a).1, h.1, h.2, hfix⟩
  rw [v_rsqrt_rh_lanes]
  congr 1
  funext p q
  exact ((rsqrt_rh_lane_forms p q).1).symm

/-- C33 at a concrete input: `a = 4` and the estimate `x = 1/4`, on the NEON
kernel. -/
theorem rsqrt_rh_never_overshoots_witness :
    i_rsqrt_rh .neon_flt_sp [(1 : ℝ), 2, 3, 1 / 2] [1, 1 / 4, 1 / 9, 5] =
      List.zipWith (fun p q => rsqrt_rh_scalar p q) [(1 : ℝ), 2, 3, 1 / 2] [1, 1 / 4, 1 / 9, 5] ∧
    v_rsqrt_rh [(2 : ℝ), 1] [1 / 4, 1] =
      List.zipWith (fun p q => rsqrt_rh_scalar p q) [(2 : ℝ), 1] [1 / 4, 1] ∧
    rsqrt_rh_scalar (1 / 4 : ℝ) 4 = 1 / 4 * (3 - 4 * (1 / 4) * (1 / 4)) * 0.5 ∧
    rsqrt_rh_scalar (1 / 4 : ℝ) 4 ≤ 1 / Real.sqrt 4 ∧
    (rsqrt_rh_scalar (1 / 4 : ℝ) 4 = 1 / Real.sqrt 4 ↔ (1 / 4 : ℝ) = 1 / Real.sqrt 4) ∧
    rsqrt_rh_scalar (1 / Real.sqrt 4) 4 = 1 / Real.sqrt 4 :=
  rsqrt_rh_never_overshoots .neon_flt_sp [(1 : ℝ), 2, 3, 1 / 2] [1, 1 / 4, 1 / 9, 5] [2, 1]
    [1 / 4, 1] 4 (1 / 4) rfl rfl (by norm_num) (by norm_num)

/-! ### Base-vector access of `float64<4>` and `mask_float64<4>` -/

/-- C31: a `float64<4>` is its own base vector: `v.vec(i)` is `v` for every
index `i` and `v.eval()` is `v`, and the same holds of a `mask_float64<4>`; so
every index names the same single constituent, and taking constituents or
evaluating any number of times stays at `v`. -/
theorem float64x4_own_base_vector (v : float64x4) (m : mask_float64x4) (i j : Nat) :
    v.vec i = v ∧ v.eval = v ∧ m.vec i = m ∧ m.eval = m ∧
    v.vec i = v.vec j ∧ m.vec i = m.vec j ∧
    (v.vec i).vec j = v ∧ (v.vec i).eval = v ∧ (m.vec i).vec j = m ∧ (m.vec i).eval = m ∧
    (v.vec i).d_ = v.d_ ∧ (m.vec i).d_ = m.d_ :=
  ⟨rfl, rfl, rfl, rfl, rfl, rfl, rfl, rfl, rfl, rfl, rfl, rfl⟩

/-! ### `align` of a vector with itself and the rotation loop -/

/-- The element `align` of a 128-bit vector returns the element window at every
accepted offset, for every element type. -/
theorem align128_window (T : AlignElem) (kernel : Nat → List Nat → List Nat → List Nat)
    (hk : is_window_kernel kernel) (s : Nat) (lower upper : List Nat)
    (hl : wf_elems T.size T.base_width lower) (hu : wf_elems T.size T.base_width upper)
    (hs : s ≤ T.base_width) :
    align128 T kernel s lower upper = some (((lower ++ upper).drop s).take T.base_width) := by
  cases T
  · have hs2 : s ≤ 16 := hs
    simp only [align128]
    exact align_int8x16_window kernel hk s lower upper hl.1 hu.1 hs2
  · have hs2 : s ≤ 8 := hs
    simp only [align128, align_int16x8]
    rw [if_neg (by omega)]
    exact align_wide_window 2 8 s kernel hk lower upper rfl hl hu hs2
  · have hs2 : s ≤ 4 := hs
    simp only [align128, align_int32x4]
    rw [if_neg (by omega)]
    exact align_wide_window 4 4 s kernel hk lower upper rfl hl hu hs2
  · have hs2 : s ≤ 2 := hs
    simp only [align128, align_int64x2]
    rw [if_neg (by omega)]
    exact align_wide_window 8 2 s kernel hk lower upper rfl hl hu hs2
  · have hs2 : s ≤ 4 := hs
    simp only [align128, align_float32x4, align_int32x4]
    rw [if_neg (by omega), if_neg (by omega)]
    exact align_wide_window 4 4 s kernel hk lower upper rfl hl hu hs2
  · have hs2 : s ≤ 2 := hs
    simp only [align128, align_float64x2, align_int64x2]
    rw [if_neg (by omega), if_neg (by omega)]
    exact align_wide_window 8 2 s kernel hk lower upper rfl hl hu hs2

theorem window_self_rotate (v : List Nat) (s : Nat) (hs : s ≤ v.length) :
    ((v ++ v).drop s).take v.length = v.rotate s := by
  rw [List.rotate_eq_drop_append_take hs, List.drop_append_of_le_length hs,
    List.take_append_eq_append_take, List.take_of_length_le (by simp), List.length_drop]
  congr 2
  omega

theorem align128_self (T : AlignElem) (kernel : Nat → List Nat → List Nat → List Nat)
    (hk : is_window_kernel kernel) (s : Nat) (v : List Nat)
    (hv : wf_elems T.size T.base_width v) (hs : s ≤ T.base_width) :
    align128 T kernel s v v = some (v.rotate s) := by
  rw [align128_window T kernel hk s v v hv hv hs, ← hv.1, window_self_rotate v s (by rw [hv.1]; exact hs)]

theorem wf_elems_rotate (b n : Nat) (v : List Nat) (k : Nat) (hv : wf_elems b n v) :
    wf_elems b n (v.rotate k) := by
  refine ⟨by rw [List.length_rotate, hv.1], ?_⟩
  intro x hx
  exact hv.2 x (List.mem_rotate.1 hx)

theorem rot_iter_rotate (T : AlignElem) (kernel : Nat → List Nat → List Nat → List Nat)
    (rot : List Nat → List Nat)
    (hrot : ∀ v, wf_elems T.size T.base_width v → align128 T kernel 1 v v = some (rot v))
    (hk : is_window_kernel kernel) (v : List Nat) (hv : wf_elems T.size T.base_width v)
    (k : Nat) : rot_iter rot k v = v.rotate k := by
  have h1 : 1 ≤ T.base_width := by cases T <;> decide
  induction k with
  | zero => simp [rot_iter]
  | succ k ih =>
    have hw := wf_elems_rotate _ _ v k hv
    have e := hrot (v.rotate k) hw
    rw [align128_self T kernel hk 1 _ hw h1] at e
    simp only [rot_iter]
    rw [ih, ← Option.some.inj e, List.rotate_rotate]

theorem comb_rot_loop_eq {V R : Type} (OP : V → R) (rot : V → V) (v : V) (pushed : List R)
    (n : Nat) :
    comb_rot_loop OP rot (v, pushed) n =
      (rot_iter rot n v, pushed ++ (List.range n).map (fun k => OP (rot_iter rot k v))) := by
  induction n with
  | zero => simp [comb_rot_loop, rot_iter]
  | succ n ih =>
    simp only [comb_rot_loop, ih, rot_iter, List.range_succ, List.map_append, List.map_cons,
      List.map_nil, List.append_assoc]

theorem rot_position_unique (W i j : Nat) (hi : i < W) (hj : j < W) :
    ∃ k, (k < W ∧ (i + k) % W = j) ∧ ∀ k1, k1 < W ∧ (i + k1) % W = j → k1 = k := by
  have key : ∀ k, k < W → ((i + k) % W = j ↔ (i + k = j ∨ i + k = j + W)) := by
    intro k hk
    by_cases c : i + k < W
    · rw [Nat.mod_eq_of_lt c]
      omega
    · rw [Nat.mod_eq_sub_mod (by omega), Nat.mod_eq_of_lt (by omega)]
      omega
  by_cases c : i ≤ j
  · refine ⟨j - i, ⟨by omega, (key _ (by omega)).2 (by omega)⟩, ?_⟩
    intro k1 ⟨h1, h2⟩
    have := (key k1 h1).1 h2
    omega
  · refine ⟨j + W - i, ⟨by omega, (key _ (by omega)).2 (by omega)⟩, ?_⟩
    intro k1 ⟨h1, h2⟩
    have := (key k1 h1).1 h2
    omega

/-- C34: aligning a 128-bit vector `l` of `W` elements with itself rotates it:
for `s <= W`, `align<s>(l, l)[i] = l[(i + s) mod W]`. Hence `k` applications
of `l := align<1>(l, l)` give lane `i = l[(i + k) mod W]`, `W` applications
return `l`, and the rotation loop of the test helpers (bound `sizeof(T)/EL_SIZE
= W`) applies `OP` to the `W` rotations `k = 0, ..., W-1` of `l` and leaves
`l` as it was; for every lane `i` and every element index `j` exactly one of
these `k` puts element `j` at lane `i`. `rot v` is `align_v128<1>(v, v)`, taken
to be `align<1>(v, v)`. -/
theorem align_self_is_rotation (T : AlignElem)
    (kernel : Nat → List Nat → List Nat → List Nat) (rot : List Nat → List Nat)
    (hk : is_window_kernel kernel)
    (hrot : ∀ v, wf_elems T.size T.base_width v → align128 T kernel 1 v v = some (rot v))
    (l : List Nat) (hl : wf_elems T.size T.base_width l) :
    (∀ s, s ≤ T.base_width → ∃ r, align128 T kernel s l l = some r ∧ r = l.rotate s ∧
      ∀ i, i < T.base_width → r.get? i = l.get? ((i + s) % T.base_width)) ∧
    (∀ k i, i < T.base_width →
      (rot_iter rot k l).get? i = l.get? ((i + k) % T.base_width)) ∧
    rot_iter rot T.base_width l = l ∧
    comb_rot_loop (fun v => v) rot (l, []) (16 / T.size) =
      (l, (List.range T.base_width).map (fun k => l.rotate k)) ∧
    TEST_ALL_COMB_HELPER1 16 16 T.size (fun v => v) rot (fun _ => l) =
      (List.range T.base_width).map (fun k => l.rotate k) ∧
    (∀ k i, k < T.base_width → i < T.base_width →
      (l.rotate k).get? i = l.get? ((i + k) % T.base_width)) ∧
    ∀ i j, i < T.base_width → j < T.base_width →
      ∃ k, (k < T.base_width ∧ (i + k) % T.base_width = j) ∧
        ∀ k1, k1 < T.base_width ∧ (i + k1) % T.base_width = j → k1 = k := by
  have hlane : ∀ k i, i < T.base_width →
      (l.rotate k).get? i = l.get? ((i + k) % T.base_width) := by
    intro k i hi
    have := List.get?_rotate (l := l) (n := k) (m := i) (by rw [hl.1]; exact hi)
    rw [hl.1] at this
    exact this
  have hiter := rot_iter_rotate T kernel rot hrot hk l hl
  have hfull : rot_iter rot T.base_width l = l := by
    rw [hiter]
    have := List.rotate_length l
    rw [hl.1] at this
    exact this
  have hloop : comb_rot_loop (fun v => v) rot (l, []) (16 / T.size) =
      (l, (List.range T.base_width).map (fun k => l.rotate k)) := by
    show comb_rot_loop (fun v => v) rot (l, []) T.base_width = _
    rw [comb_rot_loop_eq, hfull, List.nil_append]
    congr 1
    apply List.map_congr_left
    intro k _
    exact hiter k
  refine ⟨?_, ?_, hfull, hloop, ?_, fun k i _ hi => hlane k i hi, ?_⟩
  · intro s hs
    exact ⟨l.rotate s, align128_self T kernel hk s l hl hs, rfl, fun i hi => hlane s i hi⟩
  · intro k i hi
    rw [hiter k]
    exact hlane k i hi
  · unfold TEST_ALL_COMB_HELPER1
    have e : (16 : Nat) / 16 = 1 := by norm_num
    rw [e]
    simp only [comb1_loop]
    rw [hloop]
  · intro i j hi hj
    exact rot_position_unique T.base_width i j hi hj

/-- C34 at a concrete input: the 32-bit lanes `[1, 2, 3, 70000]` on the scalar
tier. -/
theorem align_self_is_rotation_witness :
    (∀ s, s ≤ AlignElem.int32.base_width →
      ∃ r, align128 .int32 align_null_kernel_zero s [1, 2, 3, 70000] [1, 2, 3, 70000] = some r ∧
        r = [1, 2, 3, 70000].rotate s ∧
        ∀ i, i < AlignElem.int32.base_width →
          r.get? i = [1, 2, 3, 70000].get? ((i + s) % AlignElem.int32.base_width)) ∧
    (∀ k i, i < AlignElem.int32.base_width →
      (rot_iter comb_example_rot k [1, 2, 3, 70000]).get? i =
        [1, 2, 3, 70000].get? ((i + k) % AlignElem.int32.base_width)) ∧
    rot_iter comb_example_rot AlignElem.int32.base_width [1, 2, 3, 70000] = [1, 2, 3, 70000] ∧
    comb_rot_loop (fun v => v) comb_example_rot ([1, 2, 3, 70000], [])
        (16 / AlignElem.int32.size) =
      ([1, 2, 3, 70000],
        (List.range AlignElem.int32.base_width).map (fun k => [1, 2, 3, 70000].rotate k)) ∧
    TEST_ALL_COMB_HELPER1 16 16 AlignElem.int32.size (fun v => v) comb_example_rot
        (fun _ => [1, 2, 3, 70000]) =
      (List.range AlignElem.int32.base_width).map (fun k => [1, 2, 3, 70000].rotate k) ∧
    (∀ k i, k < AlignElem.int32.base_width → i < AlignElem.int32.base_width →
      ([1, 2, 3, 70000].rotate k).get? i =
        [1, 2, 3, 70000].get? ((i + k) % AlignElem.int32.base_width)) ∧
    ∀ i j, i < AlignElem.int32.base_width → j < AlignElem.int32.base_width →
      ∃ k, (k < AlignElem.int32.base_width ∧ (i + k) % AlignElem.int32.base_width = j) ∧
        ∀ k1, k1 < AlignElem.int32.base_width ∧
          (i + k1) % AlignElem.int32.base_width = j → k1 = k :=
  align_self_is_rotation .int32 align_null_kernel_zero comb_example_rot
    (align_null_is_window (List.replicate 16 0) rfl)
    (fun v hv => align128_self .int32 align_null_kernel_zero
      (align_null_is_window (List.replicate 16 0) rfl) 1 v hv (by decide))
    [1, 2, 3, 70000] (by refine ⟨rfl, ?_⟩; decide)

/-! ### `TEST_ALL_COMB_HELPER3` -/

theorem comb3_rot1_loop_length {V R : Type} (OP : V → V → V → R) (rot : V → V) (v2 : V)
    (st : Comb3State V R) (n : Nat) :
    (comb3_rot1_loop OP rot v2 st n).pushed.length = st.pushed.length + n := by
  induction n with
  | zero => rfl
  | succ n ih =>
    simp only [comb3_rot1_loop, List.length_append, List.length_singleton, ih]
    omega

theorem comb3_rot0_loop_length {V R : Type} (OP : V → V → V → R) (rot : V → V) (v2 : V)
    (bound : Nat) (st : Comb3State V R) (n : Nat) :
    (comb3_rot0_loop OP rot v2 bound st n).pushed.length = st.pushed.length + n * bound := by
  induction n with
  | zero => simp [comb3_rot0_loop]
  | succ n ih =>
    simp only [comb3_rot0_loop, comb3_rot1_loop_length, ih]
    rw [Nat.succ_mul]
    omega

theorem comb3_i2_loop_length {V R : Type} (OP : V → V → V → R) (rot : V → V) (A : Nat → V)
    (bound i0 i1 : Nat) (pushed : List R) (n : Nat) :
    (comb3_i2_loop OP rot A bound i0 i1 pushed n).length =
      pushed.length + n * (bound * bound) := by
  induction n with
  | zero => simp [comb3_i2_loop]
  | succ n ih =>
    simp only [comb3_i2_loop, comb3_rot0_loop_length, ih]
    rw [Nat.succ_mul]
    omega

theorem comb3_i1_loop_length {V R : Type} (OP : V → V → V → R) (rot : V → V) (A : Nat → V)
    (bound entries i0 : Nat) (pushed : List R) (n : Nat) :
    (comb3_i1_loop OP rot A bound entries i0 pushed n).length =
      pushed.length + n * (entries * (bound * bound)) := by
  induction n with
  | zero => simp [comb3_i1_loop]
  | succ n ih =>
    simp only [comb3_i1_loop, comb3_i2_loop_length, ih]
    rw [Nat.succ_mul]
    omega

theorem comb3_i0_loop_length {V R : Type} (OP : V → V → V → R) (rot : V → V) (A : Nat → V)
    (bound entries : Nat) (pushed : List R) (n : Nat) :
    (comb3_i0_loop OP rot A bound entries pushed n).length =
      pushed.length + n * (entries * (entries * (bound * bound))) := by
  induction n with
  | zero => simp [comb3_i0_loop]
  | succ n ih =>
    simp only [comb3_i0_loop, comb3_i1_loop_length, ih]
    rw [Nat.succ_mul]
    omega

/-- C35: `TEST_ALL_COMB_HELPER3` pushes the result of `OP` exactly `n^3 * r^2`
times, with `n = sizeof(A)/sizeof(T)` and `r = (sizeof(T)/EL_SIZE) mod 4`; when
the lane count `sizeof(T)/EL_SIZE` is a multiple of 4 it pushes nothing. -/
theorem test_all_comb_helper3_count {V R : Type} (sizeof_A sizeof_T EL_SIZE : Nat)
    (OP : V → V → V → R) (rot : V → V) (A : Nat → V) :
    (TEST_ALL_COMB_HELPER3 sizeof_A sizeof_T EL_SIZE OP rot A).length =
      (sizeof_A / sizeof_T) ^ 3 * (sizeof_T / EL_SIZE % 4) ^ 2 ∧
    (4 ∣ sizeof_T / EL_SIZE →
      TEST_ALL_COMB_HELPER3 sizeof_A sizeof_T EL_SIZE OP rot A = []) := by
  have h : (TEST_ALL_COMB_HELPER3 sizeof_A sizeof_T EL_SIZE OP rot A).length =
      (sizeof_A / sizeof_T) ^ 3 * (sizeof_T / EL_SIZE % 4) ^ 2 := by
    unfold TEST_ALL_COMB_HELPER3
    rw [comb3_i0_loop_length, List.length_nil]
    ring
  refine ⟨h, ?_⟩
  intro hd
  apply List.eq_nil_of_length_eq_zero
  rw [h, Nat.mod_eq_zero_of_dvd hd]
  simp

/-- C35 at a concrete input: an array of three 16-byte vectors; with 4-byte
elements nothing is pushed, with 8-byte elements `3^3 * 2^2 = 108` values. -/
theorem test_all_comb_helper3_count_witness :
    (TEST_ALL_COMB_HELPER3 48 16 4 (fun a b c => (a, b, c)) comb_example_rot
        comb_example_array).length = (48 / 16) ^ 3 * (16 / 4 % 4) ^ 2 ∧
    4 ∣ 16 / 4 ∧
    TEST_ALL_COMB_HELPER3 48 16 4 (fun a b c => (a, b, c)) comb_example_rot
        comb_example_array = [] ∧
    (TEST_ALL_COMB_HELPER3 48 16 8 (fun a b c => (a, b, c)) comb_example_rot
        comb_example_array).length = (48 / 16) ^ 3 * (16 / 8 % 4) ^ 2 :=
  ⟨(test_all_comb_helper3_count 48 16 4 (fun a b c => (a, b, c)) comb_example_rot
      comb_example_array).1,
   by decide,
   (test_all_comb_helper3_count 48 16 4 (fun a b c => (a, b, c)) comb_example_rot
      comb_example_array).2 (by decide),
   (test_all_comb_helper3_count 48 16 8 (fun a b c => (a, b, c)) comb_example_rot
      comb_example_array).1⟩

end Simdpp
